import Mathlib

/-!
# libbitcoin chain primitives: byte codec, operations, outpoints, headers, blocks

A shallow embedding of the serialisation code of `chain/point.hpp`,
`chain/script/operation.hpp`, `chain/header.hpp` and `chain/block.hpp`,
together with the merkle-root builder, the script pattern predicates, the
conditional stack, `chain/input.hpp` and the character break detection of
`utility/unicode.cpp`, and the properties proved about it.

Conventions of the embedding:
* a byte is a `Fin 256`, a `uint32_t` a `Fin (2^32)`, a `uint64_t` a `Fin (2^64)`;
* a C++ member function that mutates `*this` and a `reader& source` becomes a
  function that takes the object and the reader and returns the result together
  with the new object and the new reader;
* writers into a `data_sink` become functions returning the bytes written;
* container sizes (`size_t`) are natural numbers: a vector in memory is far
  shorter than 2^64, so size sums do not wrap; narrowing casts are explicit.
-/

set_option autoImplicit false

namespace libbitcoin

/-! ## Bytes and machine integers -/

abbrev byte := Fin 256
abbrev data_chunk := List byte
abbrev uint16 := Fin 65536
abbrev uint32 := Fin 4294967296
abbrev uint64 := Fin 18446744073709551616

/-- Modelled from the spec: the constant `max_uint32`, 0xFFFFFFFF. -/
def max_uint32 : uint32 := 4294967295

/-- The conversion `static_cast<uint8_t>`: the value modulo 2^8. -/
def cast_uint8 (n : Nat) : byte := ⟨n % 256, Nat.mod_lt _ (by decide)⟩

/-- The conversion `static_cast<uint16_t>`: the value modulo 2^16. -/
def cast_uint16 (n : Nat) : uint16 := ⟨n % 65536, Nat.mod_lt _ (by decide)⟩

/-- The conversion `static_cast<uint32_t>`: the value modulo 2^32. -/
def cast_uint32 (n : Nat) : uint32 := ⟨n % 4294967296, Nat.mod_lt _ (by decide)⟩

/-- The conversion `static_cast<uint64_t>`: the value modulo 2^64. -/
def cast_uint64 (n : Nat) : uint64 := ⟨n % 18446744073709551616, Nat.mod_lt _ (by decide)⟩

/-- Little-endian bytes of `v`, exactly `k` of them (the value is cut to `k` bytes). -/
def to_little_endian : Nat → Nat → data_chunk
  | 0, _ => []
  | k + 1, v => cast_uint8 v :: to_little_endian k (v / 256)

/-- Value of a little-endian byte string. -/
def from_little_endian : data_chunk → Nat
  | [] => 0
  | b :: bs => b.val + 256 * from_little_endian bs

/-! ## 32-byte hashes -/

/-- Modelled from the spec: the constant `hash_size`, the 32 bytes of a hash. -/
def hash_size : Nat := 32

/-- Modelled from the spec: the constant `short_hash_size`, the 20 bytes of a
short hash. -/
def short_hash_size : Nat := 20

/-- Modelled from the spec: the `hash_digest` of `math/hash.hpp`, an array of
exactly 32 bytes. -/
structure hash_digest where
  bytes : data_chunk
  size_eq : bytes.length = 32
deriving DecidableEq

/-- Modelled from the spec: the `short_hash` of `math/hash.hpp`, an array of
exactly 20 bytes (`short_hash_size`). -/
structure short_hash where
  bytes : data_chunk
  size_eq : bytes.length = 20
deriving DecidableEq

/-- Cut or zero-fill a byte string to exactly 32 bytes. -/
def fit32 (bs : data_chunk) : data_chunk := (bs ++ List.replicate 32 (0 : byte)).take 32

/-- The hash value held by a 32-byte buffer filled from `bs`. -/
def hash_digest.of_bytes (bs : data_chunk) : hash_digest := ⟨fit32 bs, by simp [fit32]⟩

/-- Modelled from the spec: the constant `null_hash` of `math/hash.hpp`, the
canonical all-zero hash. -/
def null_hash : hash_digest := ⟨List.replicate 32 0, by simp⟩

/-! ## Byte reader and writer

`utility/reader.hpp` and `utility/writer.hpp` are not among the sources; the
chain classes only use their interface. -/

/-- Modelled from the spec: the byte reader of `utility/reader.hpp` (section 4.1:
sequential reads with a boolean stream-validity check usable to detect
truncation). `data` is what is left to read, `valid` is `static_cast<bool>(source)`. -/
structure reader where
  data : data_chunk
  valid : Bool
deriving DecidableEq

/-- A reader over a whole buffer, as `data_source istream(data)` builds it. -/
def reader.of_data (d : data_chunk) : reader := ⟨d, true⟩

/-- Modelled from the spec: `reader::read_data(n)`, a raw span of declared length.
On a valid stream holding at least `n` bytes it returns them and advances. A
short read returns the bytes that were there and invalidates the stream; on an
invalid stream nothing is read. -/
def reader.read_data (n : Nat) (r : reader) : data_chunk × reader :=
  if r.valid then
    if n ≤ r.data.length then (r.data.take n, ⟨r.data.drop n, true⟩)
    else (r.data, ⟨[], false⟩)
  else ([], r)

/-- Modelled from the spec: `reader::read_byte`. -/
def reader.read_byte (r : reader) : byte × reader :=
  let p := r.read_data 1
  (cast_uint8 (from_little_endian p.1), p.2)

/-- Modelled from the spec: `reader::read_2_bytes_little_endian`. -/
def reader.read_2_bytes_little_endian (r : reader) : uint16 × reader :=
  let p := r.read_data 2
  (cast_uint16 (from_little_endian p.1), p.2)

/-- Modelled from the spec: `reader::read_4_bytes_little_endian`. -/
def reader.read_4_bytes_little_endian (r : reader) : uint32 × reader :=
  let p := r.read_data 4
  (cast_uint32 (from_little_endian p.1), p.2)

/-- Modelled from the spec: `reader::read_8_bytes_little_endian`. -/
def reader.read_8_bytes_little_endian (r : reader) : uint64 × reader :=
  let p := r.read_data 8
  (cast_uint64 (from_little_endian p.1), p.2)

/-- Modelled from the spec: `reader::read_hash`, a 32-byte hash value. -/
def reader.read_hash (r : reader) : hash_digest × reader :=
  let p := r.read_data hash_size
  (hash_digest.of_bytes p.1, p.2)

/-- Modelled from the spec: `reader::read_variable_uint_little_endian`, the satoshi
variable-length integer of section 4.1: a first byte below 0xFD is the value;
0xFD, 0xFE, 0xFF announce a 2-, 4- or 8-byte little-endian value. -/
def reader.read_variable_uint_little_endian (r : reader) : uint64 × reader :=
  let p := r.read_byte
  if p.1.val < 0xfd then (cast_uint64 p.1.val, p.2)
  else if p.1.val = 0xfd then
    let q := p.2.read_2_bytes_little_endian
    (cast_uint64 q.1.val, q.2)
  else if p.1.val = 0xfe then
    let q := p.2.read_4_bytes_little_endian
    (cast_uint64 q.1.val, q.2)
  else p.2.read_8_bytes_little_endian

/-- Modelled from the spec: `writer::write_variable_uint_little_endian` (section
4.1): a value below 0xFD is one byte; otherwise the marker 0xFD, 0xFE or 0xFF
and the value in 2, 4 or 8 little-endian bytes, the shortest that holds it. -/
def write_variable_uint_little_endian (v : uint64) : data_chunk :=
  if v.val < 0xfd then [cast_uint8 v.val]
  else if v.val ≤ 0xffff then (0xfd : byte) :: to_little_endian 2 v.val
  else if v.val ≤ 0xffffffff then (0xfe : byte) :: to_little_endian 4 v.val
  else (0xff : byte) :: to_little_endian 8 v.val

/-- Modelled from the spec: `variable_uint_size`, the number of bytes of the
variable-length encoding (1, 3, 5 or 9). -/
def variable_uint_size (v : uint64) : Nat :=
  if v.val < 0xfd then 1
  else if v.val ≤ 0xffff then 3
  else if v.val ≤ 0xffffffff then 5
  else 9

/-- Modelled from the spec: what `writer::write_hash` emits, the 32 bytes. -/
def write_hash (h : hash_digest) : data_chunk := h.bytes

/-- Modelled from the spec: what `writer::write_4_bytes_little_endian` emits. -/
def write_4_bytes_little_endian (v : uint32) : data_chunk := to_little_endian 4 v.val

/-- Modelled from the spec: what `writer::write_2_bytes_little_endian` emits. -/
def write_2_bytes_little_endian (v : uint16) : data_chunk := to_little_endian 2 v.val

/-! ## chain::point (point.hpp) -/

structure point where
  hash : hash_digest
  index : uint32
deriving DecidableEq

namespace point

/-- The member `point::satoshi_fixed_size`: `hash_size + sizeof(uint32_t)`. -/
def satoshi_fixed_size : Nat := hash_size + 4

/-- The member `point::serialized_size`. -/
def serialized_size (_self : point) : Nat := satoshi_fixed_size

/-- The member `point::reset`. -/
def reset (_self : point) : point := ⟨null_hash, 0⟩

/-- The member `point::from_data(reader&)`: the result, the point and the reader afterwards. -/
def from_data (self : point) (source : reader) : Bool × point × reader :=
  let self := self.reset
  let h := source.read_hash
  let self := { self with hash := h.1 }
  let i := h.2.read_4_bytes_little_endian
  let self := { self with index := i.1 }
  let result := i.2.valid
  if !result then (result, self.reset, i.2) else (result, self, i.2)

/-- The static `point::factory_from_data`: `point instance;
instance.from_data(source); return instance;`. The default-initialised local
holds indeterminate values, the parameter `local_instance`; the result of
`from_data` is dropped. -/
def factory_from_data (local_instance : point) (source : reader) : point :=
  (from_data local_instance source).2.1

/-- The member `point::to_data(writer&)`, as the bytes written. -/
def to_data (self : point) : data_chunk :=
  write_hash self.hash ++ write_4_bytes_little_endian self.index

/-- The free `operator==(const point&, const point&)`. -/
def eq (left right : point) : Bool :=
  left.hash == right.hash && left.index == right.index

end point

/-! ## chain::opcode and chain::operation (operation.hpp)

`chain/script/opcode.hpp` is not among the sources: `opcode` is an enumeration
over `uint8_t`, converted from and to a byte by `static_cast` in `operation`. -/

abbrev opcode := byte

namespace opcode

/-- Modelled from the spec: the enumerator `opcode::zero`, the byte 0 (the
canonical zero-push code of section 4.3). -/
def zero : opcode := 0

/-- Modelled from the spec: the enumerator `opcode::special`, the push of 1 to 75
bytes sized by its own leading byte (section 4.3); its own value is 1. -/
def special : opcode := 1

/-- Modelled from the spec: the enumerator `opcode::pushdata1` (section 4.3), with
its script wire value. -/
def pushdata1 : opcode := 76

/-- Modelled from the spec: the enumerator `opcode::pushdata2` (section 4.3), with
its script wire value. -/
def pushdata2 : opcode := 77

/-- Modelled from the spec: the enumerator `opcode::pushdata4` (section 4.3), with
its script wire value. -/
def pushdata4 : opcode := 78

/-- Modelled from the spec: the enumerator `opcode::negative_1` of the push family
(section 4.3), with its script wire value. -/
def negative_1 : opcode := 79

/-- Modelled from the spec: the enumerator `opcode::op_1` of the push family
(section 4.3), with its script wire value. -/
def op_1 : opcode := 81

/-- Modelled from the spec: the enumerator `opcode::op_2` of the push family
(section 4.3), with its script wire value. -/
def op_2 : opcode := 82

/-- Modelled from the spec: the enumerator `opcode::op_3` of the push family
(section 4.3), with its script wire value. -/
def op_3 : opcode := 83

/-- Modelled from the spec: the enumerator `opcode::op_4` of the push family
(section 4.3), with its script wire value. -/
def op_4 : opcode := 84

/-- Modelled from the spec: the enumerator `opcode::op_5` of the push family
(section 4.3), with its script wire value. -/
def op_5 : opcode := 85

/-- Modelled from the spec: the enumerator `opcode::op_6` of the push family
(section 4.3), with its script wire value. -/
def op_6 : opcode := 86

/-- Modelled from the spec: the enumerator `opcode::op_7` of the push family
(section 4.3), with its script wire value. -/
def op_7 : opcode := 87

/-- Modelled from the spec: the enumerator `opcode::op_8` of the push family
(section 4.3), with its script wire value. -/
def op_8 : opcode := 88

/-- Modelled from the spec: the enumerator `opcode::op_9` of the push family
(section 4.3), with its script wire value. -/
def op_9 : opcode := 89

/-- Modelled from the spec: the enumerator `opcode::op_10` of the push family
(section 4.3), with its script wire value. -/
def op_10 : opcode := 90

/-- Modelled from the spec: the enumerator `opcode::op_11` of the push family
(section 4.3), with its script wire value. -/
def op_11 : opcode := 91

/-- Modelled from the spec: the enumerator `opcode::op_12` of the push family
(section 4.3), with its script wire value. -/
def op_12 : opcode := 92

/-- Modelled from the spec: the enumerator `opcode::op_13` of the push family
(section 4.3), with its script wire value. -/
def op_13 : opcode := 93

/-- Modelled from the spec: the enumerator `opcode::op_14` of the push family
(section 4.3), with its script wire value. -/
def op_14 : opcode := 94

/-- Modelled from the spec: the enumerator `opcode::op_15` of the push family
(section 4.3), with its script wire value. -/
def op_15 : opcode := 95

/-- Modelled from the spec: the enumerator `opcode::op_16` of the push family
(section 4.3), with its script wire value. -/
def op_16 : opcode := 96

/-- Modelled from the spec: the enumerator `opcode::nop`, a code that carries no
payload (section 4.3, step 5), with its script wire value. -/
def nop : opcode := 97

/-- Modelled from the spec: the enumerator `opcode::return_` (RETURN in section
4.3), with its script wire value. -/
def return_ : opcode := 106

/-- Modelled from the spec: the enumerator `opcode::dup` (DUP in section 4.3),
with its script wire value. -/
def dup : opcode := 118

/-- Modelled from the spec: the enumerator `opcode::equal` (EQUAL in section
4.3), with its script wire value. -/
def equal : opcode := 135

/-- Modelled from the spec: the enumerator `opcode::equalverify` (EQUALVERIFY in
section 4.3), with its script wire value. -/
def equalverify : opcode := 136

/-- Modelled from the spec: the enumerator `opcode::hash160` (HASH160 in section
4.3), with its script wire value. -/
def hash160 : opcode := 169

/-- Modelled from the spec: the enumerator `opcode::checksig` (CHECKSIG in
section 4.3), with its script wire value. -/
def checksig : opcode := 172

/-- Modelled from the spec: the enumerator `opcode::checkmultisig` (CHECKMULTISIG
in section 4.3), with its script wire value. -/
def checkmultisig : opcode := 174

/-- Modelled from the spec: the enumerator `opcode::bad_operation`, which follows
`op_nop10` (185) in the enumeration. -/
def bad_operation : opcode := 186

/-- Modelled from the spec: the enumerator `opcode::raw_data` (section 4.3: the
degenerate variant written without a leading opcode byte), which closes the
enumeration after `bad_operation`. -/
def raw_data : opcode := 187

end opcode

structure operation where
  code : opcode
  data : data_chunk
deriving DecidableEq

namespace operation

/-- The member `operation::reset`. -/
def reset (_self : operation) : operation := ⟨opcode.zero, []⟩

/-- The member `operation::is_valid`: `(code == opcode::zero) && data.empty()`. -/
def is_valid (self : operation) : Bool :=
  self.code == opcode.zero && self.data.isEmpty

/-- The private `operation::must_read_data`. -/
def must_read_data (code : opcode) : Bool :=
  code == opcode.special
    || code == opcode.pushdata1
    || code == opcode.pushdata2
    || code == opcode.pushdata4

/-- The private `operation::read_opcode_data_size`: the returned flag, the
`count` out-parameter (left as it was in the default case) and the reader. -/
def read_opcode_data_size (count : uint32) (code : opcode) (raw_byte : byte)
    (source : reader) : Bool × uint32 × reader :=
  if code = opcode.special then (true, cast_uint32 raw_byte.val, source)
  else if code = opcode.pushdata1 then
    let p := source.read_byte
    (true, cast_uint32 p.1.val, p.2)
  else if code = opcode.pushdata2 then
    let p := source.read_2_bytes_little_endian
    (true, cast_uint32 p.1.val, p.2)
  else if code = opcode.pushdata4 then
    let p := source.read_4_bytes_little_endian
    (true, p.1, p.2)
  else (false, count, source)

/-- The member `operation::from_data(reader&)`: the result, the operation and
the reader afterwards. -/
def from_data (self : operation) (source : reader) : Bool × operation × reader :=
  let self := self.reset
  let b := source.read_byte
  let byte := b.1
  let result := b.2.valid
  let op_code : opcode := byte
  if byte = 0 ∧ op_code ≠ opcode.zero then (false, self, b.2)
  else
    let self := { self with
      code := if 0 < byte.val ∧ byte.val ≤ 75 then opcode.special else op_code }
    if must_read_data self.code then
      let sz := read_opcode_data_size 0 self.code byte b.2
      let size := sz.2.1
      let d := sz.2.2.read_data size.val
      let self := { self with data := d.1 }
      let result := d.2.valid && (self.data.length == size.val)
      if !result then (result, self.reset, d.2) else (result, self, d.2)
    else
      if !result then (result, self.reset, b.2) else (result, self, b.2)

/-- The member `operation::to_data(writer&)`, as the bytes written. -/
def to_data (self : operation) : data_chunk :=
  (if self.code ≠ opcode.raw_data then
    let raw_byte : byte :=
      if self.code = opcode.special then cast_uint8 self.data.length else self.code
    [raw_byte] ++
      (if self.code = opcode.pushdata1 then [cast_uint8 self.data.length]
       else if self.code = opcode.pushdata2 then
         write_2_bytes_little_endian (cast_uint16 self.data.length)
       else if self.code = opcode.pushdata4 then
         write_4_bytes_little_endian (cast_uint32 self.data.length)
       else [])
  else []) ++ self.data

/-- The member `operation::serialized_size`. -/
def serialized_size (self : operation) : Nat :=
  let size := 1 + self.data.length
  if self.code = opcode.pushdata1 then size + 1
  else if self.code = opcode.pushdata2 then size + 2
  else if self.code = opcode.pushdata4 then size + 4
  else if self.code = opcode.raw_data then size - 1
  else size

/-- Canonical form of an operation: the data fits the code. Code `special` with
1 to 75 data bytes; `pushdata1`, `pushdata2`, `pushdata4` with a length that
fits 1, 2 or 4 bytes; or no data and a code that is none of these nor
`raw_data`, with a byte value outside 1..75. -/
def canonical (x : operation) : Prop :=
  (x.code = opcode.special ∧ 1 ≤ x.data.length ∧ x.data.length ≤ 75)
    ∨ (x.code = opcode.pushdata1 ∧ x.data.length ≤ 255)
    ∨ (x.code = opcode.pushdata2 ∧ x.data.length ≤ 65535)
    ∨ (x.code = opcode.pushdata4 ∧ x.data.length ≤ 4294967295)
    ∨ (x.data = [] ∧ ¬ (1 ≤ x.code.val ∧ x.code.val ≤ 75) ∧ x.code ≠ opcode.pushdata1
        ∧ x.code ≠ opcode.pushdata2 ∧ x.code ≠ opcode.pushdata4 ∧ x.code ≠ opcode.raw_data)

instance (x : operation) : Decidable (canonical x) := by
  unfold canonical
  infer_instance

end operation

/-! ### Script patterns (operation.hpp)

`math/elliptic_curve.hpp` and `chain/script/script.hpp` are not among the
sources: the validator `is_public_key` and the strict script parse followed by
`pattern()` are parameters of the functions that call them. -/

/-- The enumeration `script_pattern`. -/
inductive script_pattern where
  | null_data
  | pay_multisig
  | pay_public_key
  | pay_key_hash
  | pay_script_hash
  | sign_multisig
  | sign_public_key
  | sign_key_hash
  | sign_script_hash
  | non_standard
deriving DecidableEq

namespace operation

/-- The constant `operation::max_null_data_size`. -/
def max_null_data_size : Nat := 80

/-- The element `ops[i]` of a stack. The code reads it only at an index below
`ops.size()`; the value beyond is of no consequence. -/
def nth (ops : List operation) (i : Nat) : operation := ops.getD i ⟨opcode.zero, []⟩

/-- The private `operation::is_push`. -/
def is_push (code : opcode) : Bool :=
  code == opcode.zero
    || code == opcode.special
    || code == opcode.pushdata1
    || code == opcode.pushdata2
    || code == opcode.pushdata4
    || code == opcode.negative_1
    || code == opcode.op_1
    || code == opcode.op_2
    || code == opcode.op_3
    || code == opcode.op_4
    || code == opcode.op_5
    || code == opcode.op_6
    || code == opcode.op_7
    || code == opcode.op_8
    || code == opcode.op_9
    || code == opcode.op_10
    || code == opcode.op_11
    || code == opcode.op_12
    || code == opcode.op_13
    || code == opcode.op_14
    || code == opcode.op_15
    || code == opcode.op_16

/-- The private `operation::count_non_push`: `std::count_if` of the operations
whose code is not a push. -/
def count_non_push (ops : List operation) : Nat :=
  ops.countP (fun op => !is_push op.code)

/-- The static `operation::is_push_only`. -/
def is_push_only (ops : List operation) : Bool :=
  count_non_push ops == 0

/-- The static `operation::is_null_data_pattern`. -/
def is_null_data_pattern (ops : List operation) : Bool :=
  ops.length == 2
    && (nth ops 0).code == opcode.return_
    && (nth ops 1).code == opcode.special
    && decide ((nth ops 1).data.length ≤ max_null_data_size)

/-- The static `operation::is_pay_multisig_pattern`. The loop
`for (op = ops.begin() + 1; op != ops.end() - 2; ++op)` visits the positions
1 to `op_count - 3`. -/
def is_pay_multisig_pattern (is_public_key : data_chunk → Bool) (ops : List operation) :
    Bool :=
  let op_1 := opcode.op_1.val
  let op_16 := opcode.op_16.val
  let op_count := ops.length
  if op_count < 4 || (nth ops (op_count - 1)).code != opcode.checkmultisig then false
  else
    let op_m := (nth ops 0).code.val
    let op_n := (nth ops (op_count - 2)).code.val
    if op_m < op_1 || op_m > op_n || op_n < op_1 || op_n > op_16 then false
    else
      let n := op_n - op_1
      let points := op_count - 3
      if n != points then false
      else (List.range (op_count - 3)).all (fun k => is_public_key (nth ops (k + 1)).data)

/-- The static `operation::is_pay_public_key_pattern`. -/
def is_pay_public_key_pattern (is_public_key : data_chunk → Bool) (ops : List operation) :
    Bool :=
  ops.length == 2
    && (nth ops 0).code == opcode.special
    && is_public_key (nth ops 0).data
    && (nth ops 1).code == opcode.checksig

/-- The static `operation::is_pay_key_hash_pattern`. -/
def is_pay_key_hash_pattern (ops : List operation) : Bool :=
  ops.length == 5
    && (nth ops 0).code == opcode.dup
    && (nth ops 1).code == opcode.hash160
    && (nth ops 2).code == opcode.special
    && (nth ops 2).data.length == short_hash_size
    && (nth ops 3).code == opcode.equalverify
    && (nth ops 4).code == opcode.checksig

/-- The static `operation::is_pay_script_hash_pattern`. -/
def is_pay_script_hash_pattern (ops : List operation) : Bool :=
  ops.length == 3
    && (nth ops 0).code == opcode.hash160
    && (nth ops 1).code == opcode.special
    && (nth ops 1).data.length == short_hash_size
    && (nth ops 2).code == opcode.equal

/-- The static `operation::is_sign_multisig_pattern`. -/
def is_sign_multisig_pattern (ops : List operation) : Bool :=
  if ops.length < 2 || !is_push_only ops then false
  else if (nth ops 0).code != opcode.zero then false
  else true

/-- The static `operation::is_sign_public_key_pattern`. -/
def is_sign_public_key_pattern (ops : List operation) : Bool :=
  ops.length == 1 && is_push_only ops

/-- The static `operation::is_sign_key_hash_pattern`. -/
def is_sign_key_hash_pattern (is_public_key : data_chunk → Bool) (ops : List operation) :
    Bool :=
  ops.length == 2 && is_push_only ops
    && is_public_key (nth ops (ops.length - 1)).data

/-- The static `operation::is_sign_script_hash_pattern`. The parameter
`parse_strict` stands for `redeem_script.from_data(redeem_data, false,
script::parse_mode::strict)` followed by `redeem_script.pattern()`: `none` when
the parse returns false, the pattern otherwise. -/
def is_sign_script_hash_pattern (parse_strict : data_chunk → Option script_pattern)
    (ops : List operation) : Bool :=
  if ops.length < 2 || !is_push_only ops then false
  else
    let redeem_data := (nth ops (ops.length - 1)).data
    if redeem_data.isEmpty then false
    else
      match parse_strict redeem_data with
      | none => false
      | some redeem_script_pattern =>
        redeem_script_pattern == script_pattern.pay_multisig
          || redeem_script_pattern == script_pattern.pay_public_key
          || redeem_script_pattern == script_pattern.pay_key_hash
          || redeem_script_pattern == script_pattern.pay_script_hash
          || redeem_script_pattern == script_pattern.null_data

/-- The static `operation::to_null_data_pattern`. -/
def to_null_data_pattern (data : data_chunk) : List operation :=
  if data.length > max_null_data_size then []
  else [⟨opcode.return_, []⟩, ⟨opcode.special, data⟩]

/-- The loop `for (const auto point: points)` of `to_pay_multisig_pattern`, which
pushes `{ opcode::special, point }` for each point: `none` when it leaves the
function with `return{}` at a point that is not a public key. -/
def push_points (is_public_key : data_chunk → Bool) :
    List data_chunk → List operation → Option (List operation)
  | [], ops => some ops
  | point :: rest, ops =>
    if !is_public_key point then none
    else push_points is_public_key rest (ops ++ [⟨opcode.special, point⟩])

/-- The static `operation::to_pay_multisig_pattern(uint8_t, const std::vector<data_chunk>&)`.
The declaration `stack ops(points.size() + 3)` builds a vector of that many
value-initialised operations (code 0, no data), to which the operations are
then appended with `push_back`. -/
def to_pay_multisig_pattern (is_public_key : data_chunk → Bool) (signatures : byte)
    (points : List data_chunk) : List operation :=
  let op_1 := opcode.op_1.val
  let op_16 := opcode.op_16.val
  let zero_ := op_1 - 1
  let max := op_16 - zero_
  let m := signatures.val
  let n := points.length
  if m < 1 || m > n || n < 1 || n > max then []
  else
    let op_m : opcode := cast_uint8 (m + zero_)
    let op_n : opcode := cast_uint8 (points.length + zero_)
    let ops : List operation := List.replicate (points.length + 3) ⟨0, []⟩
    let ops := ops ++ [⟨op_m, []⟩]
    match push_points is_public_key points ops with
    | none => []
    | some ops =>
      let ops := ops ++ [⟨op_n, []⟩]
      ops ++ [⟨opcode.checkmultisig, []⟩]

/-- The static `operation::to_pay_public_key_pattern`. -/
def to_pay_public_key_pattern (is_public_key : data_chunk → Bool) (point : data_chunk) :
    List operation :=
  if !is_public_key point then []
  else [⟨opcode.special, point⟩, ⟨opcode.checksig, []⟩]

/-- The static `operation::to_pay_key_hash_pattern`; `hash.bytes` is `to_chunk(hash)`. -/
def to_pay_key_hash_pattern (hash : short_hash) : List operation :=
  [⟨opcode.dup, []⟩, ⟨opcode.hash160, []⟩, ⟨opcode.special, hash.bytes⟩,
    ⟨opcode.equalverify, []⟩, ⟨opcode.checksig, []⟩]

/-- The static `operation::to_pay_script_hash_pattern`; `hash.bytes` is `to_chunk(hash)`. -/
def to_pay_script_hash_pattern (hash : short_hash) : List operation :=
  [⟨opcode.hash160, []⟩, ⟨opcode.special, hash.bytes⟩, ⟨opcode.equal, []⟩]

/-- The push family in the words of the specification: the code is one of zero,
special, pushdata1, pushdata2, pushdata4, negative_1, op_1 .. op_16. -/
def push_family : List opcode :=
  [opcode.zero, opcode.special, opcode.pushdata1, opcode.pushdata2, opcode.pushdata4,
    opcode.negative_1, opcode.op_1, opcode.op_2, opcode.op_3, opcode.op_4, opcode.op_5,
    opcode.op_6, opcode.op_7, opcode.op_8, opcode.op_9, opcode.op_10, opcode.op_11,
    opcode.op_12, opcode.op_13, opcode.op_14, opcode.op_15, opcode.op_16]

end operation

/-! ## chain::point, continued: is_null, is_valid, checksum, iterator (point.hpp, point_iterator.hpp) -/

namespace point

/-- The member `point::is_null`. -/
def is_null (self : point) : Bool :=
  self.index == max_uint32 && self.hash == null_hash

/-- The member `point::is_valid`. -/
def is_valid (self : point) : Bool :=
  self.index != 0 || self.hash != null_hash

/-- The member `point::checksum`, a `const` member working on a copy of the hash.
`make_serializer(copy.begin())` followed by `write_4_bytes_little_endian(index)`
overwrites the first four bytes of the copy; `from_little_endian_unsafe<uint64_t>`
reads its first eight bytes as a little-endian integer. -/
def checksum (self : point) : uint64 :=
  let divisor : uint64 := cast_uint64 (1 <<< 63)
  let copy := self.hash.bytes
  let copy := write_4_bytes_little_endian self.index ++ copy.drop 4
  let hash_value : uint64 := cast_uint64 (from_little_endian (copy.take 8))
  cast_uint64 (hash_value.val &&& (divisor.val - 1))

end point

/-- The class `point_iterator`: the point referred to and the offset (`uint8_t`). -/
structure point_iterator where
  point_ : point
  offset_ : byte
deriving DecidableEq

namespace point_iterator

/-- The constant `point_iterator::max_offset`: `hash_size + sizeof(uint32_t)`. -/
def max_offset : byte := cast_uint8 (hash_size + 4)

/-- The constructor `point_iterator(const point& value)`. -/
def of_point (value : point) : point_iterator := ⟨value, 0⟩

/-- The constructor `point_iterator(const point& value, bool end)`. -/
def of_point_end (value : point) (end_flag : Bool) : point_iterator :=
  ⟨value, if end_flag then max_offset else 0⟩

/-- The member `point_iterator::operator*`. The two indexed reads are in range:
`hash[offset_]` under `offset_ < hash_size`, and the little-endian bytes of the
index under `offset_ - hash_size < sizeof(uint32_t)`. -/
def dereference (self : point_iterator) : byte :=
  if self.offset_.val < hash_size then
    self.point_.hash.bytes.getD self.offset_.val 0
  else if self.offset_.val - hash_size < 4 then
    (to_little_endian 4 self.point_.index.val).getD (self.offset_.val - hash_size) 0
  else 0

/-- The member `point_iterator::operator bool`. -/
def to_bool (self : point_iterator) : Bool :=
  self.offset_.val < max_offset.val

/-- The protected `point_iterator::increment`. -/
def increment (self : point_iterator) : point_iterator :=
  if self.offset_.val < max_offset.val then
    { self with offset_ := cast_uint8 (self.offset_.val + 1) }
  else self

/-- The protected `point_iterator::decrement`. -/
def decrement (self : point_iterator) : point_iterator :=
  if self.offset_.val > 0 then
    { self with offset_ := cast_uint8 (self.offset_.val - 1) }
  else self

/-- The member `point_iterator::operator==`. -/
def eq (self other : point_iterator) : Bool :=
  point.eq self.point_ other.point_ && self.offset_ == other.offset_

end point_iterator

namespace point

/-- The member `point::begin`. -/
def begin (self : point) : point_iterator := point_iterator.of_point self

/-- The member `point::end`. -/
def end_ (self : point) : point_iterator := point_iterator.of_point_end self true

end point

/-! ## chain::conditional_stack (conditional_stack.hpp) -/

/-- The class `conditional_stack`: the vector `stack_`, whose back is the top. -/
structure conditional_stack where
  stack_ : List Bool
deriving DecidableEq

namespace conditional_stack

/-- The member `conditional_stack::closed`. -/
def closed (self : conditional_stack) : Bool := self.stack_.isEmpty

/-- The member `conditional_stack::succeeded`. -/
def succeeded (self : conditional_stack) : Bool := self.stack_.count false == 0

/-- The member `conditional_stack::clear`. -/
def clear (_self : conditional_stack) : conditional_stack := ⟨[]⟩

/-- The member `conditional_stack::open`. -/
def open_ (self : conditional_stack) (value : Bool) : conditional_stack :=
  ⟨self.stack_ ++ [value]⟩

/-- The member `conditional_stack::else_`: `stack_.back() = !stack_.back()`. On
an empty stack the C++ is undefined (a contract violation of the caller); the
stack is left as it is here. -/
def else_ (self : conditional_stack) : conditional_stack :=
  match self.stack_.getLast? with
  | some top => ⟨self.stack_.dropLast ++ [!top]⟩
  | none => self

/-- The member `conditional_stack::close`: `stack_.pop_back()`. On an empty stack
the C++ is undefined (a contract violation of the caller); the stack stays
empty here. -/
def close (self : conditional_stack) : conditional_stack := ⟨self.stack_.dropLast⟩

end conditional_stack

/-! ## chain::input (input.hpp)

`chain/script/script.hpp` is not among the sources. `input` uses a script only
through `from_data(source, prefix, mode)` and `reset`, which are taken as a
parameter. -/

/-- The enumeration `script::parse_mode`. -/
inductive parse_mode where
  | strict
  | raw_data
  | raw_data_fallback
deriving DecidableEq

/-- The members of `chain::script` that `input::from_data` calls. -/
structure script_api (S : Type) where
  /-- the member `script::from_data(reader&, bool prefix, parse_mode)`: result, script and reader afterwards -/
  from_data : S → reader → Bool → parse_mode → Bool × S × reader
  /-- the member `script::reset` -/
  reset : S → S

structure input (S : Type) where
  previous_output : point
  script : S
  sequence : uint32

namespace input

variable {S : Type}

/-- The member `input::reset`. -/
def reset (sapi : script_api S) (self : input S) : input S :=
  { self with
    previous_output := self.previous_output.reset
    script := sapi.reset self.script
    sequence := 0 }

/-- The member `input::from_data(reader&)`: the result, the input and the reader
afterwards. -/
def from_data (sapi : script_api S) (self : input S) (source : reader) :
    Bool × input S × reader :=
  let self := self.reset sapi
  let p := self.previous_output.from_data source
  let self := { self with previous_output := p.2.1 }
  let result := p.1
  let source := p.2.2
  let after_script : Bool × input S × reader :=
    if result then
      let mode :=
        if self.previous_output.is_null then parse_mode.raw_data
        else parse_mode.raw_data_fallback
      let s := sapi.from_data self.script source true mode
      (s.1, { self with script := s.2.1 }, s.2.2)
    else (result, self, source)
  let after_sequence : Bool × input S × reader :=
    if after_script.1 then
      let q := after_script.2.2.read_4_bytes_little_endian
      (q.2.valid, { after_script.2.1 with sequence := q.1 }, q.2)
    else after_script
  if !after_sequence.1 then
    (after_sequence.1, after_sequence.2.1.reset sapi, after_sequence.2.2)
  else after_sequence

end input

/-- A stand-in for `chain::script`, to run `input::from_data` on concrete
inputs: a script is one byte read with `read_byte`, kept with the mode it was
parsed in; a failed read and `reset` leave no script. -/
def byte_script_api : script_api (Option (parse_mode × byte)) where
  from_data := fun _self source _prefix mode =>
    let p := source.read_byte
    if !p.2.valid then (false, none, p.2) else (true, some (mode, p.1), p.2)
  reset := fun _self => none

/-- A stand-in for the strict script parse followed by `pattern()`, to run
`is_sign_script_hash_pattern` on concrete inputs: the pay-to-key-hash script
over the hash of twenty bytes 7 has pattern `pay_key_hash`, the script
`RETURN, push of the byte 7` has pattern `null_data`, nothing else parses. -/
def sample_parse_strict (data : data_chunk) : Option script_pattern :=
  if data = [118, 169, 20] ++ List.replicate 20 7 ++ [136, 172] then
    some script_pattern.pay_key_hash
  else if data = [106, 1, 7] then some script_pattern.null_data
  else none

/-! ## chain::header (header.hpp)

The mutex of the hash cache is not modelled: the functions below are the
sequential behaviour of one thread. -/

structure header where
  version : uint32
  previous_block_hash : hash_digest
  merkle : hash_digest
  timestamp : uint32
  bits : uint32
  nonce : uint32
  transaction_count : uint64
  /-- the private cache `mutable std::shared_ptr<hash_digest> hash_`; `none` is `nullptr` -/
  hash_ : Option hash_digest
deriving DecidableEq

namespace header

/-- The field constructor
`header(version, previous_block_hash, merkle, timestamp, bits, nonce, transaction_count)`,
which sets `hash_(nullptr)`; the copy and move constructors delegate to it. -/
def construct (version : uint32) (previous_block_hash merkle : hash_digest)
    (timestamp bits nonce : uint32) (transaction_count : uint64) : header :=
  ⟨version, previous_block_hash, merkle, timestamp, bits, nonce, transaction_count, none⟩

/-- The copy constructor `header(const header& other)`. -/
def copy (other : header) : header :=
  construct other.version other.previous_block_hash other.merkle other.timestamp
    other.bits other.nonce other.transaction_count

/-- The assignments `operator=(header&&)` and `operator=(const header&)`: both
assign the seven fields and nothing else. -/
def assign (self other : header) : header :=
  { self with
    version := other.version
    previous_block_hash := other.previous_block_hash
    merkle := other.merkle
    timestamp := other.timestamp
    bits := other.bits
    nonce := other.nonce
    transaction_count := other.transaction_count }

/-- The member `header::reset`. -/
def reset (self : header) : header :=
  { self with
    version := 0
    previous_block_hash := null_hash
    merkle := null_hash
    timestamp := 0
    bits := 0
    nonce := 0
    hash_ := none }

/-- The member `header::from_data(reader&, bool)`: the result, the header and
the reader afterwards. -/
def from_data (self : header) (source : reader) (with_transaction_count : Bool) :
    Bool × header × reader :=
  let self := self.reset
  let r1 := source.read_4_bytes_little_endian
  let self := { self with version := r1.1 }
  let r2 := r1.2.read_hash
  let self := { self with previous_block_hash := r2.1 }
  let r3 := r2.2.read_hash
  let self := { self with merkle := r3.1 }
  let r4 := r3.2.read_4_bytes_little_endian
  let self := { self with timestamp := r4.1 }
  let r5 := r4.2.read_4_bytes_little_endian
  let self := { self with bits := r5.1 }
  let r6 := r5.2.read_4_bytes_little_endian
  let self := { self with nonce := r6.1 }
  let self := { self with transaction_count := 0 }
  let r7 := if with_transaction_count then r6.2.read_variable_uint_little_endian
    else (self.transaction_count, r6.2)
  let self := { self with transaction_count := r7.1 }
  let result := r7.2.valid
  if !result then (result, self.reset, r7.2) else (result, self, r7.2)

/-- The member `header::to_data(writer&, bool)`, as the bytes written. -/
def to_data (self : header) (with_transaction_count : Bool) : data_chunk :=
  write_4_bytes_little_endian self.version
    ++ write_hash self.previous_block_hash
    ++ write_hash self.merkle
    ++ write_4_bytes_little_endian self.timestamp
    ++ write_4_bytes_little_endian self.bits
    ++ write_4_bytes_little_endian self.nonce
    ++ (if with_transaction_count then
          write_variable_uint_little_endian self.transaction_count
        else [])

/-- The member `header::hash`: the digest returned and the header afterwards
(the cache is `mutable`). `bitcoin_hash` is the external double-hash primitive. -/
def hash (bitcoin_hash : data_chunk → hash_digest) (self : header) : hash_digest × header :=
  match self.hash_ with
  | none =>
    let self := { self with hash_ := some (bitcoin_hash (self.to_data false)) }
    (bitcoin_hash (self.to_data false), self)
  | some h => (h, self)

/-- The member `header::is_valid`. -/
def is_valid (self : header) : Bool :=
  self.version != 0
    || self.previous_block_hash != null_hash
    || self.merkle != null_hash
    || self.timestamp != 0
    || self.bits != 0
    || self.nonce != 0

/-- The static `header::satoshi_fixed_size_without_transaction_count`. -/
def satoshi_fixed_size_without_transaction_count : Nat := 80

/-- The member `header::serialized_size`. -/
def serialized_size (self : header) (with_transaction_count : Bool) : Nat :=
  let size := satoshi_fixed_size_without_transaction_count
  if with_transaction_count then size + variable_uint_size self.transaction_count
  else size

/-- The free `operator==(const header&, const header&)`. -/
def eq (left right : header) : Bool :=
  left.version == right.version
    && left.previous_block_hash == right.previous_block_hash
    && left.merkle == right.merkle
    && left.timestamp == right.timestamp
    && left.bits == right.bits
    && left.nonce == right.nonce
    && left.transaction_count == right.transaction_count

end header

/-! ## chain::block (block.hpp)

`chain/transaction.hpp` is not among the sources. `block` uses a transaction
only through its default constructor, `from_data`, `to_data`,
`serialized_size` and `hash`, which are taken as a parameter. -/

/-- The members of `chain::transaction` that `block` calls. -/
structure transaction_api (T : Type) where
  /-- a default-constructed transaction, as `resize` creates them -/
  default_tx : T
  /-- the member `transaction::from_data(reader&)`: result, transaction and reader afterwards -/
  from_data : T → reader → Bool × T × reader
  /-- the member `transaction::to_data(writer&)`, as the bytes written -/
  to_data : T → data_chunk
  /-- the member `transaction::serialized_size` -/
  serialized_size : T → Nat
  /-- the member `transaction::hash` -/
  hash : T → hash_digest

structure block (T : Type) where
  header : header
  transactions : List T

namespace block

variable {T : Type}

/-- The member `block::reset`. -/
def reset (self : block T) : block T :=
  { self with header := self.header.reset, transactions := [] }

/-- The loop `for (auto& tx: transactions) { result = tx.from_data(source); if (!result) break; }`
of `block::from_data`, entered with `result` true: the final `result`, the
transactions and the reader. -/
def read_transactions (api : transaction_api T) : List T → reader → Bool × List T × reader
  | [], source => (true, [], source)
  | tx :: rest, source =>
    let p := api.from_data tx source
    if !p.1 then (p.1, p.2.1 :: rest, p.2.2)
    else
      let q := read_transactions api rest p.2.2
      (q.1, p.2.1 :: q.2.1, q.2.2)

/-- The member `block::from_data(reader&, bool)`: the result, the block and the
reader afterwards. -/
def from_data (api : transaction_api T) (self : block T) (source : reader)
    (with_transaction_count : Bool) : Bool × block T × reader :=
  let self := self.reset
  let h := self.header.from_data source with_transaction_count
  let self := { self with header := h.2.1 }
  let result := h.1
  if result then
    -- transactions.resize(header.transaction_count), on the cleared vector
    let self := { self with
      transactions := List.replicate self.header.transaction_count.val api.default_tx }
    let t := read_transactions api self.transactions h.2.2
    let self := { self with transactions := t.2.1 }
    let result := t.1
    if !result then (result, self.reset, t.2.2) else (result, self, t.2.2)
  else
    if !result then (result, self.reset, h.2.2) else (result, self, h.2.2)

/-- The member `block::to_data(writer&, bool)`, as the bytes written. -/
def to_data (api : transaction_api T) (self : block T) (with_transaction_count : Bool) :
    data_chunk :=
  self.header.to_data with_transaction_count
    ++ (self.transactions.map api.to_data).flatten

/-- The member `block::serialized_size`. -/
def serialized_size (api : transaction_api T) (self : block T)
    (with_transaction_count : Bool) : Nat :=
  self.transactions.foldl (fun block_size tx => block_size + api.serialized_size tx)
    (self.header.serialized_size with_transaction_count)

/-- The member `block::is_valid`. -/
def is_valid (self : block T) : Bool :=
  !self.transactions.isEmpty || self.header.is_valid

/-- The inner loop `for (it = merkle.begin(); it != merkle.end(); it += 2)` of
`build_merkle_tree`, which pushes `bitcoin_hash(*it ++ *(it + 1))` for each
pair; the list has even length there (asserted by the code). -/
def merkle_pairs (bitcoin_hash : data_chunk → hash_digest) :
    List hash_digest → List hash_digest
  | x :: y :: rest =>
    bitcoin_hash (write_hash x ++ write_hash y) :: merkle_pairs bitcoin_hash rest
  | _ => []

/-- One turn of the `while (merkle.size() > 1)` loop: duplicate the last hash
when the size is odd, then replace the list by the hashes of its pairs. -/
def merkle_step (bitcoin_hash : data_chunk → hash_digest) (merkle : List hash_digest) :
    List hash_digest :=
  let merkle :=
    if merkle.length % 2 ≠ 0 then merkle ++ merkle.getLast?.toList else merkle
  merkle_pairs bitcoin_hash merkle

/-- The `while (merkle.size() > 1)` loop of `build_merkle_tree`: the list when
the loop is left. -/
def merkle_loop (bitcoin_hash : data_chunk → hash_digest) (merkle : List hash_digest) :
    List hash_digest :=
  if _h : merkle.length > 1 then
    merkle_loop bitcoin_hash (merkle_step bitcoin_hash merkle)
  else merkle
termination_by merkle.length
decreasing_by
  have pairs_length : ∀ (n : Nat) (l : List hash_digest), l.length ≤ n →
      (merkle_pairs bitcoin_hash l).length = l.length / 2 := by
    intro n
    induction n with
    | zero =>
      intro l hl
      cases l with
      | nil => simp [merkle_pairs]
      | cons _ _ => simp at hl
    | succ n ih =>
      intro l hl
      cases l with
      | nil => simp [merkle_pairs]
      | cons _ t =>
        cases t with
        | nil => simp [merkle_pairs]
        | cons _ rest =>
          have hr := ih rest (by simp at hl; omega)
          simp only [merkle_pairs, List.length_cons, hr]
          omega
  have last_length : merkle.getLast?.toList.length ≤ 1 := by
    cases merkle.getLast? <;> simp
  unfold merkle_step
  rw [pairs_length _ _ (le_refl _)]
  split
  · simp only [List.length_append]
    omega
  · omega

/-- The static `block::build_merkle_tree`. -/
def build_merkle_tree (bitcoin_hash : data_chunk → hash_digest)
    (merkle : List hash_digest) : hash_digest :=
  if merkle.isEmpty then null_hash
  else (merkle_loop bitcoin_hash merkle).headD null_hash

/-- The static `block::generate_merkle_root`. -/
def generate_merkle_root (api : transaction_api T)
    (bitcoin_hash : data_chunk → hash_digest) (transactions : List T) : hash_digest :=
  build_merkle_tree bitcoin_hash (transactions.map api.hash)

/-- A one-byte stand-in for `chain::transaction`, to run the `block` functions
on concrete inputs: a transaction is one byte, read with `read_byte`, and a
failed read leaves the default transaction. -/
def byte_transaction_api : transaction_api byte where
  default_tx := 0
  from_data := fun _self source =>
    let p := source.read_byte
    if !p.2.valid then (false, 0, p.2) else (true, p.1, p.2)
  to_data := fun tx => [tx]
  serialized_size := fun _tx => 1
  hash := fun tx => hash_digest.of_bytes [tx]

/-- The pairing of the reference recursion: each adjacent pair `(x, y)` is
replaced by `bitcoin_hash (x ++ y)`. -/
def reference_pairs (bitcoin_hash : data_chunk → hash_digest) :
    List hash_digest → List hash_digest
  | x :: y :: rest => bitcoin_hash (x.bytes ++ y.bytes) :: reference_pairs bitcoin_hash rest
  | _ => []

/-- The next level of the reference recursion: a copy of the last element is
appended when the length is odd, then adjacent pairs are hashed. -/
def reference_next_level (bitcoin_hash : data_chunk → hash_digest)
    (l : List hash_digest) : List hash_digest :=
  match l.length % 2, l.getLast? with
  | 1, some z => reference_pairs bitcoin_hash (l ++ [z])
  | _, _ => reference_pairs bitcoin_hash l

/-- The reference recursion for the merkle root, in the words of the
specification: the all-zero hash for the empty list, the sole element of a
one-element list, otherwise the root of the next level. -/
def reference_merkle_root (bitcoin_hash : data_chunk → hash_digest)
    (l : List hash_digest) : hash_digest :=
  match l with
  | [] => null_hash
  | [x] => x
  | x :: y :: rest =>
    reference_merkle_root bitcoin_hash (reference_next_level bitcoin_hash (x :: y :: rest))
termination_by l.length
decreasing_by
  have pairs_length : ∀ (n : Nat) (l : List hash_digest), l.length ≤ n →
      (reference_pairs bitcoin_hash l).length = l.length / 2 := by
    intro n
    induction n with
    | zero =>
      intro l hl
      cases l with
      | nil => simp [reference_pairs]
      | cons _ _ => simp at hl
    | succ n ih =>
      intro l hl
      cases l with
      | nil => simp [reference_pairs]
      | cons _ t =>
        cases t with
        | nil => simp [reference_pairs]
        | cons _ rest =>
          have hr := ih rest (by simp at hl; omega)
          simp only [reference_pairs, List.length_cons, hr]
          omega
  unfold reference_next_level
  split
  · rw [pairs_length _ _ (le_refl _)]
    simp only [List.length_append, List.length_cons, List.length_nil]
    omega
  · rw [pairs_length _ _ (le_refl _)]
    simp only [List.length_cons]
    omega

end block

/-! ## UTF-8 character break detection (utility/unicode.cpp)

A `char` is taken as its byte value: the masks are below 0x100, so the result
of `mask & byte` is the same whether `char` is signed or not. A pointer
`&text[start]` is the text with its first `start` bytes dropped. The loop
counters are `uint8_t` and stay below 5. -/

/-- The constant `utf8_max_character_size`. -/
def utf8_max_character_size : Nat := 4

/-- The static `is_utf8_trailing_byte`: the bit pattern 10xxxxxx. -/
def is_utf8_trailing_byte (b : byte) : Bool :=
  (0xC0 &&& b.val) == 0x80

/-- The static `is_utf8_character_sequence`. The element `sequence[i]` is read
at an index below `bytes` only, inside the text. -/
def is_utf8_character_sequence (sequence : data_chunk) (bytes : Nat) : Bool :=
  match bytes with
  | 1 => (0x80 &&& (sequence.getD 0 0).val) == 0x00
  | 2 =>
    (0xE0 &&& (sequence.getD 0 0).val) == 0xC0
      && is_utf8_trailing_byte (sequence.getD 1 0)
  | 3 =>
    (0xF0 &&& (sequence.getD 0 0).val) == 0xE0
      && is_utf8_trailing_byte (sequence.getD 1 0)
      && is_utf8_trailing_byte (sequence.getD 2 0)
  | 4 =>
    (0xF8 &&& (sequence.getD 0 0).val) == 0xF0
      && is_utf8_trailing_byte (sequence.getD 1 0)
      && is_utf8_trailing_byte (sequence.getD 2 0)
      && is_utf8_trailing_byte (sequence.getD 3 0)
  | _ => false

/-- The loop of `is_terminal_utf8_character`, entered at `length`:
`for (; length <= utf8_max_character_size && length < size; length++)`, with
`return true` inside and `return false` after it. The first argument bounds
the number of turns; from `length = 1` the loop condition fails after at most
`utf8_max_character_size` turns, before the bound is reached. -/
def is_terminal_utf8_character_loop (text : data_chunk) (size : Nat) : Nat → Nat → Bool
  | 0, _ => false
  | turns + 1, length =>
    if length ≤ utf8_max_character_size ∧ length < size then
      let start := size - length
      let sequence := text.drop start
      if is_utf8_character_sequence sequence length then true
      else is_terminal_utf8_character_loop text size turns (length + 1)
    else false

/-- The static `is_terminal_utf8_character`. -/
def is_terminal_utf8_character (text : data_chunk) (size : Nat) : Bool :=
  is_terminal_utf8_character_loop text size (utf8_max_character_size + 1) 1

/-- The loop of `offset_to_terminal_utf8_character`, entered at `unread`:
`for (; unread < utf8_max_character_size && unread < size; unread++)`, with
`return unread` inside and `return 0` after it. The first argument bounds the
number of turns; from `unread = 0` the loop condition fails after at most
`utf8_max_character_size` turns, before the bound is reached. -/
def offset_to_terminal_utf8_character_loop (text : data_chunk) (size : Nat) :
    Nat → Nat → Nat
  | 0, _ => 0
  | turns + 1, unread =>
    if unread < utf8_max_character_size ∧ unread < size then
      let length := size - unread
      if is_terminal_utf8_character text length then unread
      else offset_to_terminal_utf8_character_loop text size turns (unread + 1)
    else 0

/-- The static `offset_to_terminal_utf8_character`. -/
def offset_to_terminal_utf8_character (text : data_chunk) (size : Nat) : Nat :=
  offset_to_terminal_utf8_character_loop text size (utf8_max_character_size + 1) 0

/-- In the words of the specification: the first `n` bytes of the text end in a
bit-pattern-valid UTF-8 character of 1 to 4 bytes, that is, for some length
`l` in 1..4 with `l ≤ n` the `l` bytes before position `n` pass
`is_utf8_character_sequence`. -/
def ends_in_utf8_character (text : data_chunk) (n : Nat) : Bool :=
  (List.range' 1 utf8_max_character_size).any
    (fun l => decide (l ≤ n) && is_utf8_character_sequence (text.drop (n - l)) l)

/-! # Properties -/

/-! ## Little-endian integers and the reader -/

theorem cast_uint8_val (b : byte) : cast_uint8 b.val = b := by
  apply Fin.ext
  simp only [cast_uint8]
  exact Nat.mod_eq_of_lt b.isLt

theorem to_little_endian_length : ∀ (k v : Nat), (to_little_endian k v).length = k
  | 0, _ => rfl
  | k + 1, v => by simp [to_little_endian, to_little_endian_length k]

theorem from_to_little_endian : ∀ (k v : Nat), v < 256 ^ k →
    from_little_endian (to_little_endian k v) = v
  | 0, v, h => by
    simp at h
    simp [to_little_endian, from_little_endian, h]
  | k + 1, v, h => by
    have hq : v / 256 < 256 ^ k := by
      rw [Nat.div_lt_iff_lt_mul (by decide)]
      rw [pow_succ] at h
      exact h
    simp only [to_little_endian, from_little_endian, from_to_little_endian k _ hq, cast_uint8]
    omega

theorem reader.read_data_of_le (n : Nat) (d : data_chunk) (h : n ≤ d.length) :
    reader.read_data n ⟨d, true⟩ = (d.take n, ⟨d.drop n, true⟩) := by
  simp [reader.read_data, h]

theorem reader.read_data_append (xs rest : data_chunk) :
    reader.read_data xs.length ⟨xs ++ rest, true⟩ = (xs, ⟨rest, true⟩) := by
  simp [reader.read_data]

theorem reader.read_byte_cons (b : byte) (rest : data_chunk) :
    reader.read_byte ⟨b :: rest, true⟩ = (b, ⟨rest, true⟩) := by
  simp [reader.read_byte, reader.read_data, from_little_endian, cast_uint8_val]

theorem reader.read_2_bytes_cons (b0 b1 : byte) (rest : data_chunk) :
    reader.read_2_bytes_little_endian ⟨b0 :: b1 :: rest, true⟩
      = (cast_uint16 (b0.val + 256 * b1.val), ⟨rest, true⟩) := by
  simp [reader.read_2_bytes_little_endian, reader.read_data, from_little_endian]

theorem reader.read_4_bytes_cons (b0 b1 b2 b3 : byte) (rest : data_chunk) :
    reader.read_4_bytes_little_endian ⟨b0 :: b1 :: b2 :: b3 :: rest, true⟩
      = (cast_uint32 (b0.val + 256 * (b1.val + 256 * (b2.val + 256 * b3.val))),
          ⟨rest, true⟩) := by
  simp [reader.read_4_bytes_little_endian, reader.read_data, from_little_endian]

theorem reader.read_4_bytes_write (v : uint32) (rest : data_chunk) :
    reader.read_4_bytes_little_endian ⟨write_4_bytes_little_endian v ++ rest, true⟩
      = (v, ⟨rest, true⟩) := by
  have hlen : (to_little_endian 4 v.val).length = 4 := to_little_endian_length 4 v.val
  have h := reader.read_data_append (to_little_endian 4 v.val) rest
  rw [hlen] at h
  simp only [reader.read_4_bytes_little_endian, write_4_bytes_little_endian, h]
  congr 1
  apply Fin.ext
  simp only [cast_uint32]
  rw [from_to_little_endian 4 v.val (by have := v.isLt; omega)]
  exact Nat.mod_eq_of_lt v.isLt

theorem reader.read_2_bytes_write (v : uint16) (rest : data_chunk) :
    reader.read_2_bytes_little_endian ⟨write_2_bytes_little_endian v ++ rest, true⟩
      = (v, ⟨rest, true⟩) := by
  have hlen : (to_little_endian 2 v.val).length = 2 := to_little_endian_length 2 v.val
  have h := reader.read_data_append (to_little_endian 2 v.val) rest
  rw [hlen] at h
  simp only [reader.read_2_bytes_little_endian, write_2_bytes_little_endian, h]
  congr 1
  apply Fin.ext
  simp only [cast_uint16]
  rw [from_to_little_endian 2 v.val (by have := v.isLt; omega)]
  exact Nat.mod_eq_of_lt v.isLt

theorem fit32_of_length (bs : data_chunk) (h : bs.length = 32) : fit32 bs = bs := by
  simp [fit32, List.take_append_of_le_length, h]

theorem reader.read_hash_write (h : hash_digest) (rest : data_chunk) :
    reader.read_hash ⟨write_hash h ++ rest, true⟩ = (h, ⟨rest, true⟩) := by
  have hr := reader.read_data_append h.bytes rest
  rw [h.size_eq] at hr
  simp only [reader.read_hash, write_hash, hash_size, hr, hash_digest.of_bytes]
  congr 1
  cases h with
  | mk bytes size_eq => simp [fit32_of_length bytes size_eq]

theorem reader.read_8_bytes_write (v : uint64) (rest : data_chunk) :
    reader.read_8_bytes_little_endian ⟨to_little_endian 8 v.val ++ rest, true⟩
      = (v, ⟨rest, true⟩) := by
  have hlen : (to_little_endian 8 v.val).length = 8 := to_little_endian_length 8 v.val
  have h := reader.read_data_append (to_little_endian 8 v.val) rest
  rw [hlen] at h
  have hval : cast_uint64 (from_little_endian (to_little_endian 8 v.val)) = v := by
    apply Fin.ext
    simp only [cast_uint64]
    rw [from_to_little_endian 8 v.val (lt_of_lt_of_eq v.isLt (by norm_num))]
    exact Nat.mod_eq_of_lt v.isLt
  simp only [reader.read_8_bytes_little_endian, h, hval]

/-- Reading back a variable-length integer, with any bytes after it. -/
theorem reader.read_variable_uint_write (v : uint64) (rest : data_chunk) :
    reader.read_variable_uint_little_endian
        ⟨write_variable_uint_little_endian v ++ rest, true⟩
      = (v, ⟨rest, true⟩) := by
  have hv := v.isLt
  unfold write_variable_uint_little_endian reader.read_variable_uint_little_endian
  by_cases h1 : v.val < 0xfd
  · have hb : (cast_uint8 v.val).val = v.val := by
      simp only [cast_uint8]
      omega
    have hc : cast_uint64 v.val = v := by
      apply Fin.ext
      simp only [cast_uint64]
      omega
    simp only [if_pos h1, List.singleton_append, reader.read_byte_cons, hb, hc]
  · by_cases h2 : v.val ≤ 0xffff
    · have hr := reader.read_2_bytes_write (cast_uint16 v.val) rest
      have hc16 : (cast_uint16 v.val).val = v.val := by
        simp only [cast_uint16]
        omega
      have hc : cast_uint64 v.val = v := by
        apply Fin.ext
        simp only [cast_uint64]
        omega
      rw [write_2_bytes_little_endian, hc16] at hr
      have hnot : ¬ ((0xfd : byte).val < 0xfd) := by decide
      have heq : (0xfd : byte).val = 0xfd := by decide
      simp only [if_neg h1, if_pos h2, List.cons_append, reader.read_byte_cons, if_neg hnot,
        if_pos heq, hr, hc16, hc]
    · by_cases h3 : v.val ≤ 0xffffffff
      · have hr := reader.read_4_bytes_write (cast_uint32 v.val) rest
        have hc32 : (cast_uint32 v.val).val = v.val := by
          simp only [cast_uint32]
          omega
        have hc : cast_uint64 v.val = v := by
          apply Fin.ext
          simp only [cast_uint64]
          omega
        rw [write_4_bytes_little_endian, hc32] at hr
        have hnot : ¬ ((0xfe : byte).val < 0xfd) := by decide
        have hne : ¬ ((0xfe : byte).val = 0xfd) := by decide
        have heq : (0xfe : byte).val = 0xfe := by decide
        simp only [if_neg h1, if_neg h2, if_pos h3, List.cons_append, reader.read_byte_cons,
          if_neg hnot, if_neg hne, if_pos heq, hr, hc32, hc]
      · have hnot : ¬ ((0xff : byte).val < 0xfd) := by decide
        have hne : ¬ ((0xff : byte).val = 0xfd) := by decide
        have hne2 : ¬ ((0xff : byte).val = 0xfe) := by decide
        simp only [if_neg h1, if_neg h2, if_neg h3, List.cons_append, reader.read_byte_cons,
          if_neg hnot, if_neg hne, if_neg hne2, reader.read_8_bytes_write]

theorem write_variable_uint_length (v : uint64) :
    (write_variable_uint_little_endian v).length = variable_uint_size v := by
  unfold write_variable_uint_little_endian variable_uint_size
  split
  · rfl
  · split
    · simp [to_little_endian_length]
    · split <;> simp [to_little_endian_length]

theorem reader.read_data_invalid (n : Nat) (r : reader) (h : r.valid = false) :
    (r.read_data n).2.valid = false := by
  simp [reader.read_data, h]

theorem reader.read_data_short (n : Nat) (d : data_chunk) (h : d.length < n) :
    (reader.read_data n ⟨d, true⟩).2.valid = false := by
  have h2 : ¬ n ≤ d.length := by omega
  simp [reader.read_data, h2]

/-! ## point -/

namespace point

/-- Decoding the encoding of an outpoint, with any bytes after it. -/
theorem point_from_data_to_data_append (self p : point) (rest : data_chunk) :
    from_data self ⟨to_data p ++ rest, true⟩ = (true, p, ⟨rest, true⟩) := by
  simp only [from_data, to_data, List.append_assoc, reader.read_hash_write,
    reader.read_4_bytes_write]
  simp

/-- C5: for every outpoint `p`, `p.to_data()` is exactly 36 bytes, the 32 hash
bytes followed by the index as 4 little-endian bytes; this is
`p.serialized_size()`; and `from_data` on those bytes returns true and yields a
point equal to `p`. -/
theorem point_to_data_from_data_roundtrip (self p : point) :
    (to_data p).length = 36
    ∧ to_data p = p.hash.bytes ++ to_little_endian 4 p.index.val
    ∧ (to_data p).length = serialized_size p
    ∧ (from_data self (reader.of_data (to_data p))).1 = true
    ∧ (from_data self (reader.of_data (to_data p))).2.1 = p
    ∧ eq (from_data self (reader.of_data (to_data p))).2.1 p = true := by
  have h := point_from_data_to_data_append self p []
  rw [List.append_nil] at h
  have hlen : (to_data p).length = 36 := by
    simp [to_data, write_hash, write_4_bytes_little_endian, to_little_endian_length,
      p.hash.size_eq]
  refine ⟨hlen, rfl, ?_, ?_, ?_, ?_⟩
  · rw [hlen]
    rfl
  · simp [reader.of_data, h]
  · simp [reader.of_data, h]
  · simp [reader.of_data, h, eq]

/-- The result of `point::from_data` is the validity of the reader after the two reads. -/
theorem point_from_data_result (self : point) (source : reader) :
    (from_data self source).1 = ((source.read_data 32).2.read_data 4).2.valid := by
  simp only [from_data, reader.read_hash, reader.read_4_bytes_little_endian, hash_size]
  split <;> simp_all

theorem point_from_data_reset_of_false (self : point) (source : reader)
    (h : (from_data self source).1 = false) :
    (from_data self source).2.1 = ⟨null_hash, 0⟩ := by
  have hv := point_from_data_result self source
  rw [h] at hv
  simp only [from_data, reader.read_hash, reader.read_4_bytes_little_endian, hash_size,
    ← hv, reset]
  simp

/-- C12: `point::from_data` returns true iff the stream supplies at least 36
bytes; when it returns false the point is left with an all-zero hash and
index 0. -/
theorem point_from_data_true_iff (self : point) (stream : data_chunk) :
    ((from_data self ⟨stream, true⟩).1 = true ↔ 36 ≤ stream.length)
    ∧ ((from_data self ⟨stream, true⟩).1 = false →
        (from_data self ⟨stream, true⟩).2.1.hash = null_hash
        ∧ (from_data self ⟨stream, true⟩).2.1.index = 0) := by
  constructor
  · rw [point_from_data_result]
    by_cases h32 : 32 ≤ stream.length
    · rw [reader.read_data_of_le 32 stream h32]
      by_cases h4 : 4 ≤ (stream.drop 32).length
      · rw [reader.read_data_of_le 4 _ h4]
        simp only [List.length_drop] at h4
        simp only [true_iff]
        omega
      · rw [reader.read_data_short 4 _ (by omega)]
        simp only [List.length_drop] at h4
        constructor
        · intro h
          exact absurd h (by decide)
        · intro h
          omega
    · have hs := reader.read_data_short 32 stream (by omega)
      rw [reader.read_data_invalid 4 _ hs]
      constructor
      · intro h
        exact absurd h (by decide)
      · intro h
        omega
  · intro h
    rw [point_from_data_reset_of_false self _ h]
    exact ⟨rfl, rfl⟩

/-- Witness for C12: a stream of 35 bytes is refused and leaves the zero point. -/
theorem point_from_data_true_iff_witness :
    (from_data ⟨null_hash, 7⟩ ⟨List.replicate 35 1, true⟩).1 = false
    ∧ (from_data ⟨null_hash, 7⟩ ⟨List.replicate 35 1, true⟩).2.1.hash = null_hash
    ∧ (from_data ⟨null_hash, 7⟩ ⟨List.replicate 35 1, true⟩).2.1.index = 0 :=
  ⟨by decide,
    (point_from_data_true_iff ⟨null_hash, 7⟩ (List.replicate 35 1)).2 (by decide)⟩

theorem from_little_endian_append (xs ys : data_chunk) :
    from_little_endian (xs ++ ys)
      = from_little_endian xs + 256 ^ xs.length * from_little_endian ys := by
  induction xs with
  | nil => simp [from_little_endian]
  | cons x xs ih =>
    show from_little_endian (x :: (xs ++ ys)) = _
    simp only [from_little_endian]
    rw [ih, List.length_cons, pow_succ]
    ring

theorem from_little_endian_lt (xs : data_chunk) :
    from_little_endian xs < 256 ^ xs.length := by
  induction xs with
  | nil => simp [from_little_endian]
  | cons x xs ih =>
    have hx := x.isLt
    simp only [from_little_endian, List.length_cons, pow_succ]
    omega

/-- C25: for every outpoint, `checksum()` is `(index + 2^32 * v) mod 2^63`,
where `v` is the little-endian 32-bit value of the hash bytes 4..7: the index
overwrites the low 4 bytes of a copy of the hash, the first 8 bytes are read
little-endian and the top bit is cleared. Hence the result is below 2^63 and
its low 32 bits are the index. The point is not modified: `checksum` is a
function of the point that works on a copy of the hash. -/
theorem point_checksum_value (p : point) :
    (checksum p).val
      = (p.index.val + 4294967296 * from_little_endian ((p.hash.bytes.drop 4).take 4))
          % 9223372036854775808
    ∧ from_little_endian ((p.hash.bytes.drop 4).take 4) < 4294967296
    ∧ (checksum p).val < 9223372036854775808
    ∧ (checksum p).val % 4294967296 = p.index.val := by
  have hidx := p.index.isLt
  have hlen4 : (to_little_endian 4 p.index.val).length = 4 := to_little_endian_length 4 _
  have htake : List.take 8 (to_little_endian 4 p.index.val ++ List.drop 4 p.hash.bytes)
      = to_little_endian 4 p.index.val ++ List.take 4 (List.drop 4 p.hash.bytes) := by
    rw [List.take_append_eq_append_take, hlen4]
    have h1 : List.take 8 (to_little_endian 4 p.index.val) = to_little_endian 4 p.index.val :=
      List.take_of_length_le (by omega)
    rw [h1]
  have hv : from_little_endian ((p.hash.bytes.drop 4).take 4) < 4294967296 := by
    have h1 := from_little_endian_lt ((p.hash.bytes.drop 4).take 4)
    have h2 : ((p.hash.bytes.drop 4).take 4).length = 4 := by
      simp [p.hash.size_eq]
    rw [h2] at h1
    exact lt_of_lt_of_eq h1 (by norm_num)
  have hvalue : from_little_endian
        (List.take 8 (to_little_endian 4 p.index.val ++ List.drop 4 p.hash.bytes))
      = p.index.val + 4294967296 * from_little_endian ((p.hash.bytes.drop 4).take 4) := by
    rw [htake, from_little_endian_append, hlen4,
      from_to_little_endian 4 p.index.val (lt_of_lt_of_eq hidx (by norm_num))]
    norm_num
  have hdiv : (cast_uint64 (1 <<< 63)).val - 1 = 2 ^ 63 - 1 := by
    decide
  have hpow : (2 : Nat) ^ 63 = 9223372036854775808 := by norm_num
  have hcs : (checksum p).val
      = (p.index.val + 4294967296 * from_little_endian ((p.hash.bytes.drop 4).take 4))
          % 9223372036854775808 := by
    have hx : (cast_uint64 (p.index.val
        + 4294967296 * from_little_endian ((p.hash.bytes.drop 4).take 4))).val
        = p.index.val + 4294967296 * from_little_endian ((p.hash.bytes.drop 4).take 4) := by
      simp only [cast_uint64]
      omega
    have hand : ∀ (x : Nat), x &&& ((cast_uint64 (1 <<< 63)).val - 1)
        = x % 9223372036854775808 := by
      intro x
      rw [hdiv, Nat.and_pow_two_sub_one_eq_mod, hpow]
    show (cast_uint64 ((cast_uint64 (from_little_endian (List.take 8
        (write_4_bytes_little_endian p.index ++ List.drop 4 p.hash.bytes)))).val
          &&& ((cast_uint64 (1 <<< 63)).val - 1))).val = _
    rw [write_4_bytes_little_endian, hvalue, hx, hand]
    simp only [cast_uint64]
    omega
  refine ⟨hcs, hv, ?_, ?_⟩
  · rw [hcs]
    omega
  · rw [hcs]
    omega

end point

/-! ## point_iterator -/

namespace point_iterator

theorem getElem?_eq_some_getD (l : data_chunk) (i : Nat) (h : i < l.length) :
    l[i]? = some (l.getD i 0) := by
  rw [List.getD_eq_getElem?_getD, List.getElem?_eq_getElem h]
  rfl

theorem range_map_getD (l : data_chunk) :
    (List.range l.length).map (fun i => l.getD i 0) = l := by
  apply List.ext_getElem?
  intro i
  by_cases h : i < l.length
  · rw [List.getElem?_map, List.getElem?_range h, getElem?_eq_some_getD l i h]
    rfl
  · have h1 : l.length ≤ i := by omega
    rw [List.getElem?_eq_none (by simpa using h1), List.getElem?_eq_none h1]

theorem point_to_data_length (p : point) : (point.to_data p).length = 36 := by
  simp [point.to_data, write_hash, write_4_bytes_little_endian, to_little_endian_length,
    p.hash.size_eq]

/-- The byte that `operator*` yields at an offset below 36 is the byte of
`to_data()` at that position. -/
theorem dereference_eq_getD (p : point) (k : byte) (hk : k.val < 36) :
    dereference ⟨p, k⟩ = (point.to_data p).getD k.val 0 := by
  have hlen := p.hash.size_eq
  simp only [dereference, hash_size, point.to_data, write_hash, write_4_bytes_little_endian,
    List.getD_eq_getElem?_getD]
  by_cases h32 : k.val < 32
  · rw [if_pos h32, List.getElem?_append_left (by omega)]
  · have h4 : k.val - 32 < 4 := by omega
    rw [if_neg h32, if_pos h4, List.getElem?_append_right (by omega), hlen]

theorem dereference_beyond (p : point) (k : byte) (hk : 36 ≤ k.val) :
    dereference ⟨p, k⟩ = 0 := by
  have h32 : ¬ k.val < 32 := by omega
  have h4 : ¬ k.val - 32 < 4 := by omega
  simp only [dereference, hash_size, if_neg h32, if_neg h4]

theorem max_offset_val : max_offset.val = 36 := rfl

theorem increment_offset (p : point) (k : byte) :
    increment ⟨p, k⟩ = ⟨p, if k.val < 36 then cast_uint8 (k.val + 1) else k⟩ := by
  simp only [increment, max_offset_val]
  split <;> rfl

theorem iterate_increment (p : point) :
    ∀ (n : Nat), n ≤ 36 → increment^[n] (point.begin p) = ⟨p, cast_uint8 n⟩ := by
  intro n
  induction n with
  | zero =>
    intro _
    rfl
  | succ n ih =>
    intro hn
    rw [Function.iterate_succ_apply', ih (by omega), increment_offset]
    have hv : (cast_uint8 n).val = n := by
      simp only [cast_uint8]
      omega
    rw [hv, if_pos (by omega)]

/-- C26: for every outpoint `p` and every cursor offset `k` in 0..255, a
`point_iterator` at offset `k` dereferences to `p.to_data()[k]` when `k < 36`
(the hash bytes, then the index little-endian) and to 0 when `k >= 36`;
`begin()` is at offset 0, `end()` at offset 36, and increment moves the offset
by one up to 36, so that iterating from `begin()` to `end()` yields exactly the
36 bytes of `p.to_data()`. -/
theorem point_iterator_yields_to_data (p : point) (k : byte) :
    (k.val < 36 → (point.to_data p)[k.val]? = some (dereference ⟨p, k⟩))
    ∧ (36 ≤ k.val → dereference ⟨p, k⟩ = 0)
    ∧ point.to_data p = p.hash.bytes ++ to_little_endian 4 p.index.val
    ∧ point.begin p = ⟨p, 0⟩
    ∧ point.end_ p = ⟨p, 36⟩
    ∧ (increment ⟨p, k⟩).point_ = p
    ∧ (increment ⟨p, k⟩).offset_.val = (if k.val < 36 then k.val + 1 else k.val)
    ∧ (∀ (n : Nat), n ≤ 36 → (increment^[n] (point.begin p)).offset_.val = n)
    ∧ increment^[36] (point.begin p) = point.end_ p
    ∧ (List.range 36).map (fun n => dereference (increment^[n] (point.begin p)))
        = point.to_data p := by
  refine ⟨?_, dereference_beyond p k, rfl, rfl, rfl, ?_, ?_, ?_, ?_, ?_⟩
  · intro hk
    rw [dereference_eq_getD p k hk]
    exact getElem?_eq_some_getD _ _ (by rw [point_to_data_length]; exact hk)
  · rw [increment_offset]
  · rw [increment_offset]
    by_cases hk : k.val < 36
    · simp only [if_pos hk, cast_uint8]
      omega
    · simp only [if_neg hk]
  · intro n hn
    rw [iterate_increment p n hn]
    simp only [cast_uint8]
    omega
  · rw [iterate_increment p 36 (le_refl _)]
    rfl
  · have hmap : (List.range 36).map (fun n => dereference (increment^[n] (point.begin p)))
        = (List.range 36).map (fun n => (point.to_data p).getD n 0) := by
      apply List.map_congr_left
      intro n hn
      rw [List.mem_range] at hn
      rw [iterate_increment p n (by omega)]
      have hv : (cast_uint8 n).val = n := by
        simp only [cast_uint8]
        omega
      rw [dereference_eq_getD p (cast_uint8 n) (by rw [hv]; exact hn), hv]
    rw [hmap]
    have h := range_map_getD (point.to_data p)
    rw [point_to_data_length] at h
    exact h

/-- Witness for C26: the byte under offset 33 of a point with index 0x0201 is
the second index byte, and offset 40 yields 0. -/
theorem point_iterator_yields_to_data_witness :
    (point.to_data ⟨null_hash, 513⟩)[33]? = some (dereference ⟨⟨null_hash, 513⟩, 33⟩)
    ∧ dereference ⟨⟨null_hash, 513⟩, 33⟩ = 2
    ∧ dereference ⟨⟨null_hash, 513⟩, 40⟩ = 0 :=
  ⟨(point_iterator_yields_to_data ⟨null_hash, 513⟩ 33).1 (by decide), by decide,
    (point_iterator_yields_to_data ⟨null_hash, 513⟩ 40).2.1 (by decide)⟩

end point_iterator

/-! ## conditional_stack -/

namespace conditional_stack

/-- C27: with the conditional stack a list of booleans, `open(v)` the push of
`v`, `else_()` the negation of the top and `close()` the pop: `closed()` is true
iff the list is empty and `succeeded()` is true iff no entry is false (so it is
true on the empty stack). In particular, from the empty stack, after
`open(true); open(false)` `succeeded()` is false; after `else_()` it is true;
after `close(); close()` `closed()` is true. -/
theorem conditional_stack_semantics (s : conditional_stack) (v top : Bool) (below : List Bool) :
    (open_ s v).stack_ = s.stack_ ++ [v]
    ∧ (else_ ⟨below ++ [top]⟩).stack_ = below ++ [!top]
    ∧ (close ⟨below ++ [top]⟩).stack_ = below
    ∧ (closed s = true ↔ s.stack_ = [])
    ∧ (succeeded s = true ↔ ∀ b ∈ s.stack_, b ≠ false)
    ∧ succeeded ⟨[]⟩ = true
    ∧ succeeded (open_ (open_ ⟨[]⟩ true) false) = false
    ∧ succeeded (else_ (open_ (open_ ⟨[]⟩ true) false)) = true
    ∧ (else_ (open_ (open_ ⟨[]⟩ true) false)).stack_ = [true, true]
    ∧ closed (close (close (else_ (open_ (open_ ⟨[]⟩ true) false)))) = true := by
  refine ⟨rfl, ?_, ?_, ?_, ?_, by decide, by decide, by decide, by decide, by decide⟩
  · simp [else_]
  · simp [close]
  · simp [closed]
  · simp only [succeeded, beq_iff_eq, List.count_eq_zero]
    constructor
    · intro h b hb hf
      rw [hf] at hb
      exact h hb
    · intro h hmem
      exact h false hmem rfl

/-- C28: on every non-empty conditional stack, `else_()` negates the top entry
and leaves the depth and every entry below the top unchanged; `else_()` twice
in a row restores the stack exactly; and `close()` immediately after `open(v)`
restores the stack that preceded the open. -/
theorem conditional_stack_frame (s : conditional_stack) (v : Bool) (h : s.stack_ ≠ []) :
    (else_ s).stack_.length = s.stack_.length
    ∧ (else_ s).stack_.getLast? = s.stack_.getLast?.map (fun top => !top)
    ∧ (else_ s).stack_.dropLast = s.stack_.dropLast
    ∧ else_ (else_ s) = s
    ∧ close (open_ s v) = s := by
  obtain ⟨stack⟩ := s
  simp only at h
  obtain ⟨below, top, rfl⟩ : ∃ below top, stack = below ++ [top] :=
    ⟨stack.dropLast, stack.getLast h, (List.dropLast_append_getLast h).symm⟩
  refine ⟨?_, ?_, ?_, ?_, ?_⟩
  · simp [else_]
  · simp [else_]
  · simp [else_]
  · simp [else_]
  · simp [close, open_]

/-- Witness for C28: the stack `[true, false]`, whose top is `false`. -/
theorem conditional_stack_frame_witness :
    (else_ ⟨[true, false]⟩).stack_ = [true, true]
    ∧ else_ (else_ ⟨[true, false]⟩) = ⟨[true, false]⟩
    ∧ close (open_ ⟨[true, false]⟩ true) = ⟨[true, false]⟩ :=
  ⟨by decide,
    (conditional_stack_frame ⟨[true, false]⟩ true (by decide)).2.2.2.1,
    (conditional_stack_frame ⟨[true, false]⟩ true (by decide)).2.2.2.2⟩

end conditional_stack

/-! ## header -/

namespace header

/-- Decoding the encoding of a header written with its transaction count, with
any bytes after it: every field is read back and the hash cache is empty. -/
theorem header_from_data_to_data_append (self h : header) (rest : data_chunk) :
    from_data self ⟨to_data h true ++ rest, true⟩ true
      = (true, { h with hash_ := none }, ⟨rest, true⟩) := by
  simp only [from_data, to_data, List.append_assoc, reader.read_hash_write,
    reader.read_4_bytes_write, if_true, reader.read_variable_uint_write]
  simp [reset]

/-- C6: for every header `h`, `from_data(h.to_data(true), true)` returns true
and yields a header equal to `h` under `operator==`: version,
previous_block_hash, merkle, timestamp, bits, nonce and transaction_count are
all equal. -/
theorem header_from_data_to_data_roundtrip (self h : header) :
    (from_data self (reader.of_data (to_data h true)) true).1 = true
    ∧ eq (from_data self (reader.of_data (to_data h true)) true).2.1 h = true
    ∧ (from_data self (reader.of_data (to_data h true)) true).2.1.version = h.version
    ∧ (from_data self (reader.of_data (to_data h true)) true).2.1.previous_block_hash
        = h.previous_block_hash
    ∧ (from_data self (reader.of_data (to_data h true)) true).2.1.merkle = h.merkle
    ∧ (from_data self (reader.of_data (to_data h true)) true).2.1.timestamp = h.timestamp
    ∧ (from_data self (reader.of_data (to_data h true)) true).2.1.bits = h.bits
    ∧ (from_data self (reader.of_data (to_data h true)) true).2.1.nonce = h.nonce
    ∧ (from_data self (reader.of_data (to_data h true)) true).2.1.transaction_count
        = h.transaction_count := by
  have hr := header_from_data_to_data_append self h []
  rw [List.append_nil] at hr
  simp [reader.of_data, hr, eq]

theorem header_to_data_length (h : header) (with_transaction_count : Bool) :
    (to_data h with_transaction_count).length = serialized_size h with_transaction_count := by
  cases with_transaction_count
  · simp [to_data, serialized_size, satoshi_fixed_size_without_transaction_count, write_hash,
      write_4_bytes_little_endian, to_little_endian_length, hash_digest.size_eq]
  · simp only [to_data, serialized_size, satoshi_fixed_size_without_transaction_count,
      write_hash, write_4_bytes_little_endian, to_little_endian_length, hash_digest.size_eq,
      write_variable_uint_length, List.length_append, if_true]

/-- C14: for every header `h` and flag `f`, `h.to_data(f)` is version,
previous_block_hash, merkle, timestamp, bits, nonce in that order (4 + 32 + 32
+ 4 + 4 + 4 = 80 bytes, the integers little-endian), followed by the
variable-length encoding of transaction_count iff `f` is true; its length is
`h.serialized_size(f)`, which is 80 plus `variable_uint_size(transaction_count)`
if `f`, and 80 otherwise. -/
theorem header_to_data_layout (h : header) (f : Bool) :
    to_data h f
      = (to_little_endian 4 h.version.val ++ h.previous_block_hash.bytes ++ h.merkle.bytes
          ++ to_little_endian 4 h.timestamp.val ++ to_little_endian 4 h.bits.val
          ++ to_little_endian 4 h.nonce.val)
        ++ (if f then write_variable_uint_little_endian h.transaction_count else [])
    ∧ (to_little_endian 4 h.version.val).length = 4
    ∧ h.previous_block_hash.bytes.length = 32
    ∧ h.merkle.bytes.length = 32
    ∧ (to_little_endian 4 h.timestamp.val).length = 4
    ∧ (to_little_endian 4 h.bits.val).length = 4
    ∧ (to_little_endian 4 h.nonce.val).length = 4
    ∧ (to_little_endian 4 h.version.val ++ h.previous_block_hash.bytes ++ h.merkle.bytes
          ++ to_little_endian 4 h.timestamp.val ++ to_little_endian 4 h.bits.val
          ++ to_little_endian 4 h.nonce.val).length = 80
    ∧ (if f then write_variable_uint_little_endian h.transaction_count else []).length
        = (if f then variable_uint_size h.transaction_count else 0)
    ∧ (to_data h f).length = serialized_size h f
    ∧ serialized_size h f = 80 + (if f then variable_uint_size h.transaction_count else 0) := by
  refine ⟨rfl, to_little_endian_length 4 _, h.previous_block_hash.size_eq, h.merkle.size_eq,
    to_little_endian_length 4 _, to_little_endian_length 4 _, to_little_endian_length 4 _,
    ?_, ?_, header_to_data_length h f, ?_⟩
  · simp [to_little_endian_length, hash_digest.size_eq]
  · cases f
    · rfl
    · exact write_variable_uint_length h.transaction_count
  · cases f <;> rfl

/-- C30, as stated, fails: the header whose six body fields are zero and whose
transaction_count is 1 has a field that differs from its zero default, and
`is_valid()` is false on it. -/
theorem header_is_valid_ignores_count :
    is_valid (construct 0 null_hash null_hash 0 0 0 1) = false
    ∧ (construct 0 null_hash null_hash 0 0 0 1).transaction_count ≠ 0 := by
  decide

/-- C30, amended: `is_valid()` is true iff one of the six fields of the 80-byte
header body (version, previous_block_hash, merkle, timestamp, bits, nonce)
differs from its zero default. -/
theorem header_is_valid_iff (h : header) :
    is_valid h = true
      ↔ (h.version ≠ 0 ∨ h.previous_block_hash ≠ null_hash ∨ h.merkle ≠ null_hash
          ∨ h.timestamp ≠ 0 ∨ h.bits ≠ 0 ∨ h.nonce ≠ 0) := by
  unfold is_valid
  constructor
  · intro hv
    simp only [Bool.or_eq_true, bne_iff_ne, ne_eq] at hv
    rcases hv with ((((hv | hv) | hv) | hv) | hv) | hv
    · exact Or.inl hv
    · exact Or.inr (Or.inl hv)
    · exact Or.inr (Or.inr (Or.inl hv))
    · exact Or.inr (Or.inr (Or.inr (Or.inl hv)))
    · exact Or.inr (Or.inr (Or.inr (Or.inr (Or.inl hv))))
    · exact Or.inr (Or.inr (Or.inr (Or.inr (Or.inr hv))))
  · intro hf
    simp only [Bool.or_eq_true, bne_iff_ne, ne_eq]
    rcases hf with hf | hf | hf | hf | hf | hf
    · exact Or.inl (Or.inl (Or.inl (Or.inl (Or.inl hf))))
    · exact Or.inl (Or.inl (Or.inl (Or.inl (Or.inr hf))))
    · exact Or.inl (Or.inl (Or.inl (Or.inr hf)))
    · exact Or.inl (Or.inl (Or.inr hf))
    · exact Or.inl (Or.inr hf)
    · exact Or.inr hf

/-- Witness for C30, amended: a header whose only non-zero field is the version
is valid. -/
theorem header_is_valid_iff_witness :
    is_valid (construct 1 null_hash null_hash 0 0 0 0) = true :=
  (header_is_valid_iff (construct 1 null_hash null_hash 0 0 0 0)).mpr (Or.inl (by decide))

/-- C10 fails on the code: `operator=` assigns the seven fields and leaves the
cached digest in place. The header `(version 1, zero elsewhere)` is hashed and
then assigned the header `(version 2, zero elsewhere)`; `hash()` then returns
`bitcoin_hash` of the serialisation of the first header, which is not the
serialisation `to_data(false)` of the current field values. -/
theorem header_hash_stale_after_assignment (bitcoin_hash : data_chunk → hash_digest) :
    (hash bitcoin_hash
        (assign (hash bitcoin_hash (construct 1 null_hash null_hash 0 0 0 0)).2
          (construct 2 null_hash null_hash 0 0 0 0))).1
      = bitcoin_hash (to_data (construct 1 null_hash null_hash 0 0 0 0) false)
    ∧ to_data (assign (hash bitcoin_hash (construct 1 null_hash null_hash 0 0 0 0)).2
          (construct 2 null_hash null_hash 0 0 0 0)) false
      = to_data (construct 2 null_hash null_hash 0 0 0 0) false
    ∧ to_data (construct 1 null_hash null_hash 0 0 0 0) false
      ≠ to_data (construct 2 null_hash null_hash 0 0 0 0) false := by
  refine ⟨rfl, rfl, ?_⟩
  decide

end header

/-! ## input -/

namespace input

theorem point_is_null_iff (p : point) :
    point.is_null p = true ↔ (p.index = max_uint32 ∧ p.hash = null_hash) := by
  simp [point.is_null]

/-- C29: `input::from_data` reads the outpoint, parses the script in `raw_data`
mode iff the outpoint just parsed is null (index 0xFFFFFFFF and all-zero hash)
and in `raw_data_fallback` mode otherwise, then reads the 4-byte little-endian
sequence. It returns true iff the outpoint read, the script parse and the
sequence read all succeed, and then holds the three values read; when it
returns false the input is reset: zero outpoint, reset script, sequence 0. -/
theorem input_from_data_steps {S : Type} (sapi : script_api S) (self : input S)
    (source : reader) :
    let p := point.from_data (reset sapi self).previous_output source
    let mode :=
      if p.2.1.index = max_uint32 ∧ p.2.1.hash = null_hash then parse_mode.raw_data
      else parse_mode.raw_data_fallback
    let s := sapi.from_data (reset sapi self).script p.2.2 true mode
    let q := s.2.2.read_4_bytes_little_endian
    ((from_data sapi self source).1 = true ↔ (p.1 = true ∧ s.1 = true ∧ q.2.valid = true))
    ∧ ((from_data sapi self source).1 = true →
        (from_data sapi self source).2.1.previous_output = p.2.1
          ∧ (from_data sapi self source).2.1.script = s.2.1
          ∧ (from_data sapi self source).2.1.sequence = q.1
          ∧ (from_data sapi self source).2.2 = q.2)
    ∧ ((from_data sapi self source).1 = false →
        (from_data sapi self source).2.1.previous_output = ⟨null_hash, 0⟩
          ∧ (∃ (script : S), (from_data sapi self source).2.1.script = sapi.reset script)
          ∧ (from_data sapi self source).2.1.sequence = 0) := by
  intro p mode s q
  have hmode : (if point.is_null p.2.1 = true then parse_mode.raw_data
      else parse_mode.raw_data_fallback) = mode := by
    by_cases hn : p.2.1.index = max_uint32 ∧ p.2.1.hash = null_hash
    · have h1 := (point_is_null_iff p.2.1).mpr hn
      simp only [mode, if_pos hn, if_pos h1]
    · have h1 : ¬ point.is_null p.2.1 = true := fun h => hn ((point_is_null_iff p.2.1).mp h)
      simp only [mode, if_neg hn, if_neg h1]
  cases hp : p.1
  · have hfd : from_data sapi self source
        = (false, reset sapi { reset sapi self with previous_output := p.2.1 }, p.2.2) := by
      simp only [from_data]
      rw [show (point.from_data (reset sapi self).previous_output source).1 = false from hp]
      rfl
    rw [hfd]
    refine ⟨?_, ?_, ?_⟩
    · simp
    · intro h
      exact absurd h (by simp)
    · intro _
      exact ⟨rfl, ⟨_, rfl⟩, rfl⟩
  · cases hs : s.1
    · have hfd : from_data sapi self source
          = (false,
              reset sapi { reset sapi self with previous_output := p.2.1, script := s.2.1 },
              s.2.2) := by
        simp only [from_data]
        rw [show (point.from_data (reset sapi self).previous_output source).1 = true from hp]
        simp only [if_true, hmode]
        rw [show (sapi.from_data (reset sapi self).script p.2.2 true mode).1 = false from hs]
        rfl
      rw [hfd]
      refine ⟨?_, ?_, ?_⟩
      · simp
      · intro h
        exact absurd h (by simp)
      · intro _
        exact ⟨rfl, ⟨_, rfl⟩, rfl⟩
    · cases hq : q.2.valid
      · have hfd : from_data sapi self source
            = (false,
                reset sapi { previous_output := p.2.1, script := s.2.1, sequence := q.1 },
                q.2) := by
          simp only [from_data]
          rw [show (point.from_data (reset sapi self).previous_output source).1 = true from hp]
          simp only [if_true, hmode]
          rw [show (sapi.from_data (reset sapi self).script p.2.2 true mode).1 = true from hs]
          simp only [if_true]
          rw [show (sapi.from_data (reset sapi self).script p.2.2 true
            mode).2.2.read_4_bytes_little_endian.2.valid = false from hq]
          rfl
        rw [hfd]
        refine ⟨?_, ?_, ?_⟩
        · simp
        · intro h
          exact absurd h (by simp)
        · intro _
          exact ⟨rfl, ⟨_, rfl⟩, rfl⟩
      · have hfd : from_data sapi self source
            = (true, { previous_output := p.2.1, script := s.2.1, sequence := q.1 }, q.2) := by
          simp only [from_data]
          rw [show (point.from_data (reset sapi self).previous_output source).1 = true from hp]
          simp only [if_true, hmode]
          rw [show (sapi.from_data (reset sapi self).script p.2.2 true mode).1 = true from hs]
          simp only [if_true]
          rw [show (sapi.from_data (reset sapi self).script p.2.2 true
            mode).2.2.read_4_bytes_little_endian.2.valid = true from hq]
          rfl
        rw [hfd]
        refine ⟨?_, ?_, ?_⟩
        · simp
        · intro _
          exact ⟨rfl, rfl, rfl, rfl⟩
        · intro h
          exact absurd h (by simp)

/-- Witness for C29, with one-byte scripts that record their parse mode: a null
outpoint (coinbase) gives the mode `raw_data`, a zero outpoint the mode
`raw_data_fallback`, and a stream that ends inside the sequence is refused and
leaves the input reset. -/
theorem input_from_data_steps_witness :
    (from_data byte_script_api ⟨⟨null_hash, 7⟩, none, 7⟩
        ⟨List.replicate 32 0 ++ [255, 255, 255, 255, 9, 1, 0, 0, 0], true⟩).1 = true
    ∧ (from_data byte_script_api ⟨⟨null_hash, 7⟩, none, 7⟩
        ⟨List.replicate 32 0 ++ [255, 255, 255, 255, 9, 1, 0, 0, 0], true⟩).2.1.script
        = some (parse_mode.raw_data, 9)
    ∧ (from_data byte_script_api ⟨⟨null_hash, 7⟩, none, 7⟩
        ⟨List.replicate 32 0 ++ [255, 255, 255, 255, 9, 1, 0, 0, 0], true⟩).2.1.sequence = 1
    ∧ (from_data byte_script_api ⟨⟨null_hash, 7⟩, none, 7⟩
        ⟨List.replicate 32 0 ++ [0, 0, 0, 0, 9, 1, 0, 0, 0], true⟩).2.1.script
        = some (parse_mode.raw_data_fallback, 9)
    ∧ (from_data byte_script_api ⟨⟨null_hash, 7⟩, none, 7⟩
        ⟨List.replicate 32 0 ++ [0, 0, 0, 0, 9, 1, 0], true⟩).1 = false
    ∧ (from_data byte_script_api ⟨⟨null_hash, 7⟩, none, 7⟩
        ⟨List.replicate 32 0 ++ [0, 0, 0, 0, 9, 1, 0], true⟩).2.1.previous_output
        = ⟨null_hash, 0⟩
    ∧ (from_data byte_script_api ⟨⟨null_hash, 7⟩, none, 7⟩
        ⟨List.replicate 32 0 ++ [0, 0, 0, 0, 9, 1, 0], true⟩).2.1.sequence = 0 :=
  ⟨by decide,
    ((input_from_data_steps byte_script_api ⟨⟨null_hash, 7⟩, none, 7⟩
      ⟨List.replicate 32 0 ++ [255, 255, 255, 255, 9, 1, 0, 0, 0], true⟩).2.1
      (by decide)).2.1,
    ((input_from_data_steps byte_script_api ⟨⟨null_hash, 7⟩, none, 7⟩
      ⟨List.replicate 32 0 ++ [255, 255, 255, 255, 9, 1, 0, 0, 0], true⟩).2.1
      (by decide)).2.2.1,
    ((input_from_data_steps byte_script_api ⟨⟨null_hash, 7⟩, none, 7⟩
      ⟨List.replicate 32 0 ++ [0, 0, 0, 0, 9, 1, 0, 0, 0], true⟩).2.1 (by decide)).2.1,
    by decide,
    ((input_from_data_steps byte_script_api ⟨⟨null_hash, 7⟩, none, 7⟩
      ⟨List.replicate 32 0 ++ [0, 0, 0, 0, 9, 1, 0], true⟩).2.2 (by decide)).1,
    ((input_from_data_steps byte_script_api ⟨⟨null_hash, 7⟩, none, 7⟩
      ⟨List.replicate 32 0 ++ [0, 0, 0, 0, 9, 1, 0], true⟩).2.2 (by decide)).2.2⟩

end input

/-! ## operation -/

namespace operation

/-- Unfolding of `from_data` on a valid stream that holds a first byte. -/
theorem from_data_cons (self : operation) (b : byte) (rest : data_chunk) :
    from_data self ⟨b :: rest, true⟩ =
      (let code := if 0 < b.val ∧ b.val ≤ 75 then opcode.special else b
       if must_read_data code then
         let sz := read_opcode_data_size 0 code b ⟨rest, true⟩
         let d := sz.2.2.read_data sz.2.1.val
         let result := d.2.valid && (d.1.length == sz.2.1.val)
         if !result then (result, ⟨opcode.zero, []⟩, d.2) else (result, ⟨code, d.1⟩, d.2)
       else (true, ⟨code, []⟩, ⟨rest, true⟩)) := by
  have h0 : ¬ (b = 0 ∧ b ≠ opcode.zero) := by
    intro h
    exact h.2 h.1
  simp only [from_data, reader.read_byte_cons, if_neg h0, reset]
  split
  · rfl
  · simp

theorem from_data_special (self : operation) (b : byte) (rest : data_chunk)
    (hb : 1 ≤ b.val ∧ b.val ≤ 75) (hlen : b.val ≤ rest.length) :
    from_data self ⟨b :: rest, true⟩
      = (true, ⟨opcode.special, rest.take b.val⟩, ⟨rest.drop b.val, true⟩) := by
  have hcode : (if 0 < b.val ∧ b.val ≤ 75 then opcode.special else b) = opcode.special :=
    if_pos ⟨hb.1, hb.2⟩
  have hmod : b.val % 4294967296 = b.val := by omega
  have hsz : read_opcode_data_size 0 opcode.special b ⟨rest, true⟩
      = (true, cast_uint32 b.val, ⟨rest, true⟩) := by
    simp [read_opcode_data_size]
  have hm : must_read_data opcode.special = true := by decide
  simp only [from_data_cons, hcode, hsz, hm, if_true]
  simp [cast_uint32, hmod, reader.read_data_of_le _ _ hlen, hlen]

theorem from_data_pushdata1 (self : operation) (n : byte) (tail : data_chunk)
    (hlen : n.val ≤ tail.length) :
    from_data self ⟨opcode.pushdata1 :: n :: tail, true⟩
      = (true, ⟨opcode.pushdata1, tail.take n.val⟩, ⟨tail.drop n.val, true⟩) := by
  have hcode : (if 0 < opcode.pushdata1.val ∧ opcode.pushdata1.val ≤ 75 then opcode.special
      else opcode.pushdata1) = opcode.pushdata1 := by decide
  have hmod : n.val % 4294967296 = n.val := by omega
  have hsz : read_opcode_data_size 0 opcode.pushdata1 opcode.pushdata1 ⟨n :: tail, true⟩
      = (true, cast_uint32 n.val, ⟨tail, true⟩) := by
    rw [read_opcode_data_size, if_neg (by decide), if_pos rfl, reader.read_byte_cons]
  have hm : must_read_data opcode.pushdata1 = true := by decide
  simp only [from_data_cons, hcode, hsz, hm, if_true]
  simp [cast_uint32, hmod, reader.read_data_of_le _ _ hlen, hlen]

theorem from_data_pushdata2 (self : operation) (n0 n1 : byte) (tail : data_chunk)
    (hlen : n0.val + 256 * n1.val ≤ tail.length) :
    from_data self ⟨opcode.pushdata2 :: n0 :: n1 :: tail, true⟩
      = (true, ⟨opcode.pushdata2, tail.take (n0.val + 256 * n1.val)⟩,
          ⟨tail.drop (n0.val + 256 * n1.val), true⟩) := by
  have hcode : (if 0 < opcode.pushdata2.val ∧ opcode.pushdata2.val ≤ 75 then opcode.special
      else opcode.pushdata2) = opcode.pushdata2 := by decide
  have hmod16 : (n0.val + 256 * n1.val) % 65536 = n0.val + 256 * n1.val := by omega
  have hmod : (n0.val + 256 * n1.val) % 4294967296 = n0.val + 256 * n1.val := by omega
  have hsz : read_opcode_data_size 0 opcode.pushdata2 opcode.pushdata2 ⟨n0 :: n1 :: tail, true⟩
      = (true, cast_uint32 (cast_uint16 (n0.val + 256 * n1.val)).val, ⟨tail, true⟩) := by
    rw [read_opcode_data_size, if_neg (by decide), if_neg (by decide), if_pos rfl,
      reader.read_2_bytes_cons]
  have hm : must_read_data opcode.pushdata2 = true := by decide
  simp only [from_data_cons, hcode, hsz, hm, if_true]
  simp [cast_uint32, cast_uint16, hmod16, hmod, reader.read_data_of_le _ _ hlen, hlen]

theorem from_data_pushdata4 (self : operation) (n0 n1 n2 n3 : byte) (tail : data_chunk)
    (hlen : n0.val + 256 * (n1.val + 256 * (n2.val + 256 * n3.val)) ≤ tail.length) :
    from_data self ⟨opcode.pushdata4 :: n0 :: n1 :: n2 :: n3 :: tail, true⟩
      = (true,
          ⟨opcode.pushdata4, tail.take (n0.val + 256 * (n1.val + 256 * (n2.val + 256 * n3.val)))⟩,
          ⟨tail.drop (n0.val + 256 * (n1.val + 256 * (n2.val + 256 * n3.val))), true⟩) := by
  have hcode : (if 0 < opcode.pushdata4.val ∧ opcode.pushdata4.val ≤ 75 then opcode.special
      else opcode.pushdata4) = opcode.pushdata4 := by decide
  have hmod : (n0.val + 256 * (n1.val + 256 * (n2.val + 256 * n3.val))) % 4294967296
      = n0.val + 256 * (n1.val + 256 * (n2.val + 256 * n3.val)) := by omega
  have hsz : read_opcode_data_size 0 opcode.pushdata4 opcode.pushdata4
        ⟨n0 :: n1 :: n2 :: n3 :: tail, true⟩
      = (true, cast_uint32 (n0.val + 256 * (n1.val + 256 * (n2.val + 256 * n3.val))),
          ⟨tail, true⟩) := by
    rw [read_opcode_data_size, if_neg (by decide), if_neg (by decide), if_neg (by decide),
      if_pos rfl, reader.read_4_bytes_cons]
  have hm : must_read_data opcode.pushdata4 = true := by decide
  simp only [from_data_cons, hcode, hsz, hm, if_true]
  simp [cast_uint32, hmod, reader.read_data_of_le _ _ hlen, hlen]

theorem from_data_plain (self : operation) (b : byte) (rest : data_chunk)
    (hb : ¬ (1 ≤ b.val ∧ b.val ≤ 75)) (h1 : b ≠ opcode.pushdata1)
    (h2 : b ≠ opcode.pushdata2) (h4 : b ≠ opcode.pushdata4) :
    from_data self ⟨b :: rest, true⟩ = (true, ⟨b, []⟩, ⟨rest, true⟩) := by
  have hs : b ≠ opcode.special := by
    intro h
    rw [h] at hb
    exact hb (by decide)
  have hcode : (if 0 < b.val ∧ b.val ≤ 75 then opcode.special else b) = b := by
    rw [if_neg]
    intro h
    exact hb ⟨h.1, h.2⟩
  have hm : must_read_data b = false := by
    simp [must_read_data, hs, h1, h2, h4]
  simp only [from_data_cons, hcode, hm]
  simp

theorem to_little_endian_two (n0 n1 : byte) :
    to_little_endian 2 (n0.val + 256 * n1.val) = [n0, n1] := by
  have h0 : cast_uint8 (n0.val + 256 * n1.val) = n0 := by
    apply Fin.ext
    simp only [cast_uint8]
    omega
  have h1 : cast_uint8 ((n0.val + 256 * n1.val) / 256) = n1 := by
    apply Fin.ext
    simp only [cast_uint8]
    omega
  simp [to_little_endian, h0, h1]

theorem to_little_endian_four (n0 n1 n2 n3 : byte) :
    to_little_endian 4 (n0.val + 256 * (n1.val + 256 * (n2.val + 256 * n3.val)))
      = [n0, n1, n2, n3] := by
  have h0 : cast_uint8 (n0.val + 256 * (n1.val + 256 * (n2.val + 256 * n3.val))) = n0 := by
    apply Fin.ext
    simp only [cast_uint8]
    omega
  have h1 : cast_uint8 ((n0.val + 256 * (n1.val + 256 * (n2.val + 256 * n3.val))) / 256)
      = n1 := by
    apply Fin.ext
    simp only [cast_uint8]
    omega
  have h2 : cast_uint8 ((n0.val + 256 * (n1.val + 256 * (n2.val + 256 * n3.val))) / 256 / 256)
      = n2 := by
    apply Fin.ext
    simp only [cast_uint8]
    omega
  have h3 : cast_uint8
      ((n0.val + 256 * (n1.val + 256 * (n2.val + 256 * n3.val))) / 256 / 256 / 256) = n3 := by
    apply Fin.ext
    simp only [cast_uint8]
    omega
  simp [to_little_endian, h0, h1, h2, h3]

theorem to_data_special (d : data_chunk) :
    to_data ⟨opcode.special, d⟩ = cast_uint8 d.length :: d := by
  have h1 : opcode.special ≠ opcode.raw_data := by decide
  have h2 : opcode.special ≠ opcode.pushdata1 := by decide
  have h3 : opcode.special ≠ opcode.pushdata2 := by decide
  have h4 : opcode.special ≠ opcode.pushdata4 := by decide
  simp [to_data, h1, h2, h3, h4]

theorem to_data_pushdata1 (d : data_chunk) :
    to_data ⟨opcode.pushdata1, d⟩ = opcode.pushdata1 :: cast_uint8 d.length :: d := by
  have h1 : opcode.pushdata1 ≠ opcode.raw_data := by decide
  have h2 : opcode.pushdata1 ≠ opcode.special := by decide
  simp [to_data, h1, h2]

theorem to_data_pushdata2 (d : data_chunk) :
    to_data ⟨opcode.pushdata2, d⟩
      = opcode.pushdata2 :: (to_little_endian 2 (d.length % 65536) ++ d) := by
  have h1 : opcode.pushdata2 ≠ opcode.raw_data := by decide
  have h2 : opcode.pushdata2 ≠ opcode.special := by decide
  have h3 : opcode.pushdata2 ≠ opcode.pushdata1 := by decide
  simp [to_data, h1, h2, h3, write_2_bytes_little_endian, cast_uint16]

theorem to_data_pushdata4 (d : data_chunk) :
    to_data ⟨opcode.pushdata4, d⟩
      = opcode.pushdata4 :: (to_little_endian 4 (d.length % 4294967296) ++ d) := by
  have h1 : opcode.pushdata4 ≠ opcode.raw_data := by decide
  have h2 : opcode.pushdata4 ≠ opcode.special := by decide
  have h3 : opcode.pushdata4 ≠ opcode.pushdata1 := by decide
  have h4 : opcode.pushdata4 ≠ opcode.pushdata2 := by decide
  simp [to_data, h1, h2, h3, h4, write_4_bytes_little_endian, cast_uint32]

theorem to_data_plain (c : opcode) (d : data_chunk) (hs : c ≠ opcode.special)
    (h1 : c ≠ opcode.pushdata1) (h2 : c ≠ opcode.pushdata2) (h4 : c ≠ opcode.pushdata4)
    (hr : c ≠ opcode.raw_data) :
    to_data ⟨c, d⟩ = c :: d := by
  simp [to_data, hs, h1, h2, h4, hr]

/-- Two little-endian digits of a number below 2^16. -/
theorem to_little_endian_two_digits (v : Nat) (hv : v < 65536) :
    to_little_endian 2 v = [cast_uint8 v, cast_uint8 (v / 256)]
      ∧ (cast_uint8 v).val + 256 * (cast_uint8 (v / 256)).val = v := by
  constructor
  · simp [to_little_endian]
  · simp only [cast_uint8]
    omega

/-- Four little-endian digits of a number below 2^32. -/
theorem to_little_endian_four_digits (v : Nat) (hv : v < 4294967296) :
    to_little_endian 4 v
        = [cast_uint8 v, cast_uint8 (v / 256), cast_uint8 (v / 256 / 256),
            cast_uint8 (v / 256 / 256 / 256)]
      ∧ (cast_uint8 v).val + 256 * ((cast_uint8 (v / 256)).val
          + 256 * ((cast_uint8 (v / 256 / 256)).val
            + 256 * (cast_uint8 (v / 256 / 256 / 256)).val)) = v := by
  constructor
  · simp [to_little_endian]
  · simp only [cast_uint8]
    omega

/-- Decoding the encoding of a canonical operation, with any bytes after it:
`from_data` succeeds, yields the operation and leaves exactly the bytes after. -/
theorem operation_from_data_to_data_append (self x : operation) (rest : data_chunk)
    (hx : canonical x) :
    from_data self ⟨to_data x ++ rest, true⟩ = (true, x, ⟨rest, true⟩) := by
  obtain ⟨code, data⟩ := x
  rcases hx with ⟨hc, hlo, hhi⟩ | ⟨hc, hhi⟩ | ⟨hc, hhi⟩ | ⟨hc, hhi⟩ | ⟨hd, hb, h1, h2, h4, hr⟩
  · simp only at hc hlo hhi
    subst hc
    have hv : (cast_uint8 data.length).val = data.length := by
      simp only [cast_uint8]
      omega
    rw [to_data_special, List.cons_append,
      from_data_special self _ _ (by rw [hv]; exact ⟨hlo, hhi⟩) (by rw [hv]; simp), hv]
    simp
  · simp only at hc hhi
    subst hc
    have hv : (cast_uint8 data.length).val = data.length := by
      simp only [cast_uint8]
      omega
    rw [to_data_pushdata1, List.cons_append, List.cons_append,
      from_data_pushdata1 self _ _ (by rw [hv]; simp), hv]
    simp
  · simp only at hc hhi
    subst hc
    have hm : data.length % 65536 = data.length := by omega
    obtain ⟨hd1, hd2⟩ := to_little_endian_two_digits data.length (by omega)
    rw [to_data_pushdata2, hm, hd1]
    simp only [List.cons_append, List.nil_append]
    rw [from_data_pushdata2 self _ _ _ (by rw [hd2]; simp), hd2]
    simp
  · simp only at hc hhi
    subst hc
    have hm : data.length % 4294967296 = data.length := by omega
    obtain ⟨hd1, hd2⟩ := to_little_endian_four_digits data.length (by omega)
    rw [to_data_pushdata4, hm, hd1]
    simp only [List.cons_append, List.nil_append]
    rw [from_data_pushdata4 self _ _ _ _ _ (by rw [hd2]; simp), hd2]
    simp
  · simp only at hd hb h1 h2 h4 hr
    subst hd
    have hs : code ≠ opcode.special := by
      intro h
      rw [h] at hb
      exact hb (by decide)
    rw [to_data_plain code [] hs h1 h2 h4 hr]
    exact from_data_plain self code rest hb h1 h2 h4

/-- The result of `from_data` when the code read carries data: the reader is
still valid after the payload read and the payload has the declared size. -/
theorem from_data_result_of_must_read (self : operation) (b : byte) (rest : data_chunk)
    (code : opcode) (hcode : (if 0 < b.val ∧ b.val ≤ 75 then opcode.special else b) = code)
    (hm : must_read_data code = true) :
    (from_data self ⟨b :: rest, true⟩).1
      = (((read_opcode_data_size 0 code b ⟨rest, true⟩).2.2.read_data
            (read_opcode_data_size 0 code b ⟨rest, true⟩).2.1.val).2.valid
          && (((read_opcode_data_size 0 code b ⟨rest, true⟩).2.2.read_data
              (read_opcode_data_size 0 code b ⟨rest, true⟩).2.1.val).1.length
            == (read_opcode_data_size 0 code b ⟨rest, true⟩).2.1.val)) := by
  simp only [from_data_cons, hcode, hm, if_true]
  split <;> simp_all

/-- A successful `from_data` on a valid stream with first byte `b`: the stream
holds the bytes that the first byte requires. -/
theorem from_data_success_cases (self : operation) (b : byte) (rest : data_chunk)
    (h : (from_data self ⟨b :: rest, true⟩).1 = true) :
    (1 ≤ b.val ∧ b.val ≤ 75 ∧ b.val ≤ rest.length)
    ∨ (b = opcode.pushdata1 ∧ ∃ (n : byte) (tail : data_chunk),
        rest = n :: tail ∧ n.val ≤ tail.length)
    ∨ (b = opcode.pushdata2 ∧ ∃ (n0 n1 : byte) (tail : data_chunk),
        rest = n0 :: n1 :: tail ∧ n0.val + 256 * n1.val ≤ tail.length)
    ∨ (b = opcode.pushdata4 ∧ ∃ (n0 n1 n2 n3 : byte) (tail : data_chunk),
        rest = n0 :: n1 :: n2 :: n3 :: tail
          ∧ n0.val + 256 * (n1.val + 256 * (n2.val + 256 * n3.val)) ≤ tail.length)
    ∨ (¬ (1 ≤ b.val ∧ b.val ≤ 75) ∧ b ≠ opcode.pushdata1 ∧ b ≠ opcode.pushdata2
        ∧ b ≠ opcode.pushdata4) := by
  by_cases hb : 1 ≤ b.val ∧ b.val ≤ 75
  · left
    refine ⟨hb.1, hb.2, ?_⟩
    by_contra hlen
    have hcode : (if 0 < b.val ∧ b.val ≤ 75 then opcode.special else b) = opcode.special :=
      if_pos ⟨hb.1, hb.2⟩
    have hmod : b.val % 4294967296 = b.val := by omega
    rw [from_data_result_of_must_read self b rest _ hcode (by decide)] at h
    have hsz : read_opcode_data_size 0 opcode.special b ⟨rest, true⟩
        = (true, cast_uint32 b.val, ⟨rest, true⟩) := by
      simp [read_opcode_data_size]
    rw [hsz] at h
    simp only [cast_uint32, hmod] at h
    rw [reader.read_data_short _ _ (by omega)] at h
    simp at h
  · right
    by_cases h1 : b = opcode.pushdata1
    · left
      refine ⟨h1, ?_⟩
      subst h1
      rw [from_data_result_of_must_read self _ rest opcode.pushdata1 (by decide)
        (by decide)] at h
      rw [read_opcode_data_size, if_neg (by decide), if_pos rfl] at h
      cases rest with
      | nil => simp [reader.read_byte, reader.read_data] at h
      | cons n tail =>
        refine ⟨n, tail, rfl, ?_⟩
        by_contra hlen
        have hmod : n.val % 4294967296 = n.val := by omega
        rw [reader.read_byte_cons] at h
        simp only [cast_uint32, hmod] at h
        rw [reader.read_data_short _ _ (by omega)] at h
        simp at h
    · right
      by_cases h2 : b = opcode.pushdata2
      · left
        refine ⟨h2, ?_⟩
        subst h2
        rw [from_data_result_of_must_read self _ rest opcode.pushdata2 (by decide)
          (by decide)] at h
        rw [read_opcode_data_size, if_neg (by decide), if_neg (by decide), if_pos rfl] at h
        match rest, h with
        | [], h => simp [reader.read_2_bytes_little_endian, reader.read_data] at h
        | [_], h => simp [reader.read_2_bytes_little_endian, reader.read_data] at h
        | n0 :: n1 :: tail, h =>
          refine ⟨n0, n1, tail, rfl, ?_⟩
          by_contra hlen
          have hmod16 : (n0.val + 256 * n1.val) % 65536 = n0.val + 256 * n1.val := by omega
          have hmod : (n0.val + 256 * n1.val) % 4294967296 = n0.val + 256 * n1.val := by omega
          rw [reader.read_2_bytes_cons] at h
          simp only [cast_uint32, cast_uint16, hmod16, hmod] at h
          rw [reader.read_data_short _ _ (by omega)] at h
          simp at h
      · right
        by_cases h4 : b = opcode.pushdata4
        · left
          refine ⟨h4, ?_⟩
          subst h4
          rw [from_data_result_of_must_read self _ rest opcode.pushdata4 (by decide)
            (by decide)] at h
          rw [read_opcode_data_size, if_neg (by decide), if_neg (by decide),
            if_neg (by decide), if_pos rfl] at h
          match rest, h with
          | [], h => simp [reader.read_4_bytes_little_endian, reader.read_data] at h
          | [_], h => simp [reader.read_4_bytes_little_endian, reader.read_data] at h
          | [_, _], h => simp [reader.read_4_bytes_little_endian, reader.read_data] at h
          | [_, _, _], h => simp [reader.read_4_bytes_little_endian, reader.read_data] at h
          | n0 :: n1 :: n2 :: n3 :: tail, h =>
            refine ⟨n0, n1, n2, n3, tail, rfl, ?_⟩
            by_contra hlen
            have hmod : (n0.val + 256 * (n1.val + 256 * (n2.val + 256 * n3.val))) % 4294967296
                = n0.val + 256 * (n1.val + 256 * (n2.val + 256 * n3.val)) := by omega
            rw [reader.read_4_bytes_cons] at h
            simp only [cast_uint32, hmod] at h
            rw [reader.read_data_short _ _ (by omega)] at h
            simp at h
        · right
          exact ⟨hb, h1, h2, h4⟩

/-- C2: `from_data` decodes by the first byte `b`. If `1 ≤ b ≤ 75` the result
has code `special` and the next `b` bytes as data; if `b` is `pushdata1`,
`pushdata2` or `pushdata4` the next 1, 2 or 4 bytes are a little-endian length
`n` and the data is the following `n` bytes; for every other `b` the result has
code `b`, no data, and one byte is consumed. In each case `from_data` returns
true when the stream holds the bytes required. -/
theorem from_data_by_first_byte (self : operation) (b : byte) (rest : data_chunk) :
    (1 ≤ b.val ∧ b.val ≤ 75 → b.val ≤ rest.length →
      from_data self ⟨b :: rest, true⟩
        = (true, ⟨opcode.special, rest.take b.val⟩, ⟨rest.drop b.val, true⟩))
    ∧ (b = opcode.pushdata1 → ∀ (n : byte) (tail : data_chunk), rest = n :: tail →
      n.val ≤ tail.length →
      from_data self ⟨b :: rest, true⟩
        = (true, ⟨opcode.pushdata1, tail.take n.val⟩, ⟨tail.drop n.val, true⟩))
    ∧ (b = opcode.pushdata2 → ∀ (n0 n1 : byte) (tail : data_chunk), rest = n0 :: n1 :: tail →
      n0.val + 256 * n1.val ≤ tail.length →
      from_data self ⟨b :: rest, true⟩
        = (true, ⟨opcode.pushdata2, tail.take (n0.val + 256 * n1.val)⟩,
            ⟨tail.drop (n0.val + 256 * n1.val), true⟩))
    ∧ (b = opcode.pushdata4 → ∀ (n0 n1 n2 n3 : byte) (tail : data_chunk),
      rest = n0 :: n1 :: n2 :: n3 :: tail →
      n0.val + 256 * (n1.val + 256 * (n2.val + 256 * n3.val)) ≤ tail.length →
      from_data self ⟨b :: rest, true⟩
        = (true,
            ⟨opcode.pushdata4,
              tail.take (n0.val + 256 * (n1.val + 256 * (n2.val + 256 * n3.val)))⟩,
            ⟨tail.drop (n0.val + 256 * (n1.val + 256 * (n2.val + 256 * n3.val))), true⟩))
    ∧ (¬ (1 ≤ b.val ∧ b.val ≤ 75) → b ≠ opcode.pushdata1 → b ≠ opcode.pushdata2 →
      b ≠ opcode.pushdata4 →
      from_data self ⟨b :: rest, true⟩ = (true, ⟨b, []⟩, ⟨rest, true⟩)) := by
  refine ⟨from_data_special self b rest, ?_, ?_, ?_, from_data_plain self b rest⟩
  · intro hb n tail hrest hlen
    subst hb hrest
    exact from_data_pushdata1 self n tail hlen
  · intro hb n0 n1 tail hrest hlen
    subst hb hrest
    exact from_data_pushdata2 self n0 n1 tail hlen
  · intro hb n0 n1 n2 n3 tail hrest hlen
    subst hb hrest
    exact from_data_pushdata4 self n0 n1 n2 n3 tail hlen

/-- Witness for C2: one stream for each of the five cases. -/
theorem from_data_by_first_byte_witness :
    from_data ⟨opcode.nop, [9]⟩ ⟨[2, 7, 8, 9], true⟩
        = (true, ⟨opcode.special, [7, 8]⟩, ⟨[9], true⟩)
    ∧ from_data ⟨opcode.nop, [9]⟩ ⟨[76, 1, 8, 9], true⟩
        = (true, ⟨opcode.pushdata1, [8]⟩, ⟨[9], true⟩)
    ∧ from_data ⟨opcode.nop, [9]⟩ ⟨[77, 1, 0, 8, 9], true⟩
        = (true, ⟨opcode.pushdata2, [8]⟩, ⟨[9], true⟩)
    ∧ from_data ⟨opcode.nop, [9]⟩ ⟨[78, 2, 0, 0, 0, 8, 9], true⟩
        = (true, ⟨opcode.pushdata4, [8, 9]⟩, ⟨[], true⟩)
    ∧ from_data ⟨opcode.nop, [9]⟩ ⟨[0, 8, 9], true⟩
        = (true, ⟨opcode.zero, []⟩, ⟨[8, 9], true⟩) :=
  ⟨(from_data_by_first_byte ⟨opcode.nop, [9]⟩ 2 [7, 8, 9]).1 (by decide) (by decide),
    (from_data_by_first_byte ⟨opcode.nop, [9]⟩ 76 [1, 8, 9]).2.1 rfl 1 [8, 9] rfl (by decide),
    (from_data_by_first_byte ⟨opcode.nop, [9]⟩ 77 [1, 0, 8, 9]).2.2.1 rfl 1 0 [8, 9] rfl
      (by decide),
    (from_data_by_first_byte ⟨opcode.nop, [9]⟩ 78 [2, 0, 0, 0, 8, 9]).2.2.2.1 rfl 2 0 0 0
      [8, 9] rfl (by decide),
    (from_data_by_first_byte ⟨opcode.nop, [9]⟩ 0 [8, 9]).2.2.2.2 (by decide) (by decide)
      (by decide) (by decide)⟩

/-- C3, as stated, fails: the operation with code `special` and no data (as
`to_null_data_pattern` builds it for an empty payload) is written as the single
byte 0, and `from_data` returns true on it with code `zero`. -/
theorem from_data_to_data_special_empty :
    to_data ⟨opcode.special, []⟩ = [0]
    ∧ from_data ⟨opcode.special, []⟩ (reader.of_data (to_data ⟨opcode.special, []⟩))
        = (true, ⟨opcode.zero, []⟩, ⟨[], true⟩)
    ∧ opcode.zero ≠ opcode.special := by
  decide

/-- C3, amended: for every operation `x` in canonical form (the data fits the
code), `from_data` applied to `x.to_data()` returns true and yields an
operation with the same code and the same data as `x`. -/
theorem from_data_to_data_canonical (self x : operation) (hx : canonical x) :
    (from_data self (reader.of_data (to_data x))).1 = true
    ∧ (from_data self (reader.of_data (to_data x))).2.1.code = x.code
    ∧ (from_data self (reader.of_data (to_data x))).2.1.data = x.data := by
  have h := operation_from_data_to_data_append self x [] hx
  rw [List.append_nil] at h
  simp [reader.of_data, h]

/-- Witness for C3, amended: a three-byte `special` push. -/
theorem from_data_to_data_canonical_witness :
    canonical ⟨opcode.special, [7, 8, 9]⟩
    ∧ (from_data ⟨opcode.nop, []⟩ (reader.of_data (to_data ⟨opcode.special, [7, 8, 9]⟩))).1
        = true
    ∧ (from_data ⟨opcode.nop, []⟩
        (reader.of_data (to_data ⟨opcode.special, [7, 8, 9]⟩))).2.1.code = opcode.special
    ∧ (from_data ⟨opcode.nop, []⟩
        (reader.of_data (to_data ⟨opcode.special, [7, 8, 9]⟩))).2.1.data = [7, 8, 9] :=
  ⟨by decide,
    from_data_to_data_canonical ⟨opcode.nop, []⟩ ⟨opcode.special, [7, 8, 9]⟩ (by decide)⟩

/-- C4, as stated, fails: on the one-byte stream holding the byte value of
`raw_data`, `from_data` returns true, consumes that byte and yields code
`raw_data` without data, whose `to_data()` is empty. -/
theorem to_data_from_data_raw_data_byte :
    from_data ⟨opcode.zero, []⟩ ⟨[opcode.raw_data], true⟩
        = (true, ⟨opcode.raw_data, []⟩, ⟨[], true⟩)
    ∧ to_data ⟨opcode.raw_data, []⟩ = []
    ∧ to_data (from_data ⟨opcode.zero, []⟩ ⟨[opcode.raw_data], true⟩).2.1
        ++ (from_data ⟨opcode.zero, []⟩ ⟨[opcode.raw_data], true⟩).2.2.data
      ≠ [opcode.raw_data] := by
  decide

/-- C4, amended: for every byte stream on which `from_data` returns true and
whose first byte is not the byte value of `raw_data`, `to_data()` of the decoded
operation is byte-for-byte the prefix of the stream that `from_data` consumed:
followed by the bytes left in the reader it is the stream. -/
theorem to_data_from_data_prefix (self : operation) (stream : data_chunk)
    (h : (from_data self ⟨stream, true⟩).1 = true)
    (hraw : stream.head? ≠ some opcode.raw_data) :
    to_data (from_data self ⟨stream, true⟩).2.1 ++ (from_data self ⟨stream, true⟩).2.2.data
      = stream := by
  cases stream with
  | nil =>
    have hf : (from_data self ⟨[], true⟩).1 = false := by
      simp [from_data, reader.read_byte, reader.read_data, from_little_endian, cast_uint8,
        must_read_data, opcode.zero, opcode.special, opcode.pushdata1, opcode.pushdata2,
        opcode.pushdata4]
    rw [hf] at h
    exact absurd h (by decide)
  | cons b rest =>
    have hr : b ≠ opcode.raw_data := by
      intro hb
      apply hraw
      simp [hb]
    rcases from_data_success_cases self b rest h with
      ⟨hlo, hhi, hlen⟩ | ⟨hb, n, tail, hrest, hlen⟩ | ⟨hb, n0, n1, tail, hrest, hlen⟩
        | ⟨hb, n0, n1, n2, n3, tail, hrest, hlen⟩ | ⟨hb, h1, h2, h4⟩
    · rw [from_data_special self b rest ⟨hlo, hhi⟩ hlen, to_data_special]
      have hl : (List.take b.val rest).length = b.val := by
        simp [hlen]
      simp [hl, cast_uint8_val]
    · subst hb hrest
      rw [from_data_pushdata1 self n tail hlen, to_data_pushdata1]
      have hl : (List.take n.val tail).length = n.val := by
        simp [hlen]
      simp [hl, cast_uint8_val]
    · subst hb hrest
      rw [from_data_pushdata2 self n0 n1 tail hlen, to_data_pushdata2]
      have hl : (List.take (n0.val + 256 * n1.val) tail).length = n0.val + 256 * n1.val := by
        simp [hlen]
      have hm : (n0.val + 256 * n1.val) % 65536 = n0.val + 256 * n1.val := by omega
      simp [hl, hm, to_little_endian_two]
    · subst hb hrest
      rw [from_data_pushdata4 self n0 n1 n2 n3 tail hlen, to_data_pushdata4]
      have hl : (List.take (n0.val + 256 * (n1.val + 256 * (n2.val + 256 * n3.val)))
          tail).length = n0.val + 256 * (n1.val + 256 * (n2.val + 256 * n3.val)) := by
        simp [hlen]
      have hm : (n0.val + 256 * (n1.val + 256 * (n2.val + 256 * n3.val))) % 4294967296
          = n0.val + 256 * (n1.val + 256 * (n2.val + 256 * n3.val)) := by omega
      simp [hl, hm, to_little_endian_four]
    · have hs : b ≠ opcode.special := by
        intro hb'
        rw [hb'] at hb
        exact hb (by decide)
      rw [from_data_plain self b rest hb h1 h2 h4, to_data_plain b [] hs h1 h2 h4 hr]
      simp

/-- Witness for C4, amended: a `pushdata1` push followed by two more bytes. -/
theorem to_data_from_data_prefix_witness :
    (from_data ⟨opcode.nop, []⟩ ⟨[76, 2, 7, 8, 9, 10], true⟩).1 = true
    ∧ ([76, 2, 7, 8, 9, 10] : data_chunk).head? ≠ some opcode.raw_data
    ∧ to_data (from_data ⟨opcode.nop, []⟩ ⟨[76, 2, 7, 8, 9, 10], true⟩).2.1
        ++ (from_data ⟨opcode.nop, []⟩ ⟨[76, 2, 7, 8, 9, 10], true⟩).2.2.data
      = [76, 2, 7, 8, 9, 10] :=
  ⟨by decide, by decide,
    to_data_from_data_prefix ⟨opcode.nop, []⟩ [76, 2, 7, 8, 9, 10] (by decide) (by decide)⟩

theorem from_data_invalid_stream (self : operation) (d : data_chunk) :
    from_data self ⟨d, false⟩ = (false, ⟨opcode.zero, []⟩, ⟨d, false⟩) := by
  simp [from_data, reader.read_byte, reader.read_data, from_little_endian, cast_uint8,
    must_read_data, opcode.zero, opcode.special, opcode.pushdata1, opcode.pushdata2,
    opcode.pushdata4, reset]

theorem from_data_nil_stream (self : operation) :
    from_data self ⟨[], true⟩ = (false, ⟨opcode.zero, []⟩, ⟨[], false⟩) := by
  simp [from_data, reader.read_byte, reader.read_data, from_little_endian, cast_uint8,
    must_read_data, opcode.zero, opcode.special, opcode.pushdata1, opcode.pushdata2,
    opcode.pushdata4, reset]

theorem from_data_empty_stream (self : operation) :
    (from_data self ⟨[], true⟩).1 = false := by
  rw [from_data_nil_stream]

/-- Every failure of `from_data` leaves the operation reset. -/
theorem from_data_reset_of_false (self : operation) (source : reader)
    (h : (from_data self source).1 = false) :
    (from_data self source).2.1 = ⟨opcode.zero, []⟩ := by
  obtain ⟨d, valid⟩ := source
  cases valid with
  | false => rw [from_data_invalid_stream]
  | true =>
    cases d with
    | nil => rw [from_data_nil_stream]
    | cons b rest =>
      rw [from_data_cons] at h ⊢
      simp only at h ⊢
      generalize (if 0 < b.val ∧ b.val ≤ 75 then opcode.special else b) = code at h ⊢
      by_cases hm : must_read_data code = true
      · rw [if_pos hm] at h ⊢
        generalize read_opcode_data_size 0 code b ⟨rest, true⟩ = sz at h ⊢
        generalize sz.2.2.read_data sz.2.1.val = d at h ⊢
        generalize (d.2.valid && (d.1.length == sz.2.1.val)) = result at h ⊢
        cases result
        · rfl
        · simp at h
      · rw [if_neg hm] at h
        simp at h

/-- C11: if the stream is empty, or holds fewer bytes than the length prefix
plus the declared payload require, `from_data` returns false and leaves the
operation with code `zero` and empty data. The cases are: the empty stream; a
first byte `b` in 1..75 with fewer than `b` bytes after it; `pushdata1`,
`pushdata2` or `pushdata4` with fewer than 1, 2 or 4 bytes of length prefix, or
with fewer bytes after the prefix than the little-endian length it declares. -/
theorem from_data_truncated (self : operation) (b : byte) (rest : data_chunk) :
    ((from_data self ⟨[], true⟩).1 = false
      ∧ (from_data self ⟨[], true⟩).2.1 = ⟨opcode.zero, []⟩)
    ∧ (1 ≤ b.val ∧ b.val ≤ 75 → rest.length < b.val →
      (from_data self ⟨b :: rest, true⟩).1 = false
        ∧ (from_data self ⟨b :: rest, true⟩).2.1 = ⟨opcode.zero, []⟩)
    ∧ (b = opcode.pushdata1 →
      (rest.length < 1
        ∨ ∃ (n : byte) (tail : data_chunk), rest = n :: tail ∧ tail.length < n.val) →
      (from_data self ⟨b :: rest, true⟩).1 = false
        ∧ (from_data self ⟨b :: rest, true⟩).2.1 = ⟨opcode.zero, []⟩)
    ∧ (b = opcode.pushdata2 →
      (rest.length < 2
        ∨ ∃ (n0 n1 : byte) (tail : data_chunk),
          rest = n0 :: n1 :: tail ∧ tail.length < n0.val + 256 * n1.val) →
      (from_data self ⟨b :: rest, true⟩).1 = false
        ∧ (from_data self ⟨b :: rest, true⟩).2.1 = ⟨opcode.zero, []⟩)
    ∧ (b = opcode.pushdata4 →
      (rest.length < 4
        ∨ ∃ (n0 n1 n2 n3 : byte) (tail : data_chunk),
          rest = n0 :: n1 :: n2 :: n3 :: tail
            ∧ tail.length < n0.val + 256 * (n1.val + 256 * (n2.val + 256 * n3.val))) →
      (from_data self ⟨b :: rest, true⟩).1 = false
        ∧ (from_data self ⟨b :: rest, true⟩).2.1 = ⟨opcode.zero, []⟩) := by
  have key : ∀ (stream : data_chunk), (from_data self ⟨stream, true⟩).1 ≠ true →
      (from_data self ⟨stream, true⟩).1 = false
        ∧ (from_data self ⟨stream, true⟩).2.1 = ⟨opcode.zero, []⟩ := by
    intro stream hne
    have hf : (from_data self ⟨stream, true⟩).1 = false := by
      cases hres : (from_data self ⟨stream, true⟩).1
      · rfl
      · exact absurd hres hne
    exact ⟨hf, from_data_reset_of_false self _ hf⟩
  have v1 : opcode.pushdata1.val = 76 := rfl
  have v2 : opcode.pushdata2.val = 77 := rfl
  have v4 : opcode.pushdata4.val = 78 := rfl
  refine ⟨key [] ?_, ?_, ?_, ?_, ?_⟩
  · rw [from_data_empty_stream]
    decide
  · intro hb hlen
    apply key
    intro hres
    rcases from_data_success_cases self b rest hres with
      ⟨_, _, h⟩ | ⟨h, _⟩ | ⟨h, _⟩ | ⟨h, _⟩ | ⟨h, _⟩
    · omega
    · rw [h, v1] at hb
      omega
    · rw [h, v2] at hb
      omega
    · rw [h, v4] at hb
      omega
    · exact h hb
  · intro hb hshort
    apply key
    intro hres
    rcases from_data_success_cases self b rest hres with
      ⟨_, h, _⟩ | ⟨_, n, tail, hr, hl⟩ | ⟨h, _⟩ | ⟨h, _⟩ | ⟨_, h, _⟩
    · rw [hb, v1] at h
      omega
    · rcases hshort with hs | ⟨n', tail', hr', hl'⟩
      · rw [hr] at hs
        simp only [List.length_cons] at hs
        omega
      · rw [hr] at hr'
        injection hr' with e1 e2
        subst e1 e2
        omega
    · rw [hb] at h
      exact absurd h (by decide)
    · rw [hb] at h
      exact absurd h (by decide)
    · exact h hb
  · intro hb hshort
    apply key
    intro hres
    rcases from_data_success_cases self b rest hres with
      ⟨_, h, _⟩ | ⟨h, _⟩ | ⟨_, n0, n1, tail, hr, hl⟩ | ⟨h, _⟩ | ⟨_, _, h, _⟩
    · rw [hb, v2] at h
      omega
    · rw [hb] at h
      exact absurd h (by decide)
    · rcases hshort with hs | ⟨m0, m1, tail', hr', hl'⟩
      · rw [hr] at hs
        simp only [List.length_cons] at hs
        omega
      · rw [hr] at hr'
        injection hr' with e1 e2
        injection e2 with e2 e3
        subst e1 e2 e3
        omega
    · rw [hb] at h
      exact absurd h (by decide)
    · exact h hb
  · intro hb hshort
    apply key
    intro hres
    rcases from_data_success_cases self b rest hres with
      ⟨_, h, _⟩ | ⟨h, _⟩ | ⟨h, _⟩ | ⟨_, n0, n1, n2, n3, tail, hr, hl⟩ | ⟨_, _, _, h⟩
    · rw [hb, v4] at h
      omega
    · rw [hb] at h
      exact absurd h (by decide)
    · rw [hb] at h
      exact absurd h (by decide)
    · rcases hshort with hs | ⟨m0, m1, m2, m3, tail', hr', hl'⟩
      · rw [hr] at hs
        simp only [List.length_cons] at hs
        omega
      · rw [hr] at hr'
        injection hr' with e1 e2
        injection e2 with e2 e3
        injection e3 with e3 e4
        injection e4 with e4 e5
        subst e1 e2 e3 e4 e5
        omega
    · exact h hb

/-- Witness for C11: a truncated stream for each case. -/
theorem from_data_truncated_witness :
    ((from_data ⟨opcode.nop, [9]⟩ ⟨[3, 7, 8], true⟩).1 = false
      ∧ (from_data ⟨opcode.nop, [9]⟩ ⟨[3, 7, 8], true⟩).2.1 = ⟨opcode.zero, []⟩)
    ∧ ((from_data ⟨opcode.nop, [9]⟩ ⟨[76, 2, 8], true⟩).1 = false
      ∧ (from_data ⟨opcode.nop, [9]⟩ ⟨[76, 2, 8], true⟩).2.1 = ⟨opcode.zero, []⟩)
    ∧ ((from_data ⟨opcode.nop, [9]⟩ ⟨[77, 1], true⟩).1 = false
      ∧ (from_data ⟨opcode.nop, [9]⟩ ⟨[77, 1], true⟩).2.1 = ⟨opcode.zero, []⟩)
    ∧ ((from_data ⟨opcode.nop, [9]⟩ ⟨[78, 1, 0, 0, 0], true⟩).1 = false
      ∧ (from_data ⟨opcode.nop, [9]⟩ ⟨[78, 1, 0, 0, 0], true⟩).2.1 = ⟨opcode.zero, []⟩) :=
  ⟨(from_data_truncated ⟨opcode.nop, [9]⟩ 3 [7, 8]).2.1 (by decide) (by decide),
    (from_data_truncated ⟨opcode.nop, [9]⟩ 76 [2, 8]).2.2.1 rfl
      (Or.inr ⟨2, [8], rfl, by decide⟩),
    (from_data_truncated ⟨opcode.nop, [9]⟩ 77 [1]).2.2.2.1 rfl (Or.inl (by decide)),
    (from_data_truncated ⟨opcode.nop, [9]⟩ 78 [1, 0, 0, 0]).2.2.2.2 rfl
      (Or.inr ⟨1, 0, 0, 0, [], rfl, by decide⟩)⟩

/-- C13: for every operation, `to_data()` has exactly `serialized_size()` bytes,
where `serialized_size()` is (0 if the code is `raw_data`, else 1) + (1, 2 or 4
for `pushdata1`, `pushdata2`, `pushdata4`; 0 otherwise) + the data length. In
particular a `special` push of 10 bytes gives 11, a `pushdata1` push of 200
bytes gives 202 and a `pushdata2` push of 70000 bytes gives 70003. -/
theorem operation_to_data_length (x : operation) :
    (to_data x).length = serialized_size x
    ∧ serialized_size x
        = (if x.code = opcode.raw_data then 0 else 1)
          + (if x.code = opcode.pushdata1 then 1
             else if x.code = opcode.pushdata2 then 2
             else if x.code = opcode.pushdata4 then 4
             else 0)
          + x.data.length
    ∧ (∀ (d : data_chunk), d.length = 10 →
        (to_data ⟨opcode.special, d⟩).length = 11
          ∧ serialized_size ⟨opcode.special, d⟩ = 11)
    ∧ (∀ (d : data_chunk), d.length = 200 →
        (to_data ⟨opcode.pushdata1, d⟩).length = 202
          ∧ serialized_size ⟨opcode.pushdata1, d⟩ = 202)
    ∧ (∀ (d : data_chunk), d.length = 70000 →
        (to_data ⟨opcode.pushdata2, d⟩).length = 70003
          ∧ serialized_size ⟨opcode.pushdata2, d⟩ = 70003) := by
  have hsize : ∀ (y : operation), serialized_size y
      = (if y.code = opcode.raw_data then 0 else 1)
        + (if y.code = opcode.pushdata1 then 1
           else if y.code = opcode.pushdata2 then 2
           else if y.code = opcode.pushdata4 then 4
           else 0)
        + y.data.length := by
    intro y
    obtain ⟨code, data⟩ := y
    simp only [serialized_size]
    by_cases h1 : code = opcode.pushdata1
    · subst h1
      have hr : opcode.pushdata1 ≠ opcode.raw_data := by decide
      simp only [if_true, if_neg hr]
      omega
    · by_cases h2 : code = opcode.pushdata2
      · subst h2
        have hr : opcode.pushdata2 ≠ opcode.raw_data := by decide
        simp only [if_neg h1, if_true, if_neg hr]
        omega
      · by_cases h4 : code = opcode.pushdata4
        · subst h4
          have hr : opcode.pushdata4 ≠ opcode.raw_data := by decide
          simp only [if_neg h1, if_neg h2, if_true, if_neg hr]
          omega
        · by_cases hr : code = opcode.raw_data
          · simp only [if_neg h1, if_neg h2, if_neg h4, if_pos hr]
            omega
          · simp only [if_neg h1, if_neg h2, if_neg h4, if_neg hr]
  have hlen : ∀ (y : operation), (to_data y).length = serialized_size y := by
    intro y
    rw [hsize y]
    obtain ⟨code, data⟩ := y
    by_cases h1 : code = opcode.pushdata1
    · subst h1
      rw [to_data_pushdata1]
      have hr : opcode.pushdata1 ≠ opcode.raw_data := by decide
      simp only [List.length_cons, if_neg hr, if_true]
      omega
    · by_cases h2 : code = opcode.pushdata2
      · subst h2
        rw [to_data_pushdata2]
        have hr : opcode.pushdata2 ≠ opcode.raw_data := by decide
        simp only [List.length_cons, List.length_append, to_little_endian_length, if_neg hr,
          if_neg h1, if_true]
        omega
      · by_cases h4 : code = opcode.pushdata4
        · subst h4
          rw [to_data_pushdata4]
          have hr : opcode.pushdata4 ≠ opcode.raw_data := by decide
          simp only [List.length_cons, List.length_append, to_little_endian_length, if_neg hr,
            if_neg h1, if_neg h2, if_true]
          omega
        · by_cases hr : code = opcode.raw_data
          · subst hr
            simp [to_data, if_neg h1, if_neg h2, if_neg h4]
          · by_cases hs : code = opcode.special
            · subst hs
              rw [to_data_special]
              simp only [List.length_cons, if_neg hr, if_neg h1, if_neg h2, if_neg h4]
              omega
            · rw [to_data_plain code data hs h1 h2 h4 hr]
              simp only [List.length_cons, if_neg hr, if_neg h1, if_neg h2, if_neg h4]
              omega
  refine ⟨hlen x, hsize x, ?_, ?_, ?_⟩
  · intro d hd
    have h := hsize ⟨opcode.special, d⟩
    have hr : opcode.special ≠ opcode.raw_data := by decide
    have h1 : opcode.special ≠ opcode.pushdata1 := by decide
    have h2 : opcode.special ≠ opcode.pushdata2 := by decide
    have h4 : opcode.special ≠ opcode.pushdata4 := by decide
    simp only [if_neg hr, if_neg h1, if_neg h2, if_neg h4, hd] at h
    rw [hlen, h]
    exact ⟨rfl, rfl⟩
  · intro d hd
    have h := hsize ⟨opcode.pushdata1, d⟩
    have hr : opcode.pushdata1 ≠ opcode.raw_data := by decide
    simp only [if_neg hr, if_true, hd] at h
    rw [hlen, h]
    exact ⟨rfl, rfl⟩
  · intro d hd
    have h := hsize ⟨opcode.pushdata2, d⟩
    have hr : opcode.pushdata2 ≠ opcode.raw_data := by decide
    have h1 : opcode.pushdata2 ≠ opcode.pushdata1 := by decide
    simp only [if_neg hr, if_neg h1, if_true, hd] at h
    rw [hlen, h]
    exact ⟨rfl, rfl⟩

/-- Witness for C13: the three pushes named by the claim. -/
theorem operation_to_data_length_witness :
    ((to_data ⟨opcode.special, List.replicate 10 0⟩).length = 11
      ∧ serialized_size ⟨opcode.special, List.replicate 10 0⟩ = 11)
    ∧ ((to_data ⟨opcode.pushdata1, List.replicate 200 0⟩).length = 202
      ∧ serialized_size ⟨opcode.pushdata1, List.replicate 200 0⟩ = 202)
    ∧ ((to_data ⟨opcode.pushdata2, List.replicate 70000 0⟩).length = 70003
      ∧ serialized_size ⟨opcode.pushdata2, List.replicate 70000 0⟩ = 70003) :=
  ⟨(operation_to_data_length ⟨opcode.zero, []⟩).2.2.1 (List.replicate 10 0)
      (List.length_replicate 10 0),
    (operation_to_data_length ⟨opcode.zero, []⟩).2.2.2.1 (List.replicate 200 0)
      (List.length_replicate 200 0),
    (operation_to_data_length ⟨opcode.zero, []⟩).2.2.2.2 (List.replicate 70000 0)
      (List.length_replicate 70000 0)⟩

/-! ### Script patterns -/

/-- C20: `to_null_data_pattern(d)` returns the empty sequence iff `d` is longer
than 80 bytes; for every `d` of at most 80 bytes it returns
`[return_, special(d)]`, and `is_null_data_pattern` accepts that result. -/
theorem to_null_data_pattern_result (d : data_chunk) :
    (to_null_data_pattern d = [] ↔ 80 < d.length)
    ∧ (d.length ≤ 80 →
        to_null_data_pattern d = [⟨opcode.return_, []⟩, ⟨opcode.special, d⟩]
          ∧ is_null_data_pattern (to_null_data_pattern d) = true) := by
  constructor
  · unfold to_null_data_pattern max_null_data_size
    by_cases h : d.length > 80
    · rw [if_pos h]
      exact ⟨fun _ => h, fun _ => rfl⟩
    · rw [if_neg h]
      constructor
      · intro hnil
        exact absurd hnil (by simp)
      · intro hlt
        exact absurd hlt h
  · intro hle
    have h : ¬ d.length > max_null_data_size := by
      unfold max_null_data_size
      omega
    have hle2 : d.length ≤ max_null_data_size := by
      unfold max_null_data_size
      exact hle
    unfold to_null_data_pattern
    rw [if_neg h]
    refine ⟨rfl, ?_⟩
    simp [is_null_data_pattern, nth, hle2]

/-- Witness for C20: a three-byte payload. -/
theorem to_null_data_pattern_result_witness :
    to_null_data_pattern [1, 2, 3] = [⟨opcode.return_, []⟩, ⟨opcode.special, [1, 2, 3]⟩]
    ∧ is_null_data_pattern (to_null_data_pattern [1, 2, 3]) = true :=
  (to_null_data_pattern_result [1, 2, 3]).2 (by decide)

theorem list_of_length_five {α : Type} (l : List α) (h : l.length = 5) :
    ∃ (a b c d e : α), l = [a, b, c, d, e] := by
  cases l with
  | nil => simp at h
  | cons a l =>
    cases l with
    | nil => simp at h
    | cons b l =>
      cases l with
      | nil => simp at h
      | cons c l =>
        cases l with
        | nil => simp at h
        | cons d l =>
          cases l with
          | nil => simp at h
          | cons e l =>
            cases l with
            | nil => exact ⟨a, b, c, d, e, rfl⟩
            | cons _ _ =>
              simp only [List.length_cons] at h
              omega

/-- C19: every operation sequence accepted by `is_pay_key_hash_pattern` has the
codes `[dup, hash160, special, equalverify, checksig]` with 20 bytes of data in
the third operation, and is rejected by every other pattern predicate:
`is_push_only`, `is_null_data_pattern`, `is_pay_multisig_pattern`,
`is_pay_public_key_pattern`, `is_pay_script_hash_pattern`,
`is_sign_multisig_pattern`, `is_sign_public_key_pattern`,
`is_sign_key_hash_pattern` and `is_sign_script_hash_pattern`. -/
theorem pay_key_hash_excludes_others (is_public_key : data_chunk → Bool)
    (parse_strict : data_chunk → Option script_pattern) (ops : List operation)
    (h : is_pay_key_hash_pattern ops = true) :
    ops.map (fun op => op.code)
        = [opcode.dup, opcode.hash160, opcode.special, opcode.equalverify, opcode.checksig]
    ∧ (nth ops 2).data.length = 20
    ∧ is_push_only ops = false
    ∧ is_null_data_pattern ops = false
    ∧ is_pay_multisig_pattern is_public_key ops = false
    ∧ is_pay_public_key_pattern is_public_key ops = false
    ∧ is_pay_script_hash_pattern ops = false
    ∧ is_sign_multisig_pattern ops = false
    ∧ is_sign_public_key_pattern ops = false
    ∧ is_sign_key_hash_pattern is_public_key ops = false
    ∧ is_sign_script_hash_pattern parse_strict ops = false := by
  have hlen : ops.length = 5 := by
    simp only [is_pay_key_hash_pattern, Bool.and_eq_true, beq_iff_eq] at h
    exact h.1.1.1.1.1.1
  obtain ⟨a, b, c, d, e, rfl⟩ := list_of_length_five ops hlen
  simp only [is_pay_key_hash_pattern, Bool.and_eq_true, beq_iff_eq, nth, List.getD_cons_zero,
    List.getD_cons_succ, short_hash_size] at h
  obtain ⟨⟨⟨⟨⟨⟨_, ha⟩, hb⟩, hc⟩, hcl⟩, hd⟩, he⟩ := h
  have pa : is_push a.code = false := by
    rw [ha]
    decide
  have hpush : is_push_only [a, b, c, d, e] = false := by
    simp [is_push_only, count_non_push, List.countP_cons, pa]
  have hlast : e.code ≠ opcode.checkmultisig := by
    rw [he]
    decide
  refine ⟨?_, ?_, hpush, ?_, ?_, ?_, ?_, ?_, ?_, ?_, ?_⟩
  · simp [ha, hb, hc, hd, he]
  · simpa [nth] using hcl
  · simp [is_null_data_pattern]
  · simp [is_pay_multisig_pattern, nth, hlast]
  · simp [is_pay_public_key_pattern]
  · simp [is_pay_script_hash_pattern]
  · simp [is_sign_multisig_pattern, hpush]
  · simp [is_sign_public_key_pattern]
  · simp [is_sign_key_hash_pattern]
  · simp [is_sign_script_hash_pattern, hpush]

/-- Witness for C19: the pay-key-hash script over a 20-byte hash. -/
theorem pay_key_hash_excludes_others_witness :
    is_pay_key_hash_pattern
        [⟨opcode.dup, []⟩, ⟨opcode.hash160, []⟩, ⟨opcode.special, List.replicate 20 7⟩,
          ⟨opcode.equalverify, []⟩, ⟨opcode.checksig, []⟩] = true
    ∧ is_push_only
        [⟨opcode.dup, []⟩, ⟨opcode.hash160, []⟩, ⟨opcode.special, List.replicate 20 7⟩,
          ⟨opcode.equalverify, []⟩, ⟨opcode.checksig, []⟩] = false
    ∧ is_pay_multisig_pattern (fun _ => true)
        [⟨opcode.dup, []⟩, ⟨opcode.hash160, []⟩, ⟨opcode.special, List.replicate 20 7⟩,
          ⟨opcode.equalverify, []⟩, ⟨opcode.checksig, []⟩] = false
    ∧ is_sign_script_hash_pattern (fun _ => some script_pattern.pay_key_hash)
        [⟨opcode.dup, []⟩, ⟨opcode.hash160, []⟩, ⟨opcode.special, List.replicate 20 7⟩,
          ⟨opcode.equalverify, []⟩, ⟨opcode.checksig, []⟩] = false :=
  ⟨by decide,
    (pay_key_hash_excludes_others (fun _ => true) (fun _ => some script_pattern.pay_key_hash)
      [⟨opcode.dup, []⟩, ⟨opcode.hash160, []⟩, ⟨opcode.special, List.replicate 20 7⟩,
        ⟨opcode.equalverify, []⟩, ⟨opcode.checksig, []⟩] (by decide)).2.2.1,
    (pay_key_hash_excludes_others (fun _ => true) (fun _ => some script_pattern.pay_key_hash)
      [⟨opcode.dup, []⟩, ⟨opcode.hash160, []⟩, ⟨opcode.special, List.replicate 20 7⟩,
        ⟨opcode.equalverify, []⟩, ⟨opcode.checksig, []⟩] (by decide)).2.2.2.2.1,
    (pay_key_hash_excludes_others (fun _ => true) (fun _ => some script_pattern.pay_key_hash)
      [⟨opcode.dup, []⟩, ⟨opcode.hash160, []⟩, ⟨opcode.special, List.replicate 20 7⟩,
        ⟨opcode.equalverify, []⟩, ⟨opcode.checksig, []⟩]
      (by decide)).2.2.2.2.2.2.2.2.2.2⟩

/-- A sequence accepted by `is_pay_multisig_pattern` has passed the test
`n != points`: `ops.size() - 3` is the code before last minus `op_1`. -/
theorem is_pay_multisig_pattern_count (is_public_key : data_chunk → Bool)
    (ops : List operation) (h : is_pay_multisig_pattern is_public_key ops = true) :
    ops.length - 3 = (nth ops (ops.length - 2)).code.val - opcode.op_1.val := by
  simp only [is_pay_multisig_pattern, Bool.or_eq_true, decide_eq_true_eq, bne_iff_ne, ne_eq]
    at h
  split_ifs at h with c1 c2 c3
  exact c3.symm

/-- Length of the script `first, key pushes, op_n, last` and its operation
before last. -/
theorem nth_standard_multisig (first op_n last : operation) (keys : List data_chunk) :
    (first :: (keys.map (fun k => (⟨opcode.special, k⟩ : operation)) ++ [op_n, last])).length
        = keys.length + 3
    ∧ nth (first :: (keys.map (fun k => (⟨opcode.special, k⟩ : operation)) ++ [op_n, last]))
        (keys.length + 1) = op_n := by
  constructor
  · simp
  · simp only [nth, List.getD_eq_getElem?_getD, List.getElem?_cons_succ]
    rw [List.getElem?_append_right (by simp)]
    simp

theorem push_points_of_public_keys (is_public_key : data_chunk → Bool) :
    ∀ (points : List data_chunk) (ops : List operation),
      (∀ p ∈ points, is_public_key p = true) →
      push_points is_public_key points ops
        = some (ops ++ points.map (fun p => (⟨opcode.special, p⟩ : operation))) := by
  intro points
  induction points with
  | nil =>
    intro ops _
    simp [push_points]
  | cons p rest ih =>
    intro ops hkeys
    have hp := hkeys p (List.mem_cons_self p rest)
    have hrest := ih (ops ++ [⟨opcode.special, p⟩])
      (fun q hq => hkeys q (List.mem_cons_of_mem p hq))
    simp [push_points, hp, hrest]

/-- C16 fails on the code: for every threshold `m` and key list of length `n`
with `1 ≤ m ≤ n ≤ 16` in which every key satisfies `is_public_key`,
`to_pay_multisig_pattern(m, keys)` is the canonical sequence
`[op_m, special(key_1), ..., special(key_n), op_n, checkmultisig]` preceded by
the `n + 3` value-initialised operations (code 0, no data) of the vector that
`stack ops(points.size() + 3)` builds: it has `2 (n + 3)` elements, not `n + 3`. -/
theorem to_pay_multisig_pattern_leading_defaults (is_public_key : data_chunk → Bool)
    (m : byte) (points : List data_chunk) (hm : 1 ≤ m.val) (hmn : m.val ≤ points.length)
    (hn : points.length ≤ 16) (hkeys : ∀ p ∈ points, is_public_key p = true) :
    to_pay_multisig_pattern is_public_key m points
      = List.replicate (points.length + 3) ⟨opcode.zero, []⟩
        ++ (⟨cast_uint8 (opcode.op_1.val + (m.val - 1)), []⟩
          :: (points.map (fun p => (⟨opcode.special, p⟩ : operation))
            ++ [⟨cast_uint8 (opcode.op_1.val + (points.length - 1)), []⟩,
              ⟨opcode.checkmultisig, []⟩]))
    ∧ (to_pay_multisig_pattern is_public_key m points).length = 2 * (points.length + 3)
    ∧ (to_pay_multisig_pattern is_public_key m points).length ≠ points.length + 3 := by
  have h1 : opcode.op_1.val = 81 := rfl
  have h16 : opcode.op_16.val = 96 := rfl
  have hguard : ¬ ((decide (m.val < 1) || decide (m.val > points.length)
      || decide (points.length < 1) || decide (points.length > 96 - (81 - 1))) = true) := by
    simp only [Bool.or_eq_true, decide_eq_true_eq]
    omega
  have hm2 : m.val + (81 - 1) = 81 + (m.val - 1) := by omega
  have hn2 : points.length + (81 - 1) = 81 + (points.length - 1) := by omega
  have heq : to_pay_multisig_pattern is_public_key m points
      = List.replicate (points.length + 3) ⟨opcode.zero, []⟩
        ++ (⟨cast_uint8 (opcode.op_1.val + (m.val - 1)), []⟩
          :: (points.map (fun p => (⟨opcode.special, p⟩ : operation))
            ++ [⟨cast_uint8 (opcode.op_1.val + (points.length - 1)), []⟩,
              ⟨opcode.checkmultisig, []⟩])) := by
    simp only [to_pay_multisig_pattern, h1, h16, if_neg hguard,
      push_points_of_public_keys is_public_key points _ hkeys, hm2, hn2]
    simp [opcode.zero]
  refine ⟨heq, ?_, ?_⟩
  · rw [heq]
    simp only [List.length_append, List.length_replicate, List.length_cons, List.length_map,
      List.length_nil]
    omega
  · rw [heq]
    simp only [List.length_append, List.length_replicate, List.length_cons, List.length_map,
      List.length_nil]
    omega

/-- Witness for the evaluation of C16 at the failing input: threshold 1 and one
key, with a validator that accepts it; the result has eight operations. -/
theorem to_pay_multisig_pattern_leading_defaults_witness :
    to_pay_multisig_pattern (fun _ => true) 1 [[2, 7]]
      = [⟨opcode.zero, []⟩, ⟨opcode.zero, []⟩, ⟨opcode.zero, []⟩, ⟨opcode.zero, []⟩,
          ⟨opcode.op_1, []⟩, ⟨opcode.special, [2, 7]⟩, ⟨opcode.op_1, []⟩,
          ⟨opcode.checkmultisig, []⟩]
    ∧ (to_pay_multisig_pattern (fun _ => true) 1 [[2, 7]]).length = 8 :=
  ⟨(to_pay_multisig_pattern_leading_defaults (fun _ => true) 1 [[2, 7]] (by decide)
      (by decide) (by decide) (fun _ _ => rfl)).1,
    (to_pay_multisig_pattern_leading_defaults (fun _ => true) 1 [[2, 7]] (by decide)
      (by decide) (by decide) (fun _ _ => rfl)).2.1⟩

/-- C17 fails on the code: for every first operation and every `n` key pushes
with `1 ≤ n ≤ 16`, whatever the validator, the standard script
`<m> <pubkey_1> ... <pubkey_n> <n> OP_CHECKMULTISIG`, whose operation before
last has the code `op_1 + (n - 1)` that encodes `n`, is rejected by
`is_pay_multisig_pattern`: the test compares the `n` pushes with
`op_n - op_1 = n - 1`. -/
theorem standard_multisig_rejected (is_public_key : data_chunk → Bool) (m : byte)
    (keys : List data_chunk) (h1n : 1 ≤ keys.length) (hn : keys.length ≤ 16) :
    is_pay_multisig_pattern is_public_key
      (⟨cast_uint8 (opcode.op_1.val + (m.val - 1)), []⟩
        :: (keys.map (fun k => (⟨opcode.special, k⟩ : operation))
          ++ [⟨cast_uint8 (opcode.op_1.val + (keys.length - 1)), []⟩,
            ⟨opcode.checkmultisig, []⟩])) = false := by
  cases hres : is_pay_multisig_pattern is_public_key
      (⟨cast_uint8 (opcode.op_1.val + (m.val - 1)), []⟩
        :: (keys.map (fun k => (⟨opcode.special, k⟩ : operation))
          ++ [⟨cast_uint8 (opcode.op_1.val + (keys.length - 1)), []⟩,
            ⟨opcode.checkmultisig, []⟩]))
  · rfl
  · exfalso
    have hcount := is_pay_multisig_pattern_count is_public_key _ hres
    obtain ⟨hlen, hnth⟩ := nth_standard_multisig
      ⟨cast_uint8 (opcode.op_1.val + (m.val - 1)), []⟩
      ⟨cast_uint8 (opcode.op_1.val + (keys.length - 1)), []⟩ ⟨opcode.checkmultisig, []⟩ keys
    rw [hlen] at hcount
    have h2 : keys.length + 3 - 2 = keys.length + 1 := by omega
    rw [h2, hnth] at hcount
    have h1 : opcode.op_1.val = 81 := rfl
    simp only [cast_uint8, h1] at hcount
    omega

/-- Witness for the evaluation of C17 at the failing input: the 1-of-1 script
`[op_1, special(key), op_1, checkmultisig]`, with a validator that accepts the key. -/
theorem standard_multisig_rejected_witness :
    is_pay_multisig_pattern (fun _ => true)
      [⟨opcode.op_1, []⟩, ⟨opcode.special, [2, 7]⟩, ⟨opcode.op_1, []⟩,
        ⟨opcode.checkmultisig, []⟩] = false :=
  standard_multisig_rejected (fun _ => true) 1 [[2, 7]] (by decide) (by decide)

/-- C18: `is_pay_multisig_pattern(ops)` is true iff `ops` has at least 4
elements, the last code is `checkmultisig`, the first code `op_m` and the code
before last `op_n` satisfy `op_1 ≤ op_m ≤ op_n ≤ op_16`, the number of elements
strictly between them, `ops.size() - 3`, equals `op_n - op_1`, and the data of
each of those elements satisfies `is_public_key`. -/
theorem is_pay_multisig_pattern_iff (is_public_key : data_chunk → Bool)
    (ops : List operation) :
    is_pay_multisig_pattern is_public_key ops = true ↔
      (4 ≤ ops.length
        ∧ (nth ops (ops.length - 1)).code = opcode.checkmultisig
        ∧ opcode.op_1.val ≤ (nth ops 0).code.val
        ∧ (nth ops 0).code.val ≤ (nth ops (ops.length - 2)).code.val
        ∧ (nth ops (ops.length - 2)).code.val ≤ opcode.op_16.val
        ∧ ops.length - 3 = (nth ops (ops.length - 2)).code.val - opcode.op_1.val
        ∧ ∀ (i : Nat), 1 ≤ i → i ≤ ops.length - 3 →
            is_public_key (nth ops i).data = true) := by
  simp only [is_pay_multisig_pattern, Bool.or_eq_true, decide_eq_true_eq, bne_iff_ne, ne_eq,
    List.all_eq_true, List.mem_range]
  split_ifs with c1 c2 c3
  · constructor
    · intro h
      exact absurd h (by decide)
    · rintro ⟨h4, hlast, _⟩
      rcases c1 with c | c
      · omega
      · exact absurd hlast c
  · constructor
    · intro h
      exact absurd h (by decide)
    · rintro ⟨_, _, h1, h2, h3, _⟩
      omega
  · have hlen : 4 ≤ ops.length := by
      by_contra hc
      exact c1 (Or.inl (by omega))
    have hlast : (nth ops (ops.length - 1)).code = opcode.checkmultisig := by
      by_contra hc
      exact c1 (Or.inr hc)
    rw [List.all_eq_true]
    constructor
    · intro hall
      refine ⟨hlen, hlast, by omega, by omega, by omega, c3.symm, ?_⟩
      intro i h1 h2
      have := hall (i - 1) (List.mem_range.mpr (by omega))
      rwa [Nat.sub_add_cancel h1] at this
    · rintro ⟨_, _, _, _, _, _, hall⟩
      intro x hx
      rw [List.mem_range] at hx
      exact hall (x + 1) (by omega) (by omega)
  · constructor
    · intro h
      exact absurd h (by decide)
    · rintro ⟨_, _, _, _, _, h, _⟩
      exact c3 h.symm

theorem push_points_eq_none_iff (is_public_key : data_chunk → Bool) :
    ∀ (points : List data_chunk) (ops : List operation),
      push_points is_public_key points ops = none
        ↔ ∃ p ∈ points, is_public_key p = false := by
  intro points
  induction points with
  | nil =>
    intro ops
    simp [push_points]
  | cons p rest ih =>
    intro ops
    cases hp : is_public_key p
    · simp [push_points, hp]
    · simp [push_points, hp, ih]

/-- C21: `to_pay_multisig_pattern(m, keys)`, with `n` the number of keys, returns
the empty sequence iff `m < 1`, or `m > n`, or `n < 1`, or `n > 16`, or some key
fails `is_public_key`; for every other input the result is non-empty. -/
theorem to_pay_multisig_pattern_empty_iff (is_public_key : data_chunk → Bool) (m : byte)
    (points : List data_chunk) :
    (to_pay_multisig_pattern is_public_key m points = []
      ↔ (m.val < 1 ∨ m.val > points.length ∨ points.length < 1 ∨ points.length > 16
          ∨ ∃ p ∈ points, is_public_key p = false))
    ∧ (¬ (m.val < 1 ∨ m.val > points.length ∨ points.length < 1 ∨ points.length > 16
          ∨ ∃ p ∈ points, is_public_key p = false) →
        to_pay_multisig_pattern is_public_key m points ≠ []) := by
  have h1 : opcode.op_1.val = 81 := rfl
  have h16 : opcode.op_16.val = 96 := rfl
  have key : to_pay_multisig_pattern is_public_key m points = []
      ↔ (m.val < 1 ∨ m.val > points.length ∨ points.length < 1 ∨ points.length > 16
          ∨ ∃ p ∈ points, is_public_key p = false) := by
    by_cases hguard : (decide (m.val < 1) || decide (m.val > points.length)
        || decide (points.length < 1) || decide (points.length > 96 - (81 - 1))) = true
    · have hg := hguard
      simp only [Bool.or_eq_true, decide_eq_true_eq] at hg
      simp only [to_pay_multisig_pattern, h1, h16, if_pos hguard, true_iff]
      omega
    · have hg := hguard
      simp only [Bool.or_eq_true, decide_eq_true_eq] at hg
      simp only [to_pay_multisig_pattern, h1, h16, if_neg hguard]
      cases hpush : push_points is_public_key points
          (List.replicate (points.length + 3) ⟨0, []⟩
            ++ [⟨cast_uint8 (m.val + (81 - 1)), []⟩]) with
      | none =>
        have hex := (push_points_eq_none_iff is_public_key points _).mp hpush
        simp only [true_iff]
        exact Or.inr (Or.inr (Or.inr (Or.inr hex)))
      | some ops =>
        constructor
        · intro hnil
          simp at hnil
        · intro hor
          rcases hor with h | h | h | h | h
          · omega
          · omega
          · omega
          · omega
          · have hnone := (push_points_eq_none_iff is_public_key points
              (List.replicate (points.length + 3) ⟨0, []⟩
                ++ [⟨cast_uint8 (m.val + (81 - 1)), []⟩])).mpr h
            rw [hpush] at hnone
            exact absurd hnone (by simp)
  exact ⟨key, fun hn hnil => hn (key.mp hnil)⟩

/-- Witness for C21: threshold 1 and one valid key give a non-empty result;
threshold 2 with one key gives the empty sequence. -/
theorem to_pay_multisig_pattern_empty_iff_witness :
    to_pay_multisig_pattern (fun _ => true) 1 [[2, 7]] ≠ []
    ∧ to_pay_multisig_pattern (fun _ => true) 2 [[2, 7]] = [] :=
  ⟨(to_pay_multisig_pattern_empty_iff (fun _ => true) 1 [[2, 7]]).2 (by decide),
    (to_pay_multisig_pattern_empty_iff (fun _ => true) 2 [[2, 7]]).1.mpr
      (Or.inr (Or.inl (by decide)))⟩

/-- C22: for every 20-byte hash `h`, `is_pay_key_hash_pattern` accepts
`to_pay_key_hash_pattern(h)` and `is_pay_script_hash_pattern` accepts
`to_pay_script_hash_pattern(h)`; for every chunk `p`,
`to_pay_public_key_pattern(p)` is empty iff `is_public_key(p)` is false, and
otherwise `is_pay_public_key_pattern` accepts it. -/
theorem pay_pattern_builders_accepted (is_public_key : data_chunk → Bool) (h : short_hash)
    (p : data_chunk) :
    is_pay_key_hash_pattern (to_pay_key_hash_pattern h) = true
    ∧ is_pay_script_hash_pattern (to_pay_script_hash_pattern h) = true
    ∧ (to_pay_public_key_pattern is_public_key p = [] ↔ is_public_key p = false)
    ∧ (is_public_key p = true →
        is_pay_public_key_pattern is_public_key (to_pay_public_key_pattern is_public_key p)
          = true) := by
  refine ⟨?_, ?_, ?_, ?_⟩
  · simp [is_pay_key_hash_pattern, to_pay_key_hash_pattern, nth, h.size_eq, short_hash_size]
  · simp [is_pay_script_hash_pattern, to_pay_script_hash_pattern, nth, h.size_eq,
      short_hash_size]
  · cases hp : is_public_key p <;> simp [to_pay_public_key_pattern, hp]
  · intro hp
    simp [is_pay_public_key_pattern, to_pay_public_key_pattern, nth, hp]

/-- Witness for C22: a chunk accepted by the validator. -/
theorem pay_pattern_builders_accepted_witness :
    is_pay_public_key_pattern (fun _ => true) (to_pay_public_key_pattern (fun _ => true) [2, 7])
      = true :=
  (pay_pattern_builders_accepted (fun _ => true) ⟨List.replicate 20 7, by decide⟩
    [2, 7]).2.2.2 rfl

theorem is_push_iff_mem_push_family :
    ∀ (code : opcode), is_push code = true ↔ code ∈ push_family := by
  intro code
  simp only [is_push, push_family, Bool.or_eq_true, beq_iff_eq, List.mem_cons,
    List.mem_singleton, List.not_mem_nil, or_false, or_assoc]

theorem is_push_only_iff (ops : List operation) :
    is_push_only ops = true ↔ ∀ op ∈ ops, op.code ∈ push_family := by
  simp only [is_push_only, count_non_push, beq_iff_eq, List.countP_eq_zero,
    Bool.not_eq_true', Bool.not_eq_false]
  constructor
  · intro hall op hop
    exact (is_push_iff_mem_push_family op.code).mp (hall op hop)
  · intro hall op hop
    exact (is_push_iff_mem_push_family op.code).mpr (hall op hop)

/-- Witness for C18: a sequence that meets the seven conditions, one key push
between `op_1` and `op_2`, is accepted. -/
theorem is_pay_multisig_pattern_iff_witness :
    is_pay_multisig_pattern (fun _ => true)
      [⟨opcode.op_1, []⟩, ⟨opcode.special, [2, 7]⟩, ⟨opcode.op_2, []⟩,
        ⟨opcode.checkmultisig, []⟩] = true :=
  (is_pay_multisig_pattern_iff (fun _ => true)
    [⟨opcode.op_1, []⟩, ⟨opcode.special, [2, 7]⟩, ⟨opcode.op_2, []⟩,
      ⟨opcode.checkmultisig, []⟩]).mpr
    ⟨by decide, by decide, by decide, by decide, by decide, by decide, fun _ _ _ => rfl⟩

/-- C23: with push-only meaning that every code is one of zero, special,
pushdata1, pushdata2, pushdata4, negative_1, op_1 .. op_16:
`is_sign_multisig_pattern(ops)` iff `ops` has at least 2 elements, is push-only
and its first code is zero; `is_sign_public_key_pattern(ops)` iff `ops` has
exactly 1 element and is push-only; `is_sign_key_hash_pattern(ops)` iff `ops`
has exactly 2 elements, is push-only and the data of its last element satisfies
`is_public_key`. -/
theorem sign_patterns_iff (is_public_key : data_chunk → Bool) (ops : List operation) :
    (is_push_only ops = true ↔ ∀ op ∈ ops, op.code ∈ push_family)
    ∧ (is_sign_multisig_pattern ops = true
        ↔ 2 ≤ ops.length ∧ (∀ op ∈ ops, op.code ∈ push_family)
          ∧ ops.head?.map (fun op => op.code) = some opcode.zero)
    ∧ (is_sign_public_key_pattern ops = true
        ↔ ops.length = 1 ∧ (∀ op ∈ ops, op.code ∈ push_family))
    ∧ (is_sign_key_hash_pattern is_public_key ops = true
        ↔ ops.length = 2 ∧ (∀ op ∈ ops, op.code ∈ push_family)
          ∧ ops.getLast?.map (fun op => is_public_key op.data) = some true) := by
  refine ⟨is_push_only_iff ops, ?_, ?_, ?_⟩
  · rw [← is_push_only_iff]
    cases ops with
    | nil => simp [is_sign_multisig_pattern]
    | cons a rest =>
      cases rest with
      | nil => simp [is_sign_multisig_pattern]
      | cons b rest2 =>
        cases hp : is_push_only (a :: b :: rest2) <;>
          simp [is_sign_multisig_pattern, hp, nth]
  · rw [← is_push_only_iff]
    simp [is_sign_public_key_pattern]
  · rw [← is_push_only_iff]
    cases ops with
    | nil => simp [is_sign_key_hash_pattern]
    | cons a rest =>
      cases rest with
      | nil => simp [is_sign_key_hash_pattern]
      | cons b rest2 =>
        cases rest2 with
        | nil =>
          cases hp : is_push_only [a, b] <;> simp [is_sign_key_hash_pattern, hp, nth]
        | cons c rest3 => simp [is_sign_key_hash_pattern]

/-- C24, as stated, fails in both directions. The one-element push-only sequence
whose data is a pay-to-key-hash script meets the three conditions of the claim
and is rejected, since the code returns false below two elements. The
two-element push-only sequence whose last data is a null-data script is
accepted, although `null_data` is not one of the four patterns of the claim. -/
theorem sign_script_hash_size_and_null_data :
    (is_sign_script_hash_pattern sample_parse_strict
        [⟨opcode.special, [118, 169, 20] ++ List.replicate 20 7 ++ [136, 172]⟩] = false
      ∧ is_push_only
          [⟨opcode.special, [118, 169, 20] ++ List.replicate 20 7 ++ [136, 172]⟩] = true
      ∧ ([118, 169, 20] ++ List.replicate 20 7 ++ [136, 172] : data_chunk) ≠ []
      ∧ sample_parse_strict ([118, 169, 20] ++ List.replicate 20 7 ++ [136, 172])
          = some script_pattern.pay_key_hash)
    ∧ (is_sign_script_hash_pattern sample_parse_strict
        [⟨opcode.zero, []⟩, ⟨opcode.special, [106, 1, 7]⟩] = true
      ∧ sample_parse_strict [106, 1, 7] = some script_pattern.null_data
      ∧ script_pattern.null_data ∉ [script_pattern.pay_multisig,
          script_pattern.pay_public_key, script_pattern.pay_key_hash,
          script_pattern.pay_script_hash]) := by
  decide

/-- C24, amended: `is_sign_script_hash_pattern(ops)` is true iff `ops` has at
least 2 elements, is push-only, the data of its last element is non-empty, and
that data parses (strictly) as a script whose pattern is one of `pay_multisig`,
`pay_public_key`, `pay_key_hash`, `pay_script_hash` or `null_data`; the script
parser and its `pattern()` are taken as given. -/
theorem is_sign_script_hash_pattern_iff (parse_strict : data_chunk → Option script_pattern)
    (ops : List operation) :
    is_sign_script_hash_pattern parse_strict ops = true
      ↔ (2 ≤ ops.length
          ∧ (∀ op ∈ ops, op.code ∈ push_family)
          ∧ ∃ (last : operation), ops.getLast? = some last
            ∧ last.data ≠ []
            ∧ ∃ (pattern : script_pattern), parse_strict last.data = some pattern
              ∧ pattern ∈ [script_pattern.pay_multisig, script_pattern.pay_public_key,
                  script_pattern.pay_key_hash, script_pattern.pay_script_hash,
                  script_pattern.null_data]) := by
  rw [← is_push_only_iff]
  by_cases hlen : ops.length < 2
  · have h2 : ¬ 2 ≤ ops.length := by omega
    simp [is_sign_script_hash_pattern, hlen, h2]
  · have h2 : 2 ≤ ops.length := by omega
    cases hp : is_push_only ops
    · simp [is_sign_script_hash_pattern, hp]
    · have hne : ops ≠ [] := by
        intro h
        rw [h] at h2
        simp at h2
      have hlast : ops.getLast? = some (nth ops (ops.length - 1)) := by
        rw [List.getLast?_eq_getElem?, nth, List.getD_eq_getElem?_getD]
        have hlt : ops.length - 1 < ops.length := by omega
        rw [List.getElem?_eq_getElem hlt]
        rfl
      simp only [is_sign_script_hash_pattern, hp, hlast, Bool.not_true, Bool.or_false,
        decide_eq_true_eq, if_neg hlen, Option.some.injEq, exists_eq_left', h2, true_and]
      cases hd : (nth ops (ops.length - 1)).data with
      | nil => simp
      | cons x xs =>
        cases hparse : parse_strict (x :: xs) with
        | none => simp
        | some pattern => cases pattern <;> simp

/-- Witness for C24, amended: a zero push followed by the push of a
pay-to-key-hash script is accepted. -/
theorem is_sign_script_hash_pattern_iff_witness :
    is_sign_script_hash_pattern sample_parse_strict
      [⟨opcode.zero, []⟩,
        ⟨opcode.special, [118, 169, 20] ++ List.replicate 20 7 ++ [136, 172]⟩] = true :=
  (is_sign_script_hash_pattern_iff sample_parse_strict
    [⟨opcode.zero, []⟩,
      ⟨opcode.special, [118, 169, 20] ++ List.replicate 20 7 ++ [136, 172]⟩]).mpr
    ⟨by decide, by decide,
      ⟨opcode.special, [118, 169, 20] ++ List.replicate 20 7 ++ [136, 172]⟩, rfl, by decide,
      script_pattern.pay_key_hash, by decide, by decide⟩

end operation

namespace block

theorem merkle_pairs_length (bitcoin_hash : data_chunk → hash_digest) :
    ∀ (n : Nat) (l : List hash_digest), l.length ≤ n →
      (merkle_pairs bitcoin_hash l).length = l.length / 2 := by
  intro n
  induction n with
  | zero =>
    intro l hl
    cases l with
    | nil => simp [merkle_pairs]
    | cons _ _ => simp at hl
  | succ n ih =>
    intro l hl
    cases l with
    | nil => simp [merkle_pairs]
    | cons _ t =>
      cases t with
      | nil => simp [merkle_pairs]
      | cons _ rest =>
        have hr := ih rest (by simp at hl; omega)
        simp only [merkle_pairs, List.length_cons, hr]
        omega

theorem merkle_step_length (bitcoin_hash : data_chunk → hash_digest)
    (merkle : List hash_digest) (h : merkle.length > 1) :
    (merkle_step bitcoin_hash merkle).length < merkle.length := by
  have last_length : merkle.getLast?.toList.length ≤ 1 := by
    cases merkle.getLast? <;> simp
  unfold merkle_step
  rw [merkle_pairs_length _ _ _ (le_refl _)]
  split
  · simp only [List.length_append]
    omega
  · omega

theorem merkle_pairs_eq_reference (bitcoin_hash : data_chunk → hash_digest) :
    ∀ (n : Nat) (l : List hash_digest), l.length ≤ n →
      merkle_pairs bitcoin_hash l = reference_pairs bitcoin_hash l := by
  intro n
  induction n with
  | zero =>
    intro l hl
    cases l with
    | nil => simp [merkle_pairs, reference_pairs]
    | cons _ _ => simp at hl
  | succ n ih =>
    intro l hl
    cases l with
    | nil => simp [merkle_pairs, reference_pairs]
    | cons _ t =>
      cases t with
      | nil => simp [merkle_pairs, reference_pairs]
      | cons _ rest =>
        have hr := ih rest (by simp at hl; omega)
        simp only [merkle_pairs, reference_pairs, write_hash, hr]

theorem merkle_step_eq_reference (bitcoin_hash : data_chunk → hash_digest)
    (l : List hash_digest) :
    merkle_step bitcoin_hash l = reference_next_level bitcoin_hash l := by
  unfold merkle_step reference_next_level
  rcases Nat.mod_two_eq_zero_or_one l.length with h | h
  · simp [h, merkle_pairs_eq_reference bitcoin_hash _ _ (le_refl _)]
  · cases hl : l.getLast? with
    | none =>
      rw [List.getLast?_eq_none_iff] at hl
      subst hl
      simp at h
    | some z =>
      simp [h, merkle_pairs_eq_reference bitcoin_hash _ _ (le_refl _)]

theorem merkle_loop_eq_reference (bitcoin_hash : data_chunk → hash_digest) :
    ∀ (n : Nat) (l : List hash_digest), l.length ≤ n →
      (merkle_loop bitcoin_hash l).headD null_hash = reference_merkle_root bitcoin_hash l := by
  intro n
  induction n with
  | zero =>
    intro l hl
    cases l with
    | nil =>
      rw [merkle_loop, reference_merkle_root]
      simp
    | cons _ _ => simp at hl
  | succ n ih =>
    intro l hl
    cases l with
    | nil =>
      rw [merkle_loop, reference_merkle_root]
      simp
    | cons x t =>
      cases t with
      | nil =>
        rw [merkle_loop, reference_merkle_root]
        simp
      | cons y rest =>
        have hlen : (x :: y :: rest).length > 1 := by simp
        have hstep := merkle_step_length bitcoin_hash (x :: y :: rest) hlen
        rw [merkle_loop, reference_merkle_root, dif_pos hlen,
          ← merkle_step_eq_reference]
        exact ih _ (by omega)

/-- C1: for every list of 32-byte hashes, `build_merkle_tree` returns the value
of the reference recursion: the all-zero hash for the empty list, the sole
element for a one-element list, otherwise the root of the next level, where the
last element is duplicated when the length is odd (at every level) and each
adjacent pair `(x, y)` is replaced by `bitcoin_hash (x ++ y)`. -/
theorem build_merkle_tree_eq_reference (bitcoin_hash : data_chunk → hash_digest)
    (merkle : List hash_digest) :
    build_merkle_tree bitcoin_hash merkle = reference_merkle_root bitcoin_hash merkle := by
  unfold build_merkle_tree
  cases merkle with
  | nil =>
    rw [reference_merkle_root]
    simp
  | cons x t =>
    simpa using merkle_loop_eq_reference bitcoin_hash _ (x :: t) (le_refl _)

/-- C15: for all hashes `a`, `b`, `c`, `build_merkle_tree([a, b, c])` is
`H(H(a ++ b) ++ H(c ++ c))` with `H` the hash primitive: the third leaf is
duplicated, so that the first level has four effective leaves. -/
theorem build_merkle_tree_three_leaves (bitcoin_hash : data_chunk → hash_digest)
    (a b c : hash_digest) :
    build_merkle_tree bitcoin_hash [a, b, c]
      = bitcoin_hash ((bitcoin_hash (a.bytes ++ b.bytes)).bytes
          ++ (bitcoin_hash (c.bytes ++ c.bytes)).bytes) := by
  have h3 : merkle_step bitcoin_hash [a, b, c]
      = [bitcoin_hash (a.bytes ++ b.bytes), bitcoin_hash (c.bytes ++ c.bytes)] := by
    simp [merkle_step, merkle_pairs, write_hash]
  have h2 : merkle_step bitcoin_hash
        [bitcoin_hash (a.bytes ++ b.bytes), bitcoin_hash (c.bytes ++ c.bytes)]
      = [bitcoin_hash ((bitcoin_hash (a.bytes ++ b.bytes)).bytes
          ++ (bitcoin_hash (c.bytes ++ c.bytes)).bytes)] := by
    simp [merkle_step, merkle_pairs, write_hash]
  have hloop : merkle_loop bitcoin_hash [a, b, c]
      = [bitcoin_hash ((bitcoin_hash (a.bytes ++ b.bytes)).bytes
          ++ (bitcoin_hash (c.bytes ++ c.bytes)).bytes)] := by
    rw [merkle_loop, dif_pos (by simp), h3, merkle_loop, dif_pos (by simp), h2, merkle_loop,
      dif_neg (by simp)]
  simp [build_merkle_tree, hloop]

/-- The serialisation of the header with version, hashes, timestamp, bits and
nonce zero and transaction count `1`: 80 zero bytes and the byte 1. -/
theorem header_one_transaction_bytes :
    header.to_data (header.construct 0 null_hash null_hash 0 0 0 1) true
      = List.replicate 80 0 ++ [1] := by
  decide

/-- C7 fails on the code: on the 81-byte stream of 80 zero bytes and the byte 1
(a header announcing one transaction, then the end of the stream) the
transaction parse fails, `from_data` returns false and the block is reset, but
`header::reset` does not clear `transaction_count`, which stays 1. -/
theorem block_from_data_failure_keeps_count {T : Type} (api : transaction_api T)
    (self : block T) (hfail : (api.from_data api.default_tx ⟨[], true⟩).1 = false) :
    (from_data api self ⟨List.replicate 80 0 ++ [1], true⟩ true).1 = false
    ∧ (from_data api self ⟨List.replicate 80 0 ++ [1], true⟩ true).2.1.transactions = []
    ∧ (from_data api self ⟨List.replicate 80 0 ++ [1], true⟩ true).2.1.header.version = 0
    ∧ (from_data api self
        ⟨List.replicate 80 0 ++ [1], true⟩ true).2.1.header.transaction_count = 1 := by
  have hh := header.header_from_data_to_data_append self.reset.header
    (header.construct 0 null_hash null_hash 0 0 0 1) []
  rw [List.append_nil, header_one_transaction_bytes] at hh
  have hone : (1 : uint64).val = 1 := rfl
  simp only [from_data, hh, if_true, header.construct, hone, List.replicate_one,
    read_transactions, hfail]
  simp [reset, header.reset]

/-- Witness for the evaluation of C7 at the failing input, with one-byte transactions. -/
theorem block_from_data_failure_keeps_count_witness :
    (byte_transaction_api.from_data byte_transaction_api.default_tx ⟨[], true⟩).1 = false
    ∧ (from_data byte_transaction_api ⟨header.construct 0 null_hash null_hash 0 0 0 0, []⟩
        ⟨List.replicate 80 0 ++ [1], true⟩ true).1 = false
    ∧ (from_data byte_transaction_api ⟨header.construct 0 null_hash null_hash 0 0 0 0, []⟩
        ⟨List.replicate 80 0 ++ [1], true⟩ true).2.1.transactions = []
    ∧ (from_data byte_transaction_api ⟨header.construct 0 null_hash null_hash 0 0 0 0, []⟩
        ⟨List.replicate 80 0 ++ [1], true⟩ true).2.1.header.version = 0
    ∧ (from_data byte_transaction_api ⟨header.construct 0 null_hash null_hash 0 0 0 0, []⟩
        ⟨List.replicate 80 0 ++ [1], true⟩ true).2.1.header.transaction_count = 1 :=
  ⟨by decide,
    block_from_data_failure_keeps_count byte_transaction_api
      ⟨header.construct 0 null_hash null_hash 0 0 0 0, []⟩ (by decide)⟩

/-- Unfolding of `block::from_data` once the header has been read. -/
theorem from_data_of_header {T : Type} (api : transaction_api T) (self : block T)
    (source after : reader) (flag : Bool) (h : libbitcoin.header)
    (hh : header.from_data self.reset.header source flag = (true, h, after)) :
    from_data api self source flag
      = if (read_transactions api
            (List.replicate h.transaction_count.val api.default_tx) after).1 then
          (true,
            ⟨h, (read_transactions api
              (List.replicate h.transaction_count.val api.default_tx) after).2.1⟩,
            (read_transactions api
              (List.replicate h.transaction_count.val api.default_tx) after).2.2)
        else
          (false, ⟨h.reset, []⟩,
            (read_transactions api
              (List.replicate h.transaction_count.val api.default_tx) after).2.2) := by
  simp only [from_data, hh, if_true]
  split <;> simp_all [reset]

/-- Reading back the transactions written one after the other, with any bytes
after them, into a vector resized to their number. -/
theorem read_transactions_written {T : Type} (api : transaction_api T) :
    ∀ (txs : List T) (rest : data_chunk),
      (∀ tx ∈ txs, ∀ (after : data_chunk),
        api.from_data api.default_tx ⟨api.to_data tx ++ after, true⟩
          = (true, tx, ⟨after, true⟩)) →
      read_transactions api (List.replicate txs.length api.default_tx)
          ⟨(txs.map api.to_data).flatten ++ rest, true⟩
        = (true, txs, ⟨rest, true⟩) := by
  intro txs
  induction txs with
  | nil =>
    intro rest _
    simp [read_transactions]
  | cons tx txs ih =>
    intro rest hrt
    have htx := hrt tx (List.mem_cons_self tx txs) ((txs.map api.to_data).flatten ++ rest)
    have hrest := ih rest (fun t ht => hrt t (List.mem_cons_of_mem tx ht))
    simp only [List.length_cons, List.replicate_succ, List.map_cons, List.flatten_cons,
      List.append_assoc, read_transactions, htx, hrest]
    simp

theorem serialized_size_foldl {T : Type} (api : transaction_api T) :
    ∀ (txs : List T) (init : Nat),
      (∀ tx ∈ txs, (api.to_data tx).length = api.serialized_size tx) →
      txs.foldl (fun block_size tx => block_size + api.serialized_size tx) init
        = init + ((txs.map api.to_data).flatten).length := by
  intro txs
  induction txs with
  | nil =>
    intro init _
    simp
  | cons tx txs ih =>
    intro init hsize
    have htx := hsize tx (List.mem_cons_self tx txs)
    have hrest := ih (init + api.serialized_size tx)
      (fun t ht => hsize t (List.mem_cons_of_mem tx ht))
    simp only [List.foldl_cons, hrest, List.map_cons, List.flatten_cons, List.length_append,
      htx]
    omega

/-- C8, as stated, fails: with one-byte transactions, which round-trip, the
block with an all-zero header (transaction count 0) and the one transaction `7`
is written as 80 zero bytes, the count byte 0 and the byte 7; `from_data` on
these bytes returns true and yields a block without transactions. -/
theorem block_roundtrip_count_mismatch :
    (∀ (after : data_chunk),
      byte_transaction_api.from_data byte_transaction_api.default_tx
          ⟨byte_transaction_api.to_data 7 ++ after, true⟩ = (true, 7, ⟨after, true⟩))
    ∧ to_data byte_transaction_api ⟨header.construct 0 null_hash null_hash 0 0 0 0, [7]⟩ true
        = List.replicate 80 0 ++ [0, 7]
    ∧ (from_data byte_transaction_api ⟨header.construct 0 null_hash null_hash 0 0 0 0, []⟩
        (reader.of_data (to_data byte_transaction_api
          ⟨header.construct 0 null_hash null_hash 0 0 0 0, [7]⟩ true)) true).1 = true
    ∧ (from_data byte_transaction_api ⟨header.construct 0 null_hash null_hash 0 0 0 0, []⟩
        (reader.of_data (to_data byte_transaction_api
          ⟨header.construct 0 null_hash null_hash 0 0 0 0, [7]⟩ true)) true).2.1.transactions
        ≠ [7] := by
  refine ⟨?_, by decide, by decide, by decide⟩
  intro after
  simp [byte_transaction_api, reader.read_byte_cons]

/-- C8, amended: for every block `b` whose `header.transaction_count` is the
size of `transactions` and whose transactions each round-trip (`from_data` on a
default transaction and a reader at the bytes of `to_data` returns true, yields
the transaction and leaves the reader after those bytes, and `to_data` has
`serialized_size` bytes), `from_data(b.to_data())` returns true and yields a
block with a header equal to `b.header` and the same transaction list, and
`b.to_data()` has exactly `b.serialized_size()` bytes. -/
theorem block_from_data_to_data_roundtrip {T : Type} (api : transaction_api T)
    (self b : block T)
    (hcount : b.header.transaction_count.val = b.transactions.length)
    (hrt : ∀ tx ∈ b.transactions, ∀ (after : data_chunk),
      api.from_data api.default_tx ⟨api.to_data tx ++ after, true⟩
        = (true, tx, ⟨after, true⟩))
    (hsize : ∀ tx ∈ b.transactions, (api.to_data tx).length = api.serialized_size tx) :
    (from_data api self (reader.of_data (to_data api b true)) true).1 = true
    ∧ header.eq (from_data api self (reader.of_data (to_data api b true)) true).2.1.header
        b.header = true
    ∧ (from_data api self (reader.of_data (to_data api b true)) true).2.1.transactions
        = b.transactions
    ∧ (to_data api b true).length = serialized_size api b true := by
  have hh := header.header_from_data_to_data_append self.reset.header b.header
    ((b.transactions.map api.to_data).flatten)
  have ht := read_transactions_written api b.transactions [] hrt
  rw [List.append_nil] at ht
  have hfrom : from_data api self (reader.of_data (to_data api b true)) true
      = (true, ⟨{ b.header with hash_ := none }, b.transactions⟩, ⟨[], true⟩) := by
    rw [reader.of_data, to_data, from_data_of_header api self _ _ true _ hh]
    simp only [hcount, ht, if_true]
  refine ⟨?_, ?_, ?_, ?_⟩
  · rw [hfrom]
  · rw [hfrom]
    simp [header.eq]
  · rw [hfrom]
  · rw [serialized_size, serialized_size_foldl api b.transactions _ hsize, to_data,
      List.length_append, header.header_to_data_length]

/-- Witness for C8, amended: a header announcing two transactions and the two
one-byte transactions `7` and `9`. -/
theorem block_from_data_to_data_roundtrip_witness :
    (header.construct 1 null_hash null_hash 0 0 0 2).transaction_count.val
        = ([7, 9] : List byte).length
    ∧ (from_data byte_transaction_api ⟨header.construct 0 null_hash null_hash 0 0 0 0, []⟩
        (reader.of_data (to_data byte_transaction_api
          ⟨header.construct 1 null_hash null_hash 0 0 0 2, [7, 9]⟩ true)) true).1 = true
    ∧ header.eq (from_data byte_transaction_api
        ⟨header.construct 0 null_hash null_hash 0 0 0 0, []⟩
        (reader.of_data (to_data byte_transaction_api
          ⟨header.construct 1 null_hash null_hash 0 0 0 2, [7, 9]⟩ true)) true).2.1.header
        (header.construct 1 null_hash null_hash 0 0 0 2) = true
    ∧ (from_data byte_transaction_api ⟨header.construct 0 null_hash null_hash 0 0 0 0, []⟩
        (reader.of_data (to_data byte_transaction_api
          ⟨header.construct 1 null_hash null_hash 0 0 0 2, [7, 9]⟩ true)) true).2.1.transactions
        = [7, 9]
    ∧ (to_data byte_transaction_api
          ⟨header.construct 1 null_hash null_hash 0 0 0 2, [7, 9]⟩ true).length
        = serialized_size byte_transaction_api
          ⟨header.construct 1 null_hash null_hash 0 0 0 2, [7, 9]⟩ true :=
  ⟨by decide,
    block_from_data_to_data_roundtrip byte_transaction_api
      ⟨header.construct 0 null_hash null_hash 0 0 0 0, []⟩
      ⟨header.construct 1 null_hash null_hash 0 0 0 2, [7, 9]⟩ (by decide)
      (fun tx _ after => by simp [byte_transaction_api, reader.read_byte_cons])
      (fun tx _ => rfl)⟩

/-- C9 fails on the code: `to_data` writes, after the 80-byte header body, the
variable-length encoding of the field `header.transaction_count`, whatever the
size of `transactions`. For the block with an all-zero header (count 0) and one
transaction the count byte written is 0, where `transactions.size()` is 1 and
its encoding is the byte 1. -/
theorem block_to_data_writes_header_count {T : Type} (api : transaction_api T)
    (b : block T) (tx : T) :
    to_data api b true
      = header.to_data b.header false
        ++ write_variable_uint_little_endian b.header.transaction_count
        ++ (b.transactions.map api.to_data).flatten
    ∧ to_data api ⟨header.construct 0 null_hash null_hash 0 0 0 0, [tx]⟩ true
      = List.replicate 80 0 ++ [0] ++ api.to_data tx
    ∧ write_variable_uint_little_endian (cast_uint64 [tx].length) = [1] := by
  have hone : write_variable_uint_little_endian (cast_uint64 1) = [1] := by decide
  refine ⟨?_, ?_, hone⟩
  · simp [to_data, header.to_data]
  · have h80 : header.to_data (header.construct 0 null_hash null_hash 0 0 0 0) true
        = List.replicate 80 0 ++ [0] := by decide
    simp only [to_data, h80]
    simp

end block

/-! ## operation: validity after a failed parse, canonical round trip -/

namespace operation

/-- C31, as the code behaves: when `operation::from_data` returns false the
operation is left reset, with code `zero` and empty data, and on that state
`operation::is_valid()` returns true (it is `(code == zero) && data.empty()`),
where the claim says false. -/
theorem operation_is_valid_after_failure (self : operation) (source : reader)
    (h : (from_data self source).1 = false) :
    (from_data self source).2.1 = ⟨opcode.zero, []⟩
    ∧ is_valid (from_data self source).2.1 = true := by
  have hreset := from_data_reset_of_false self source h
  constructor
  · exact hreset
  · rw [hreset]
    rfl

/-- Witness for C31: the empty stream. The parse fails and the operation left
behind is reported valid; the operation parsed from the byte of `nop` is
reported invalid. -/
theorem operation_is_valid_after_failure_witness :
    (from_data ⟨opcode.nop, [9]⟩ ⟨[], true⟩).1 = false
    ∧ ((from_data ⟨opcode.nop, [9]⟩ ⟨[], true⟩).2.1 = ⟨opcode.zero, []⟩
      ∧ is_valid (from_data ⟨opcode.nop, [9]⟩ ⟨[], true⟩).2.1 = true)
    ∧ (from_data ⟨opcode.zero, []⟩ ⟨[opcode.nop], true⟩).1 = true
    ∧ is_valid (from_data ⟨opcode.zero, []⟩ ⟨[opcode.nop], true⟩).2.1 = false :=
  ⟨by decide, operation_is_valid_after_failure ⟨opcode.nop, [9]⟩ ⟨[], true⟩ (by decide),
    by decide, by decide⟩

/-- C36: for every operation `x` in canonical form (code `special` with 1 to 75
data bytes; `pushdata1` with at most 255, `pushdata2` with at most 65535 or
`pushdata4` with at most 2^32 - 1 data bytes; or empty data with a code that is
not `special`, `pushdata1`, `pushdata2`, `pushdata4` or `raw_data` and whose
byte value is not in 1..75), `from_data` on `x.to_data()` returns true, yields
`x` and leaves a valid stream with no byte unread. -/
theorem operation_from_data_to_data_consumes (self x : operation)
    (hx : (x.code = opcode.special ∧ 1 ≤ x.data.length ∧ x.data.length ≤ 75)
      ∨ (x.code = opcode.pushdata1 ∧ x.data.length ≤ 255)
      ∨ (x.code = opcode.pushdata2 ∧ x.data.length ≤ 65535)
      ∨ (x.code = opcode.pushdata4 ∧ x.data.length ≤ 2 ^ 32 - 1)
      ∨ (x.data = [] ∧ x.code ≠ opcode.special ∧ x.code ≠ opcode.pushdata1
          ∧ x.code ≠ opcode.pushdata2 ∧ x.code ≠ opcode.pushdata4
          ∧ x.code ≠ opcode.raw_data ∧ ¬ (1 ≤ x.code.val ∧ x.code.val ≤ 75))) :
    from_data self (reader.of_data (to_data x)) = (true, x, ⟨[], true⟩) := by
  have hc : canonical x := by
    rcases hx with h | h | h | h | ⟨hd, _, h1, h2, h4, hr, hb⟩
    · exact Or.inl h
    · exact Or.inr (Or.inl h)
    · exact Or.inr (Or.inr (Or.inl h))
    · exact Or.inr (Or.inr (Or.inr (Or.inl h)))
    · exact Or.inr (Or.inr (Or.inr (Or.inr ⟨hd, hb, h1, h2, h4, hr⟩)))
  have h := operation_from_data_to_data_append self x [] hc
  rw [List.append_nil] at h
  exact h

/-- Witness for C36: a `pushdata2` push of three bytes, written as the six
bytes 77, 3, 0, 7, 8, 9. -/
theorem operation_from_data_to_data_consumes_witness :
    to_data ⟨opcode.pushdata2, [7, 8, 9]⟩ = [77, 3, 0, 7, 8, 9]
    ∧ from_data ⟨opcode.nop, [1]⟩ (reader.of_data (to_data ⟨opcode.pushdata2, [7, 8, 9]⟩))
      = (true, ⟨opcode.pushdata2, [7, 8, 9]⟩, ⟨[], true⟩) :=
  ⟨by decide,
    operation_from_data_to_data_consumes ⟨opcode.nop, [1]⟩ ⟨opcode.pushdata2, [7, 8, 9]⟩
      (Or.inr (Or.inr (Or.inl ⟨rfl, by decide⟩)))⟩

end operation

/-! ## block: the duplicated last leaf -/

namespace block

/-- C34: for every hash list of odd length n >= 3 with last element `last`,
`build_merkle_tree` returns the same root for the list and for the list with a
copy of `last` appended: two different leaf lists, of lengths n and n + 1,
have the same merkle root. -/
theorem build_merkle_tree_duplicate_last (bitcoin_hash : data_chunk → hash_digest)
    (l : List hash_digest) (last : hash_digest)
    (hodd : l.length % 2 = 1) (hlen : 3 ≤ l.length) (hlast : l.getLast? = some last) :
    build_merkle_tree bitcoin_hash (l ++ [last]) = build_merkle_tree bitcoin_hash l
    ∧ l ++ [last] ≠ l
    ∧ (l ++ [last]).length = l.length + 1 := by
  have hstep_odd : merkle_step bitcoin_hash l = merkle_pairs bitcoin_hash (l ++ [last]) := by
    unfold merkle_step
    rw [if_pos (by omega), hlast]
    rfl
  have hstep_even : merkle_step bitcoin_hash (l ++ [last])
      = merkle_pairs bitcoin_hash (l ++ [last]) := by
    unfold merkle_step
    rw [if_neg]
    simp only [List.length_append, List.length_singleton]
    omega
  have hloop : merkle_loop bitcoin_hash (l ++ [last]) = merkle_loop bitcoin_hash l := by
    rw [merkle_loop, dif_pos (by simp only [List.length_append, List.length_singleton]; omega),
      hstep_even]
    conv_rhs => rw [merkle_loop, dif_pos (by omega), hstep_odd]
  have hne : l ≠ [] := by
    intro h
    rw [h] at hlen
    simp at hlen
  refine ⟨?_, ?_, ?_⟩
  · unfold build_merkle_tree
    rw [hloop]
    cases l with
    | nil => exact absurd rfl hne
    | cons x t => rfl
  · intro h
    have hl := congrArg List.length h
    simp only [List.length_append, List.length_singleton] at hl
    omega
  · simp only [List.length_append, List.length_singleton]

/-- Witness for C34: three leaves, the hashes of the bytes 1, 2 and 3, with
`hash_digest.of_bytes` standing for the hash primitive. -/
theorem build_merkle_tree_duplicate_last_witness :
    build_merkle_tree hash_digest.of_bytes
        ([hash_digest.of_bytes [1], hash_digest.of_bytes [2], hash_digest.of_bytes [3]]
          ++ [hash_digest.of_bytes [3]])
      = build_merkle_tree hash_digest.of_bytes
        [hash_digest.of_bytes [1], hash_digest.of_bytes [2], hash_digest.of_bytes [3]]
    ∧ [hash_digest.of_bytes [1], hash_digest.of_bytes [2], hash_digest.of_bytes [3]]
        ++ [hash_digest.of_bytes [3]]
      ≠ [hash_digest.of_bytes [1], hash_digest.of_bytes [2], hash_digest.of_bytes [3]]
    ∧ ([hash_digest.of_bytes [1], hash_digest.of_bytes [2], hash_digest.of_bytes [3]]
        ++ [hash_digest.of_bytes [3]]).length
      = [hash_digest.of_bytes [1], hash_digest.of_bytes [2],
          hash_digest.of_bytes [3]].length + 1 :=
  build_merkle_tree_duplicate_last hash_digest.of_bytes
    [hash_digest.of_bytes [1], hash_digest.of_bytes [2], hash_digest.of_bytes [3]]
    (hash_digest.of_bytes [3]) (by decide) (by decide) rfl

end block

/-! ## point: validity after a successful parse -/

theorem from_little_endian_eq_zero_iff (xs : data_chunk) :
    from_little_endian xs = 0 ↔ xs = List.replicate xs.length 0 := by
  induction xs with
  | nil => simp [from_little_endian]
  | cons b bs ih =>
    simp only [from_little_endian, List.length_cons, List.replicate_succ, List.cons.injEq]
    constructor
    · intro h
      have h1 : b.val = 0 := by omega
      have h2 : from_little_endian bs = 0 := by omega
      exact ⟨Fin.ext h1, ih.mp h2⟩
    · rintro ⟨hb, hbs⟩
      have h2 := ih.mpr hbs
      rw [h2, hb]
      rfl

namespace point

/-- On a valid stream of at least 36 bytes `from_data` succeeds: the hash is
the first 32 bytes, the index the next 4, and 36 bytes are consumed. -/
theorem point_from_data_of_le (self : point) (d : data_chunk) (h : 36 ≤ d.length) :
    from_data self ⟨d, true⟩
      = (true,
          ⟨hash_digest.of_bytes (d.take 32),
            cast_uint32 (from_little_endian ((d.drop 32).take 4))⟩,
          ⟨d.drop 36, true⟩) := by
  have h4 : 4 ≤ (d.drop 32).length := by
    simp only [List.length_drop]
    omega
  simp only [from_data, reader.read_hash, reader.read_4_bytes_little_endian, hash_size,
    reader.read_data_of_le 32 d (by omega), reader.read_data_of_le 4 (d.drop 32) h4]
  simp

/-- A successful `from_data` was given a valid stream of at least 36 bytes. -/
theorem point_from_data_true_source (self : point) (source : reader)
    (h : (from_data self source).1 = true) :
    source.valid = true ∧ 36 ≤ source.data.length := by
  obtain ⟨d, valid⟩ := source
  rw [point_from_data_result] at h
  cases valid with
  | false =>
    have h1 := reader.read_data_invalid 32 ⟨d, false⟩ rfl
    have h2 := reader.read_data_invalid 4 _ h1
    rw [h2] at h
    exact absurd h (by decide)
  | true =>
    refine ⟨rfl, ?_⟩
    by_cases h32 : 32 ≤ d.length
    · rw [reader.read_data_of_le 32 d h32] at h
      by_cases h4 : 4 ≤ (d.drop 32).length
      · simp only [List.length_drop] at h4
        show 36 ≤ d.length
        omega
      · rw [reader.read_data_short 4 _ (by omega)] at h
        exact absurd h (by decide)
    · have hs := reader.read_data_short 32 d (by omega)
      rw [reader.read_data_invalid 4 _ hs] at h
      exact absurd h (by decide)

theorem point_is_valid_iff_bytes (d : data_chunk) (h : 36 ≤ d.length) :
    is_valid ⟨hash_digest.of_bytes (d.take 32),
        cast_uint32 (from_little_endian ((d.drop 32).take 4))⟩ = true
      ↔ d.take 36 ≠ List.replicate 36 0 := by
  have hlen32 : (d.take 32).length = 32 := by
    rw [List.length_take]
    omega
  have hlen4 : ((d.drop 32).take 4).length = 4 := by
    rw [List.length_take, List.length_drop]
    omega
  have hsplit : d.take 36 = d.take 32 ++ (d.drop 32).take 4 := by
    rw [show (36 : Nat) = 32 + 4 from rfl, List.take_add]
  have hrep : List.replicate 36 (0 : byte) = List.replicate 32 0 ++ List.replicate 4 0 := by
    decide
  have hhash : hash_digest.of_bytes (d.take 32) = null_hash
      ↔ d.take 32 = List.replicate 32 0 := by
    constructor
    · intro hh
      have hb := congrArg hash_digest.bytes hh
      simp only [hash_digest.of_bytes, fit32_of_length _ hlen32, null_hash] at hb
      exact hb
    · intro hh
      rw [hh]
      decide
  have hindex : cast_uint32 (from_little_endian ((d.drop 32).take 4)) = 0
      ↔ (d.drop 32).take 4 = List.replicate 4 0 := by
    have hlt := from_little_endian_lt ((d.drop 32).take 4)
    rw [hlen4] at hlt
    have hz := from_little_endian_eq_zero_iff ((d.drop 32).take 4)
    rw [hlen4] at hz
    rw [← hz]
    constructor
    · intro hc
      have hv := congrArg Fin.val hc
      simp only [cast_uint32] at hv
      have h0 : ((0 : uint32) : Nat) = 0 := rfl
      rw [h0] at hv
      omega
    · intro hc
      rw [hc]
      rfl
  have hall : d.take 36 = List.replicate 36 0
      ↔ (d.take 32 = List.replicate 32 0 ∧ (d.drop 32).take 4 = List.replicate 4 0) := by
    rw [hsplit, hrep]
    constructor
    · intro heq
      exact List.append_inj heq (by rw [hlen32]; rfl)
    · rintro ⟨h1, h2⟩
      rw [h1, h2]
  rw [Ne, hall, ← hhash, ← hindex]
  simp only [is_valid, Bool.or_eq_true, bne_iff_ne, ne_eq]
  constructor
  · rintro (hi | hh) ⟨h1, h2⟩
    · exact hi h2
    · exact hh h1
  · intro hn
    by_cases hi : cast_uint32 (from_little_endian ((d.drop 32).take 4)) = 0
    · right
      intro hh
      exact hn ⟨hh, hi⟩
    · left
      exact hi

/-- C39: after `point::from_data` returns true, 36 bytes were consumed and
`is_valid()` is true iff those 36 bytes are not all zero. On the input of 36
zero bytes `from_data` succeeds, the point (null hash, index 0) has
`is_valid()` false, and it is the point that every failed parse leaves behind
(the same value, equal under `operator==`), so the value returned by
`factory_from_data`, which drops the result, is the same in both cases. -/
theorem point_is_valid_after_from_data (self : point) (source : reader)
    (h : (from_data self source).1 = true) :
    (from_data self source).2.2.data = source.data.drop 36
    ∧ (is_valid (from_data self source).2.1 = true
        ↔ source.data.take 36 ≠ List.replicate 36 0)
    ∧ from_data self ⟨List.replicate 36 0, true⟩ = (true, ⟨null_hash, 0⟩, ⟨[], true⟩)
    ∧ is_valid (from_data self ⟨List.replicate 36 0, true⟩).2.1 = false
    ∧ (∀ (other : point) (failing : reader), (from_data other failing).1 = false →
        (from_data other failing).2.1 = (from_data self ⟨List.replicate 36 0, true⟩).2.1
        ∧ eq (from_data other failing).2.1
            (from_data self ⟨List.replicate 36 0, true⟩).2.1 = true
        ∧ factory_from_data other failing
            = factory_from_data self ⟨List.replicate 36 0, true⟩) := by
  obtain ⟨hv, hl⟩ := point_from_data_true_source self source h
  obtain ⟨d, valid⟩ := source
  simp only at hv hl
  subst hv
  have hzero : from_data self ⟨List.replicate 36 0, true⟩
      = (true, ⟨null_hash, 0⟩, ⟨[], true⟩) := by
    rw [point_from_data_of_le self _ (by simp)]
    decide
  refine ⟨?_, ?_, hzero, ?_, ?_⟩
  · rw [point_from_data_of_le self d hl]
  · rw [point_from_data_of_le self d hl]
    exact point_is_valid_iff_bytes d hl
  · rw [hzero]
    rfl
  · intro other failing hf
    have hr := point_from_data_reset_of_false other failing hf
    simp only [factory_from_data]
    rw [hr, hzero]
    exact ⟨rfl, by decide, rfl⟩

/-- Witness for C39: the stream of 36 zero bytes against the empty stream. -/
theorem point_is_valid_after_from_data_witness :
    (from_data ⟨null_hash, 7⟩ ⟨List.replicate 36 0, true⟩).1 = true
    ∧ (from_data ⟨null_hash, 7⟩ ⟨[], true⟩).1 = false
    ∧ is_valid (from_data ⟨null_hash, 7⟩ ⟨List.replicate 36 0, true⟩).2.1 = false
    ∧ factory_from_data ⟨null_hash, 7⟩ ⟨[], true⟩
        = factory_from_data ⟨null_hash, 7⟩ ⟨List.replicate 36 0, true⟩ :=
  ⟨by decide, by decide,
    (point_is_valid_after_from_data ⟨null_hash, 7⟩ ⟨List.replicate 36 0, true⟩
      (by decide)).2.2.2.1,
    ((point_is_valid_after_from_data ⟨null_hash, 7⟩ ⟨List.replicate 36 0, true⟩
      (by decide)).2.2.2.2 ⟨null_hash, 7⟩ ⟨[], true⟩ (by decide)).2.2⟩

end point

/-! ## operation: the pay patterns exclude each other and the sign patterns -/

namespace operation

/-- A stack holding an operation whose code is not a push is not push-only. -/
theorem is_push_only_false_of_code (ops : List operation) (i : Nat) (hi : i < ops.length)
    (h : is_push (nth ops i).code = false) : is_push_only ops = false := by
  have hmem : nth ops i ∈ ops := by
    simp only [nth, List.getD_eq_getElem?_getD, List.getElem?_eq_getElem hi, Option.getD_some]
    exact List.getElem_mem hi
  have hpos : 0 < count_non_push ops := by
    simp only [count_non_push]
    rw [List.countP_pos_iff]
    exact ⟨nth ops i, hmem, by simp [h]⟩
  simp only [is_push_only, beq_eq_false_iff_ne, ne_eq]
  omega

/-- The four sign predicates reject a stack that is not push-only. -/
theorem sign_patterns_false_of_not_push_only (is_public_key : data_chunk → Bool)
    (parse_strict : data_chunk → Option script_pattern) (ops : List operation)
    (h : is_push_only ops = false) :
    is_sign_multisig_pattern ops = false
    ∧ is_sign_public_key_pattern ops = false
    ∧ is_sign_key_hash_pattern is_public_key ops = false
    ∧ is_sign_script_hash_pattern parse_strict ops = false := by
  refine ⟨?_, ?_, ?_, ?_⟩
  · simp [is_sign_multisig_pattern, h]
  · simp [is_sign_public_key_pattern, h]
  · simp [is_sign_key_hash_pattern, h]
  · simp [is_sign_script_hash_pattern, h]

theorem is_null_data_pattern_shape (ops : List operation)
    (h : is_null_data_pattern ops = true) :
    ops.length = 2 ∧ (nth ops 0).code = opcode.return_ := by
  simp only [is_null_data_pattern, Bool.and_eq_true, beq_iff_eq] at h
  exact ⟨h.1.1.1, h.1.1.2⟩

theorem is_pay_multisig_pattern_shape (is_public_key : data_chunk → Bool)
    (ops : List operation) (h : is_pay_multisig_pattern is_public_key ops = true) :
    4 ≤ ops.length ∧ (nth ops (ops.length - 1)).code = opcode.checkmultisig := by
  simp only [is_pay_multisig_pattern, Bool.or_eq_true, decide_eq_true_eq, bne_iff_ne, ne_eq]
    at h
  split_ifs at h with c1
  constructor
  · omega
  · by_contra hc
    exact c1 (Or.inr hc)

theorem is_pay_public_key_pattern_shape (is_public_key : data_chunk → Bool)
    (ops : List operation) (h : is_pay_public_key_pattern is_public_key ops = true) :
    ops.length = 2 ∧ (nth ops 0).code = opcode.special
      ∧ (nth ops 1).code = opcode.checksig := by
  simp only [is_pay_public_key_pattern, Bool.and_eq_true, beq_iff_eq] at h
  exact ⟨h.1.1.1, h.1.1.2, h.2⟩

theorem is_pay_key_hash_pattern_shape (ops : List operation)
    (h : is_pay_key_hash_pattern ops = true) :
    ops.length = 5 ∧ (nth ops 0).code = opcode.dup ∧ (nth ops 4).code = opcode.checksig := by
  simp only [is_pay_key_hash_pattern, Bool.and_eq_true, beq_iff_eq] at h
  exact ⟨h.1.1.1.1.1.1, h.1.1.1.1.1.2, h.2⟩

theorem is_pay_script_hash_pattern_shape (ops : List operation)
    (h : is_pay_script_hash_pattern ops = true) :
    ops.length = 3 ∧ (nth ops 0).code = opcode.hash160 := by
  simp only [is_pay_script_hash_pattern, Bool.and_eq_true, beq_iff_eq] at h
  exact ⟨h.1.1.1.1, h.1.1.1.2⟩

/-- A stack accepted by one of the five pay predicates is not push-only. -/
theorem pay_patterns_not_push_only (is_public_key : data_chunk → Bool)
    (ops : List operation)
    (h : is_null_data_pattern ops = true
      ∨ is_pay_multisig_pattern is_public_key ops = true
      ∨ is_pay_public_key_pattern is_public_key ops = true
      ∨ is_pay_key_hash_pattern ops = true
      ∨ is_pay_script_hash_pattern ops = true) :
    is_push_only ops = false := by
  rcases h with h | h | h | h | h
  · obtain ⟨hl, h0⟩ := is_null_data_pattern_shape ops h
    exact is_push_only_false_of_code ops 0 (by omega) (by rw [h0]; decide)
  · obtain ⟨hl, h0⟩ := is_pay_multisig_pattern_shape is_public_key ops h
    exact is_push_only_false_of_code ops (ops.length - 1) (by omega) (by rw [h0]; decide)
  · obtain ⟨hl, _, h1⟩ := is_pay_public_key_pattern_shape is_public_key ops h
    exact is_push_only_false_of_code ops 1 (by omega) (by rw [h1]; decide)
  · obtain ⟨hl, h0, _⟩ := is_pay_key_hash_pattern_shape ops h
    exact is_push_only_false_of_code ops 0 (by omega) (by rw [h0]; decide)
  · obtain ⟨hl, h0⟩ := is_pay_script_hash_pattern_shape ops h
    exact is_push_only_false_of_code ops 0 (by omega) (by rw [h0]; decide)

/-- C37: no operation sequence satisfies two different predicates among
`is_null_data_pattern`, `is_pay_multisig_pattern`, `is_pay_public_key_pattern`,
`is_pay_key_hash_pattern` and `is_pay_script_hash_pattern` (the ten pairs, in
that order); and a sequence satisfying one of the five is rejected by
`is_push_only` and by the four `is_sign_*_pattern` predicates. -/
theorem pay_patterns_exclusive (is_public_key : data_chunk → Bool)
    (parse_strict : data_chunk → Option script_pattern) (ops : List operation) :
    List.Pairwise (fun p q => ¬ (p = true ∧ q = true))
      [is_null_data_pattern ops, is_pay_multisig_pattern is_public_key ops,
        is_pay_public_key_pattern is_public_key ops, is_pay_key_hash_pattern ops,
        is_pay_script_hash_pattern ops]
    ∧ ((is_null_data_pattern ops = true
          ∨ is_pay_multisig_pattern is_public_key ops = true
          ∨ is_pay_public_key_pattern is_public_key ops = true
          ∨ is_pay_key_hash_pattern ops = true
          ∨ is_pay_script_hash_pattern ops = true) →
        is_push_only ops = false
        ∧ is_sign_multisig_pattern ops = false
        ∧ is_sign_public_key_pattern ops = false
        ∧ is_sign_key_hash_pattern is_public_key ops = false
        ∧ is_sign_script_hash_pattern parse_strict ops = false) := by
  constructor
  · simp only [List.pairwise_cons, List.mem_cons, List.mem_singleton, List.not_mem_nil,
      forall_eq_or_imp, forall_eq, List.Pairwise.nil, and_true, not_and, IsEmpty.forall_iff,
      implies_true]
    refine ⟨⟨?_, ?_, ?_, ?_⟩, ⟨?_, ?_, ?_⟩, ⟨?_, ?_⟩, ?_⟩
    · intro hn hm
      have h1 := (is_null_data_pattern_shape ops hn).1
      have h2 := (is_pay_multisig_pattern_shape is_public_key ops hm).1
      omega
    · intro hn hp
      have h1 := (is_null_data_pattern_shape ops hn).2
      have h2 := (is_pay_public_key_pattern_shape is_public_key ops hp).2.1
      rw [h1] at h2
      exact absurd h2 (by decide)
    · intro hn hk
      have h1 := (is_null_data_pattern_shape ops hn).1
      have h2 := (is_pay_key_hash_pattern_shape ops hk).1
      omega
    · intro hn hs
      have h1 := (is_null_data_pattern_shape ops hn).1
      have h2 := (is_pay_script_hash_pattern_shape ops hs).1
      omega
    · intro hm hp
      have h1 := (is_pay_multisig_pattern_shape is_public_key ops hm).1
      have h2 := (is_pay_public_key_pattern_shape is_public_key ops hp).1
      omega
    · intro hm hk
      obtain ⟨_, h1⟩ := is_pay_multisig_pattern_shape is_public_key ops hm
      obtain ⟨hl, _, h2⟩ := is_pay_key_hash_pattern_shape ops hk
      rw [hl] at h1
      rw [h1] at h2
      exact absurd h2 (by decide)
    · intro hm hs
      have h1 := (is_pay_multisig_pattern_shape is_public_key ops hm).1
      have h2 := (is_pay_script_hash_pattern_shape ops hs).1
      omega
    · intro hp hk
      have h1 := (is_pay_public_key_pattern_shape is_public_key ops hp).1
      have h2 := (is_pay_key_hash_pattern_shape ops hk).1
      omega
    · intro hp hs
      have h1 := (is_pay_public_key_pattern_shape is_public_key ops hp).1
      have h2 := (is_pay_script_hash_pattern_shape ops hs).1
      omega
    · intro hk hs
      have h1 := (is_pay_key_hash_pattern_shape ops hk).1
      have h2 := (is_pay_script_hash_pattern_shape ops hs).1
      omega
  · intro h
    have hpush := pay_patterns_not_push_only is_public_key ops h
    exact ⟨hpush, sign_patterns_false_of_not_push_only is_public_key parse_strict ops hpush⟩

/-- Witness for C37: the pay-to-script-hash script over twenty bytes 7 is
accepted by `is_pay_script_hash_pattern`, hence by none of the sign predicates
nor `is_push_only`. -/
theorem pay_patterns_exclusive_witness :
    is_pay_script_hash_pattern
        [⟨opcode.hash160, []⟩, ⟨opcode.special, List.replicate 20 7⟩, ⟨opcode.equal, []⟩]
      = true
    ∧ (is_push_only
          [⟨opcode.hash160, []⟩, ⟨opcode.special, List.replicate 20 7⟩, ⟨opcode.equal, []⟩]
        = false
      ∧ is_sign_multisig_pattern
          [⟨opcode.hash160, []⟩, ⟨opcode.special, List.replicate 20 7⟩, ⟨opcode.equal, []⟩]
        = false
      ∧ is_sign_public_key_pattern
          [⟨opcode.hash160, []⟩, ⟨opcode.special, List.replicate 20 7⟩, ⟨opcode.equal, []⟩]
        = false
      ∧ is_sign_key_hash_pattern (fun _ => true)
          [⟨opcode.hash160, []⟩, ⟨opcode.special, List.replicate 20 7⟩, ⟨opcode.equal, []⟩]
        = false
      ∧ is_sign_script_hash_pattern sample_parse_strict
          [⟨opcode.hash160, []⟩, ⟨opcode.special, List.replicate 20 7⟩, ⟨opcode.equal, []⟩]
        = false) :=
  ⟨by decide,
    (pay_patterns_exclusive (fun _ => true) sample_parse_strict
      [⟨opcode.hash160, []⟩, ⟨opcode.special, List.replicate 20 7⟩, ⟨opcode.equal, []⟩]).2
      (Or.inr (Or.inr (Or.inr (Or.inr (by decide)))))⟩

end operation

/-! ## operation: the null-data pattern through the codec -/

namespace operation

/-- When the first byte is not in 1..75, the operation that `from_data` leaves
does not have code `special`, whether it succeeds or not. -/
theorem from_data_code_ne_special (self : operation) (b : byte) (rest : data_chunk)
    (hb : ¬ (1 ≤ b.val ∧ b.val ≤ 75)) :
    (from_data self ⟨b :: rest, true⟩).2.1.code ≠ opcode.special := by
  have hs : b ≠ opcode.special := by
    intro h
    rw [h] at hb
    exact hb (by decide)
  have hcode : (if 0 < b.val ∧ b.val ≤ 75 then opcode.special else b) = b := by
    rw [if_neg]
    intro h
    exact hb ⟨h.1, h.2⟩
  rw [from_data_cons]
  simp only [hcode]
  by_cases hm : must_read_data b = true
  · rw [if_pos hm]
    generalize read_opcode_data_size 0 b b ⟨rest, true⟩ = sz
    generalize sz.2.2.read_data sz.2.1.val = d
    generalize (d.2.valid && (d.1.length == sz.2.1.val)) = result
    cases result
    · show opcode.zero ≠ opcode.special
      decide
    · exact hs
  · rw [if_neg hm]
    exact hs

/-- C35: for every payload `d` of at most 80 bytes, write the two operations of
`to_null_data_pattern(d)` with `to_data` and read the bytes back with two
`from_data` calls. Both calls succeed, no byte is left and the two operations
read are the two written iff 1 <= |d| <= 75, and then `is_null_data_pattern`
accepts them; for the empty payload and for payloads of 76 to 80 bytes the
second operation read does not have code `special` (a failed call leaves code
`zero`) and `is_null_data_pattern` rejects the two operations read. -/
theorem null_data_pattern_through_codec (self1 self2 : operation) (d : data_chunk)
    (hd : d.length ≤ 80) :
    ((from_data self1
          (reader.of_data (((to_null_data_pattern d).map to_data).flatten))).1 = true
        ∧ (from_data self2 (from_data self1
          (reader.of_data (((to_null_data_pattern d).map to_data).flatten))).2.2).1 = true
        ∧ (from_data self2 (from_data self1
          (reader.of_data (((to_null_data_pattern d).map to_data).flatten))).2.2).2.2
            = ⟨[], true⟩
        ∧ [(from_data self1
              (reader.of_data (((to_null_data_pattern d).map to_data).flatten))).2.1,
            (from_data self2 (from_data self1
              (reader.of_data (((to_null_data_pattern d).map to_data).flatten))).2.2).2.1]
          = to_null_data_pattern d
      ↔ (1 ≤ d.length ∧ d.length ≤ 75))
    ∧ ((1 ≤ d.length ∧ d.length ≤ 75) →
        is_null_data_pattern
          [(from_data self1
              (reader.of_data (((to_null_data_pattern d).map to_data).flatten))).2.1,
            (from_data self2 (from_data self1
              (reader.of_data (((to_null_data_pattern d).map to_data).flatten))).2.2).2.1]
          = true)
    ∧ ((d.length = 0 ∨ 76 ≤ d.length) →
        (from_data self2 (from_data self1
          (reader.of_data (((to_null_data_pattern d).map to_data).flatten))).2.2).2.1.code
            ≠ opcode.special
        ∧ is_null_data_pattern
          [(from_data self1
              (reader.of_data (((to_null_data_pattern d).map to_data).flatten))).2.1,
            (from_data self2 (from_data self1
              (reader.of_data (((to_null_data_pattern d).map to_data).flatten))).2.2).2.1]
          = false) := by
  have hpat : to_null_data_pattern d = [⟨opcode.return_, []⟩, ⟨opcode.special, d⟩] := by
    simp only [to_null_data_pattern, max_null_data_size]
    rw [if_neg (by omega)]
  have hbytes : ((to_null_data_pattern d).map to_data).flatten
      = to_data ⟨opcode.return_, []⟩ ++ to_data ⟨opcode.special, d⟩ := by
    rw [hpat]
    simp
  have hfirst : from_data self1
      (reader.of_data (((to_null_data_pattern d).map to_data).flatten))
      = (true, ⟨opcode.return_, []⟩, ⟨to_data ⟨opcode.special, d⟩, true⟩) := by
    rw [hbytes, reader.of_data]
    exact operation_from_data_to_data_append self1 ⟨opcode.return_, []⟩ _ (by decide)
  rw [hfirst, hpat]
  simp only
  have hval : (cast_uint8 d.length).val = d.length := by
    simp only [cast_uint8]
    omega
  have hne : ¬ (1 ≤ d.length ∧ d.length ≤ 75) →
      (from_data self2 ⟨to_data ⟨opcode.special, d⟩, true⟩).2.1.code ≠ opcode.special := by
    intro hout
    rw [to_data_special]
    exact from_data_code_ne_special self2 _ d (by rw [hval]; exact hout)
  have hin : (1 ≤ d.length ∧ d.length ≤ 75) →
      from_data self2 ⟨to_data ⟨opcode.special, d⟩, true⟩
        = (true, ⟨opcode.special, d⟩, ⟨[], true⟩) := by
    intro hrange
    have h := operation_from_data_to_data_append self2 ⟨opcode.special, d⟩ []
      (Or.inl ⟨rfl, hrange.1, hrange.2⟩)
    rw [List.append_nil] at h
    exact h
  refine ⟨⟨?_, ?_⟩, ?_, ?_⟩
  · rintro ⟨_, _, _, hops⟩
    by_contra hout
    apply hne hout
    simp only [List.cons.injEq, and_true, true_and] at hops
    rw [hops]
  · intro hrange
    rw [hin hrange]
    simp
  · intro hrange
    rw [hin hrange]
    simp only [is_null_data_pattern, nth, max_null_data_size, List.length_cons,
      List.length_nil, List.getD_cons_zero, List.getD_cons_succ]
    simp
    omega
  · intro hout
    have hcode := hne (by omega)
    refine ⟨hcode, ?_⟩
    simp only [is_null_data_pattern, nth, List.getD_cons_zero, List.getD_cons_succ]
    simp [hcode]

/-- Witness for C35: the empty payload is written as the bytes 106, 0 and read
back as `return_`, `zero`; a payload of 76 bytes is written with the leading
byte 76, the byte of `pushdata1`. -/
theorem null_data_pattern_through_codec_witness :
    ((to_null_data_pattern []).map to_data).flatten = [106, 0]
    ∧ (from_data ⟨opcode.nop, []⟩ (from_data ⟨opcode.nop, []⟩
        (reader.of_data (((to_null_data_pattern []).map to_data).flatten))).2.2)
      = (true, ⟨opcode.zero, []⟩, ⟨[], true⟩)
    ∧ ((from_data ⟨opcode.nop, []⟩ (from_data ⟨opcode.nop, []⟩
          (reader.of_data (((to_null_data_pattern []).map to_data).flatten))).2.2).2.1.code
        ≠ opcode.special
      ∧ is_null_data_pattern
          [(from_data ⟨opcode.nop, []⟩
              (reader.of_data (((to_null_data_pattern []).map to_data).flatten))).2.1,
            (from_data ⟨opcode.nop, []⟩ (from_data ⟨opcode.nop, []⟩
              (reader.of_data (((to_null_data_pattern []).map to_data).flatten))).2.2).2.1]
          = false)
    ∧ ((from_data ⟨opcode.nop, []⟩ (from_data ⟨opcode.nop, []⟩
          (reader.of_data
            (((to_null_data_pattern (List.replicate 76 7)).map to_data).flatten))).2.2).2.1.code
        ≠ opcode.special
      ∧ is_null_data_pattern
          [(from_data ⟨opcode.nop, []⟩
              (reader.of_data
                (((to_null_data_pattern (List.replicate 76 7)).map to_data).flatten))).2.1,
            (from_data ⟨opcode.nop, []⟩ (from_data ⟨opcode.nop, []⟩
              (reader.of_data
                (((to_null_data_pattern (List.replicate 76 7)).map to_data).flatten))).2.2).2.1]
          = false) :=
  ⟨by decide, by decide,
    (null_data_pattern_through_codec ⟨opcode.nop, []⟩ ⟨opcode.nop, []⟩ [] (by decide)).2.2
      (Or.inl rfl),
    (null_data_pattern_through_codec ⟨opcode.nop, []⟩ ⟨opcode.nop, []⟩ (List.replicate 76 7)
      (by decide)).2.2 (Or.inr (by decide))⟩

end operation

/-! ## header: the 80-byte body without the transaction count -/

/-- A read that leaves the stream valid found it valid with enough bytes, and
advanced by the number of bytes read. -/
theorem reader.read_data_valid (n : Nat) (r : reader) (h : (r.read_data n).2.valid = true) :
    r.valid = true ∧ n ≤ r.data.length ∧ (r.read_data n).2 = ⟨r.data.drop n, true⟩ := by
  obtain ⟨d, valid⟩ := r
  cases valid with
  | false => simp [reader.read_data] at h
  | true =>
    by_cases hn : n ≤ d.length
    · simp [reader.read_data, hn]
    · simp [reader.read_data, hn] at h

/-- Six reads of 4, 32, 32, 4, 4 and 4 bytes that leave the stream valid have
consumed exactly 80 bytes of a valid stream. -/
theorem reader.read_header_body (s0 s1 s2 s3 s4 s5 s6 : reader)
    (h1 : s1 = (s0.read_data 4).2) (h2 : s2 = (s1.read_data 32).2)
    (h3 : s3 = (s2.read_data 32).2) (h4 : s4 = (s3.read_data 4).2)
    (h5 : s5 = (s4.read_data 4).2) (h6 : s6 = (s5.read_data 4).2)
    (h : s6.valid = true) :
    s0.valid = true ∧ 80 ≤ s0.data.length ∧ s6 = ⟨s0.data.drop 80, true⟩ := by
  rw [h6] at h
  obtain ⟨v5, l5, e5⟩ := reader.read_data_valid 4 s5 h
  rw [← h6] at e5
  rw [h5] at v5
  obtain ⟨v4, l4, e4⟩ := reader.read_data_valid 4 s4 v5
  rw [← h5] at e4
  rw [h4] at v4
  obtain ⟨v3, l3, e3⟩ := reader.read_data_valid 4 s3 v4
  rw [← h4] at e3
  rw [h3] at v3
  obtain ⟨v2, l2, e2⟩ := reader.read_data_valid 32 s2 v3
  rw [← h3] at e2
  rw [h2] at v2
  obtain ⟨v1, l1, e1⟩ := reader.read_data_valid 32 s1 v2
  rw [← h2] at e1
  rw [h1] at v1
  obtain ⟨v0, l0, e0⟩ := reader.read_data_valid 4 s0 v1
  rw [← h1] at e0
  have d1 : s1.data = s0.data.drop 4 := by rw [e0]
  have d2 : s2.data = s0.data.drop 36 := by rw [e1, d1, List.drop_drop]
  have d3 : s3.data = s0.data.drop 68 := by rw [e2, d2, List.drop_drop]
  have d4 : s4.data = s0.data.drop 72 := by rw [e3, d3, List.drop_drop]
  have d5 : s5.data = s0.data.drop 76 := by rw [e4, d4, List.drop_drop]
  refine ⟨v0, ?_, ?_⟩
  · rw [d5, List.length_drop] at l5
    omega
  · rw [e5, d5, List.drop_drop]

namespace header

/-- The header that `from_data` leaves has `transaction_count = 0` when the
count is not read, whether the parse succeeds or not. -/
theorem header_from_data_false_count (self : header) (source : reader) :
    (from_data self source false).2.1.transaction_count = 0 := by
  simp only [from_data, Bool.false_eq_true, if_false]
  split <;> simp [reset]

/-- The result of `from_data` without the count is the validity of the stream
after the six reads of the body, and the stream is left there. -/
theorem header_from_data_false_result (self : header) (source : reader) :
    (from_data self source false).1
        = ((((((source.read_data 4).2.read_data 32).2.read_data 32).2.read_data 4).2.read_data
            4).2.read_data 4).2.valid
    ∧ (from_data self source false).2.2
        = ((((((source.read_data 4).2.read_data 32).2.read_data 32).2.read_data 4).2.read_data
            4).2.read_data 4).2 := by
  simp only [from_data, reader.read_hash, reader.read_4_bytes_little_endian, hash_size,
    Bool.false_eq_true, if_false]
  split <;> simp_all

/-- Decoding the 80-byte encoding of a header, with any bytes after it: the six
body fields are read back, the count is zero and the hash cache is empty. -/
theorem header_from_data_to_data_false_append (self h : header) (rest : data_chunk) :
    from_data self ⟨to_data h false ++ rest, true⟩ false
      = (true, { h with transaction_count := 0, hash_ := none }, ⟨rest, true⟩) := by
  simp only [from_data, to_data, List.append_assoc, reader.read_hash_write,
    reader.read_4_bytes_write, Bool.false_eq_true, if_false, List.nil_append]
  simp [reset]

/-- C38, as the code behaves: `from_data(bytes, false)` always leaves
`transaction_count = 0`, and when it returns true it has consumed exactly 80
bytes. For every header `h`, `from_data(h.to_data(false), false)` returns
true, consumes the 80 bytes and yields the six body fields of `h` with count 0
and an empty hash cache; it is equal to `h` under `operator==` iff
`h.transaction_count = 0`; its `hash()` is the digest of the 80 bytes. That
is the value of `h.hash()` iff the cache of `h` is empty or holds the digest
of the current fields of `h`: for a header assigned to after `hash()` was
called, whose cache is stale, the two digests differ. -/
theorem header_from_data_without_count (bitcoin_hash : data_chunk → hash_digest)
    (self h : header) (source : reader) :
    (from_data self source false).2.1.transaction_count = 0
    ∧ ((from_data self source false).1 = true →
        80 ≤ source.data.length
        ∧ (from_data self source false).2.2 = ⟨source.data.drop 80, true⟩)
    ∧ (to_data h false).length = 80
    ∧ from_data self (reader.of_data (to_data h false)) false
        = (true, { h with transaction_count := 0, hash_ := none }, ⟨[], true⟩)
    ∧ (eq (from_data self (reader.of_data (to_data h false)) false).2.1 h = true
        ↔ h.transaction_count = 0)
    ∧ (hash bitcoin_hash (from_data self (reader.of_data (to_data h false)) false).2.1).1
        = bitcoin_hash (to_data h false)
    ∧ ((hash bitcoin_hash (from_data self (reader.of_data (to_data h false)) false).2.1).1
          = (hash bitcoin_hash h).1
        ↔ (h.hash_ = none ∨ h.hash_ = some (bitcoin_hash (to_data h false)))) := by
  have hparse : from_data self (reader.of_data (to_data h false)) false
      = (true, { h with transaction_count := 0, hash_ := none }, ⟨[], true⟩) := by
    have hr := header_from_data_to_data_false_append self h []
    rw [List.append_nil] at hr
    exact hr
  have hdigest : (hash bitcoin_hash { h with transaction_count := 0, hash_ := none }).1
      = bitcoin_hash (to_data h false) := by
    simp [hash, to_data]
  refine ⟨header_from_data_false_count self source, ?_, ?_, hparse, ?_, ?_, ?_⟩
  · intro hres
    obtain ⟨h1, h2⟩ := header_from_data_false_result self source
    rw [h1] at hres
    rw [h2]
    exact (reader.read_header_body source _ _ _ _ _ _ rfl rfl rfl rfl rfl rfl hres).2
  · rw [header_to_data_length]
    rfl
  · rw [hparse]
    simp only [eq, beq_self_eq_true, Bool.true_and, beq_iff_eq]
    constructor
    · intro heq
      exact heq.symm
    · intro heq
      exact heq.symm
  · rw [hparse]
    exact hdigest
  · rw [hparse]
    simp only
    rw [hdigest]
    cases hc : h.hash_ with
    | none => simp [hash, hc, to_data]
    | some x =>
      simp only [hash, hc, Option.some.injEq]
      constructor
      · intro heq
        exact Or.inr heq.symm
      · rintro (hn | heq)
        · exact absurd hn (by simp)
        · exact heq.symm

/-- Witness for C38: the header `(version 1, zero elsewhere)` is hashed and then
assigned the header `(version 2, zero elsewhere)`, which leaves the first
digest in its cache. With `hash_digest.of_bytes` standing for the hash
primitive, the header parsed from its 80 bytes has another `hash()`. -/
theorem header_from_data_without_count_witness :
    (hash hash_digest.of_bytes
        (from_data (construct 0 null_hash null_hash 0 0 0 0)
          (reader.of_data
            (to_data
              (assign (hash hash_digest.of_bytes (construct 1 null_hash null_hash 0 0 0 0)).2
                (construct 2 null_hash null_hash 0 0 0 0)) false)) false).2.1).1
      ≠ (hash hash_digest.of_bytes
          (assign (hash hash_digest.of_bytes (construct 1 null_hash null_hash 0 0 0 0)).2
            (construct 2 null_hash null_hash 0 0 0 0))).1 :=
  fun heq =>
    absurd
      ((header_from_data_without_count hash_digest.of_bytes
          (construct 0 null_hash null_hash 0 0 0 0)
          (assign (hash hash_digest.of_bytes (construct 1 null_hash null_hash 0 0 0 0)).2
            (construct 2 null_hash null_hash 0 0 0 0))
          ⟨[], true⟩).2.2.2.2.2.2.mp heq)
      (by decide)

end header

/-! ## UTF-8 character break detection -/

/-- C40 fails on the code. The text `0x61, 0xE2` is the complete one-byte
character `a` followed by the first byte of a three-byte character: its first
byte ends in a valid character (offset 1) and its two bytes do not (offset 0),
so the smallest offset is 1; `offset_to_terminal_utf8_character` returns 0,
because `is_terminal_utf8_character` tries the lengths below `size` only and
never a character that spans the whole text. The same for the three-byte
character `0xE2, 0x82, 0xAC` followed by two bytes of the next one (returns 0,
not 2) and for `a` followed by three bytes of a four-byte character (returns
0, not 3). With a second character in front the offset is found: `a`, `b`,
`0xE2` gives 1. -/
theorem offset_to_terminal_utf8_character_whole_text :
    (ends_in_utf8_character [0x61, 0xE2] (2 - 1) = true
      ∧ ends_in_utf8_character [0x61, 0xE2] (2 - 0) = false
      ∧ is_terminal_utf8_character [0x61, 0xE2] (2 - 1) = false
      ∧ offset_to_terminal_utf8_character [0x61, 0xE2] 2 = 0)
    ∧ (ends_in_utf8_character [0xE2, 0x82, 0xAC, 0xE2, 0x82] (5 - 2) = true
      ∧ ends_in_utf8_character [0xE2, 0x82, 0xAC, 0xE2, 0x82] (5 - 1) = false
      ∧ ends_in_utf8_character [0xE2, 0x82, 0xAC, 0xE2, 0x82] (5 - 0) = false
      ∧ is_terminal_utf8_character [0xE2, 0x82, 0xAC, 0xE2, 0x82] (5 - 2) = false
      ∧ offset_to_terminal_utf8_character [0xE2, 0x82, 0xAC, 0xE2, 0x82] 5 = 0)
    ∧ (ends_in_utf8_character [0x61, 0xF0, 0x9F, 0x98] (4 - 3) = true
      ∧ ends_in_utf8_character [0x61, 0xF0, 0x9F, 0x98] (4 - 2) = false
      ∧ ends_in_utf8_character [0x61, 0xF0, 0x9F, 0x98] (4 - 1) = false
      ∧ ends_in_utf8_character [0x61, 0xF0, 0x9F, 0x98] (4 - 0) = false
      ∧ is_terminal_utf8_character [0x61, 0xF0, 0x9F, 0x98] (4 - 3) = false
      ∧ offset_to_terminal_utf8_character [0x61, 0xF0, 0x9F, 0x98] 4 = 0)
    ∧ (ends_in_utf8_character [0x61, 0x62, 0xE2] (3 - 1) = true
      ∧ ends_in_utf8_character [0x61, 0x62, 0xE2] (3 - 0) = false
      ∧ offset_to_terminal_utf8_character [0x61, 0x62, 0xE2] 3 = 1) := by
  refine ⟨⟨?_, ?_, ?_, ?_⟩, ⟨?_, ?_, ?_, ?_, ?_⟩, ⟨?_, ?_, ?_, ?_, ?_, ?_⟩, ⟨?_, ?_, ?_⟩⟩
  all_goals decide

end libbitcoin
